import Mathlib

/-!
# Volcano scheduler: queue model and Ascend 910B device allocation

A shallow embedding of

* `pkg/scheduler/api/queue_info.go` (`NewQueueInfo`, `QueueInfo.Clone`,
  `QueueInfo.Reclaimable`), and
* `pkg/scheduler/plugins/ascend-volcano-plugin/internal/npu/ascend910/ascend910b/base.go`
  (`initSelectNodeInf`, `Judge910BNodeAndTaskNPU`, `GetNodeBestScore`,
  `SelectNPUByTaskNPUNumAndNodeTop`, `GetNPUAllocPriorityArray`,
  `GetNodeHccsArray`, `getCrossHccsArray`, `getCrossHccsArrayByCutNum`).

Modelling conventions.

* Go objects reached through pointers live in an explicit `Heap`; a pointer is
  an address (`Nat`) or nil (`none`).  Allocation (`&T{...}`) appends to the
  heap, so a fresh address is the previous length of the corresponding store.
  A function that dereferences a nil pointer panics in Go; here it returns
  `none`.
* Go `int`/`int32` values are modelled by `Int`: the quantities involved are
  queue weights, device counts and device indices, the only arithmetic is
  `MaxNodeNPUNum / 2` and loop counters bounded by `MaxNodeNPUNum + 2`, so no
  operation wraps for any `MaxNodeNPUNum` below `2^63 - 2`.  `/` on `int` is
  truncating division (`Int.tdiv`).
* Go `(value, error)` results are modelled by `Except String value`; the
  error case stands for a nil value together with a non-nil error, which is
  what every error return of the embedded functions is.  A function that can
  also panic returns an `Option` of that, `none` being the panic.
* Calls to `klog` only write log lines and are left out.
-/

namespace Volcano

/-! ## Queue model (`pkg/scheduler/api/queue_info.go`) -/

namespace Api

/-- The constant `DequeueStrategyFIFO`. -/
def DequeueStrategyFIFO : String := "fifo"

/-- The constant `DequeueStrategyTraverse`. -/
def DequeueStrategyTraverse : String := "traverse"

/-- The constant `DefaultDequeueStrategy`. -/
def DefaultDequeueStrategy : String := DequeueStrategyTraverse

/-- The constant `DequeueStrategyAnnotationKey`. -/
def DequeueStrategyAnnotationKey : String := "volcano.sh/dequeue-strategy"

/-- The two annotation keys `v1beta1.KubeHierarchyAnnotationKey` and
`v1beta1.KubeHierarchyWeightAnnotationKey`.  They are declared in the external
package `volcano.sh/apis`, so their values are parameters of the model. -/
structure V1beta1 where
  KubeHierarchyAnnotationKey : String
  KubeHierarchyWeightAnnotationKey : String
deriving DecidableEq, Repr

/-- A Go `map[string]string`.  `none` is the nil map; in `some kvs` the binding
of a key is the first pair of `kvs` carrying that key. -/
abbrev StringMap := Option (List (String × String))

/-- The two-result index expression `v, exists := m[k]`: the zero value `""`
and `false` on a nil map or a missing key. -/
def mapIndex (m : StringMap) (k : String) : String × Bool :=
  match m with
  | none => ("", false)
  | some kvs =>
    match kvs.lookup k with
    | some v => (v, true)
    | none => ("", false)

/-- The part of `scheduling.QueueSpec` read by the code: `Weight int32` and
`Reclaimable *bool` (`none` is the nil pointer). -/
structure QueueSpec where
  Weight : Int
  Reclaimable : Option Bool
deriving DecidableEq, Repr

/-- The part of `scheduling.Queue` read by the code: `ObjectMeta.Name`,
`ObjectMeta.Annotations` and `Spec`. -/
structure Queue where
  Name : String
  Annotations : StringMap
  Spec : QueueSpec
deriving DecidableEq, Repr

/-- A Go pointer: an address, or `none` for nil. -/
abbrev Ptr := Option Nat

/-- The struct `QueueInfo`.  `Queue` is a `*scheduling.Queue`. -/
structure QueueInfo where
  UID : String
  Name : String
  Weight : Int
  Weights : String
  Hierarchy : String
  DequeueStrategy : String
  Queue : Ptr
deriving DecidableEq, Repr

/-- The memory holding the `scheduling.Queue` objects and the `QueueInfo`
objects; the address of an object is its position in its store. -/
structure Heap where
  queues : List Queue
  infos : List QueueInfo
deriving DecidableEq, Repr

/-- The allocation `&QueueInfo{...}`: stores the value at a fresh address and
returns the new heap with that address. -/
def Heap.allocInfo (h : Heap) (v : QueueInfo) : Heap × Nat :=
  ({ h with infos := h.infos ++ [v] }, h.infos.length)

/-- The local variable `dequeueStrategy` of `NewQueueInfo` at the return
statement, computed from `queue.Annotations`. -/
def dequeueStrategyOf (annotations : StringMap) : String :=
  let dequeueStrategy := DefaultDequeueStrategy
  if annotations.isSome then
    let (strategy, «exists») := mapIndex annotations DequeueStrategyAnnotationKey
    if «exists» ∧ strategy ≠ "" then
      if strategy = DequeueStrategyFIFO ∨ strategy = DequeueStrategyTraverse then
        strategy
      else
        DefaultDequeueStrategy
    else dequeueStrategy
  else dequeueStrategy

/-- The function `NewQueueInfo(queue *scheduling.Queue) *QueueInfo`.  The
result is `none` when `queue` is nil or not an allocated object (the Go code
panics on `queue.Annotations`). -/
def NewQueueInfo (keys : V1beta1) (h : Heap) (queue : Ptr) : Option (Heap × Nat) :=
  match queue with
  | none => none
  | some a =>
    match h.queues[a]? with
    | none => none
    | some obj =>
      let dequeueStrategy := dequeueStrategyOf obj.Annotations
      some (h.allocInfo
        { UID := obj.Name
          Name := obj.Name
          Weight := obj.Spec.Weight
          Hierarchy := (mapIndex obj.Annotations keys.KubeHierarchyAnnotationKey).1
          Weights := (mapIndex obj.Annotations keys.KubeHierarchyWeightAnnotationKey).1
          DequeueStrategy := dequeueStrategy
          Queue := some a })

/-- The method `(q *QueueInfo) Clone() *QueueInfo`.  The result is `none` when
the receiver is nil or not an allocated object (the Go code panics on
`q.UID`). -/
def QueueInfo.Clone (h : Heap) (q : Ptr) : Option (Heap × Nat) :=
  match q with
  | none => none
  | some a =>
    match h.infos[a]? with
    | none => none
    | some qv =>
      some (h.allocInfo
        { UID := qv.UID
          Name := qv.Name
          Weight := qv.Weight
          Hierarchy := qv.Hierarchy
          Weights := qv.Weights
          DequeueStrategy := qv.DequeueStrategy
          Queue := qv.Queue })

/-- The method `(q *QueueInfo) Reclaimable() bool`.  The result is `none` only
when a non-nil pointer that is followed is not an allocated object, which no
Go program can produce. -/
def QueueInfo.Reclaimable (h : Heap) (q : Ptr) : Option Bool :=
  match q with
  | none => some false
  | some a =>
    match h.infos[a]? with
    | none => none
    | some qv =>
      match qv.Queue with
      | none => some false
      | some b =>
        match h.queues[b]? with
        | none => none
        | some obj =>
          match obj.Spec.Reclaimable with
          | none => some true
          | some v => some v

/-- The object a successful `NewQueueInfo` call returns a pointer to. -/
def NewQueueInfo.value (keys : V1beta1) (h : Heap) (queue : Ptr) : Option QueueInfo :=
  match NewQueueInfo keys h queue with
  | none => none
  | some (h', p) => h'.infos[p]?

/-- An assignment `c.F = v` to one of the scalar fields of a `QueueInfo`. -/
inductive ScalarAssign where
  | UID (v : String)
  | Name (v : String)
  | Weight (v : Int)
  | Hierarchy (v : String)
  | Weights (v : String)
  | DequeueStrategy (v : String)
deriving DecidableEq, Repr

/-- The value of a `QueueInfo` after the assignment. -/
def ScalarAssign.apply (s : ScalarAssign) (c : QueueInfo) : QueueInfo :=
  match s with
  | .UID v => { c with UID := v }
  | .Name v => { c with Name := v }
  | .Weight v => { c with Weight := v }
  | .Hierarchy v => { c with Hierarchy := v }
  | .Weights v => { c with Weights := v }
  | .DequeueStrategy v => { c with DequeueStrategy := v }

/-- The statement `c.F = v` for a pointer `c *QueueInfo`: the object at
address `c` is updated in place.  The result is `none` when `c` is nil or not
an allocated object. -/
def QueueInfo.assign (h : Heap) (c : Ptr) (s : ScalarAssign) : Option Heap :=
  match c with
  | none => none
  | some a =>
    match h.infos[a]? with
    | none => none
    | some cv => some { h with infos := h.infos.set a (s.apply cv) }

/-- The `QueueInfo` objects obtained from the queue object `queue` of heap
`h0`: the one built by `NewQueueInfo`, and every result of `Clone` on an
object already obtained; objects obtained earlier stay available after any
later `Clone` call. -/
inductive Derived (keys : V1beta1) (h0 : Heap) (queue : Ptr) : Heap → Nat → Prop where
  | new {h1 : Heap} {p : Nat} :
      NewQueueInfo keys h0 queue = some (h1, p) → Derived keys h0 queue h1 p
  | clone {h h' : Heap} {p p' : Nat} :
      Derived keys h0 queue h p → QueueInfo.Clone h (some p) = some (h', p') →
      Derived keys h0 queue h' p'
  | keep {h h' : Heap} {p q p' : Nat} :
      Derived keys h0 queue h p → QueueInfo.Clone h (some q) = some (h', p') →
      Derived keys h0 queue h' p

/-! ### Example objects -/

/-- The annotation keys as declared in `volcano.sh/apis`. -/
def exampleKeys : V1beta1 :=
  { KubeHierarchyAnnotationKey := "volcano.sh/hierarchy"
    KubeHierarchyWeightAnnotationKey := "volcano.sh/hierarchy-weights" }

/-- A queue object as in `TestNewQueueInfo_DequeueStrategy`, with the given
annotations and reclaimable flag. -/
def exampleQueue (annotations : StringMap) (reclaimable : Option Bool) : Queue :=
  { Name := "test-queue", Annotations := annotations,
    Spec := { Weight := 10, Reclaimable := reclaimable } }

/-- A heap holding one queue object and no `QueueInfo`. -/
def exampleHeap (annotations : StringMap) (reclaimable : Option Bool) : Heap :=
  { queues := [exampleQueue annotations reclaimable], infos := [] }

/-- The annotations of the test case "mixed annotations with valid strategy". -/
def mixedAnnotations : StringMap :=
  some [("volcano.sh/dequeue-strategy", "fifo"), ("volcano.sh/hierarchy", "root/child"),
    ("volcano.sh/hierarchy-weights", "1/2"), ("some.other.annotation", "value")]

end Api

/-! ## Ascend 910B priority arrays (`ascend910b/base.go`) -/

namespace Ascend910b

deriving instance DecidableEq for Except

/-- Modelled from the spec: the constant `util.NPUIndex2` of the plugin's
`common/util` package, which is not among the sources.  The spec describes the
uses of `MaxNodeNPUNum / util.NPUIndex2` as "half capacity" and the loop step
`i = i + util.NPUIndex2` as "stepping by 2". -/
def NPUIndex2 : Int := 2

/-- The fields and methods of the handler `Base910b` used by `base.go`:
`MaxNodeNPUNum` and `NPUTaskNum` come from the embedded handler and job
attributes, `AffScoreList` is the affinity table.  The method `IsVaildNpuNum`
is declared outside the sources and is a parameter of the model. -/
structure Base910b where
  MaxNodeNPUNum : Int
  NPUTaskNum : Int
  AffScoreList : List (List Int)
  IsVaildNpuNum : Int → Bool

/-- At most `fuel` iterations of the loop
`for i := i; i <= hi; i = i + step { priorityArray = append(priorityArray, i) }`,
starting with `priorityArray = acc`. -/
def appendLoopFuel : Nat → Int → Int → Int → List Int → List Int
  | 0, _, _, _, acc => acc
  | fuel + 1, i, hi, step, acc =>
    if i ≤ hi then appendLoopFuel fuel (i + step) hi step (acc ++ [i]) else acc

/-- The loop `for i := i; i <= hi; i = i + step { priorityArray = append(priorityArray, i) }`.
For a positive step it runs at most `hi + 1 - i` times, which is the fuel
given (`appendLoopFuel_stable` shows that more fuel changes nothing). -/
def appendLoop (i hi step : Int) (acc : List Int) : List Int :=
  appendLoopFuel (hi + 1 - i).toNat i hi step acc

/-- The method `(tp *Base910b) GetNPUAllocPriorityArray(taskNPUNumber int) ([]int, error)`. -/
def Base910b.GetNPUAllocPriorityArray (tp : Base910b) (taskNPUNumber : Int) :
    Except String (List Int) :=
  if !tp.IsVaildNpuNum taskNPUNumber then
    .error s!"illegal request npu number: {taskNPUNumber}"
  else
    let priorityArray : List Int := []
    if taskNPUNumber = tp.MaxNodeNPUNum then
      .ok [tp.MaxNodeNPUNum]
    else if taskNPUNumber ≤ tp.MaxNodeNPUNum.tdiv NPUIndex2 then
      .ok (appendLoop taskNPUNumber (tp.MaxNodeNPUNum.tdiv NPUIndex2) 1 priorityArray)
    else if taskNPUNumber > tp.MaxNodeNPUNum.tdiv NPUIndex2 then
      .ok (appendLoop taskNPUNumber tp.MaxNodeNPUNum NPUIndex2 priorityArray)
    else
      .ok priorityArray

/-- A handler for a node of `maxNodeNPUNum` devices that accepts the requests
between 1 and `maxNodeNPUNum`. -/
def exampleHandler (maxNodeNPUNum : Int) : Base910b :=
  { MaxNodeNPUNum := maxNodeNPUNum
    NPUTaskNum := 1
    AffScoreList := []
    IsVaildNpuNum := fun n => decide (1 ≤ n ∧ n ≤ maxNodeNPUNum) }

/-! ### Node topology, feasibility, scoring and selection (`ascend910b/base.go`)

A Go slice `[]int` is a `List Int`; `len(s)` is `(s.length : Int)`.  A function
whose Go code can panic (an index or a slice bound out of range) returns an
`Option`, `none` being the panic. -/

/-- The struct `SelectNodeInf`, declared outside the sources; its four fields
are the ones `base.go` reads and writes. -/
structure SelectNodeInf where
  AllNPUNum : Int
  LeftNPUNum : Int
  RightNPUNum : Int
  crossNPUNum : Int
deriving DecidableEq, Repr

/-- The text `fmt` prints for a `[]int` under `%v`, for example `[0 1 2]`. -/
def fmtInts (l : List Int) : String :=
  "[" ++ " ".intercalate (l.map toString) ++ "]"

/-- The text `fmt` prints for a `SelectNodeInf` under `%v`: the field values in
declaration order between braces.  The declaration is outside the sources; the
order used here is `AllNPUNum`, `LeftNPUNum`, `RightNPUNum`, `crossNPUNum`. -/
def SelectNodeInf.fmt (i : SelectNodeInf) : String :=
  "\x7b" ++ " ".intercalate
    [toString i.AllNPUNum, toString i.LeftNPUNum, toString i.RightNPUNum,
      toString i.crossNPUNum] ++ "\x7d"

/-- The loop shared by `initSelectNodeInf` and `GetNodeHccsArray`:
`for _, v := range nodeTop { if v < cut { left = append(left, v) } else { right = append(right, v) } }`,
started with the pair `(left, right)` given as last argument. -/
def splitLoop (cut : Int) : List Int → List Int × List Int → List Int × List Int
  | [], acc => acc
  | v :: rest, (left, right) =>
    if v < cut then splitLoop cut rest (left ++ [v], right)
    else splitLoop cut rest (left, right ++ [v])

/-- The inner loop of `initSelectNodeInf`:
`for _, rightCardID := range rightHccsTop { if leftCardID+numHCCS == rightCardID { cross = cross + 2; break } }`. -/
def crossCountInner (leftCardID numHCCS : Int) : List Int → Int → Int
  | [], cross => cross
  | rightCardID :: rest, cross =>
    if leftCardID + numHCCS = rightCardID then cross + NPUIndex2
    else crossCountInner leftCardID numHCCS rest cross

/-- The outer loop `for _, leftCardID := range leftHccsTop { ... }` of
`initSelectNodeInf`. -/
def crossCountLoop (numHCCS : Int) (rightHccsTop : List Int) : List Int → Int → Int
  | [], cross => cross
  | leftCardID :: rest, cross =>
    crossCountLoop numHCCS rightHccsTop rest
      (crossCountInner leftCardID numHCCS rightHccsTop cross)

/-- The method `(ab *Base910b) initSelectNodeInf(npuTop []int) SelectNodeInf`. -/
def Base910b.initSelectNodeInf (ab : Base910b) (npuTop : List Int) : SelectNodeInf :=
  let numHCCS := ab.MaxNodeNPUNum.tdiv NPUIndex2
  let (leftHccsTop, rightHccsTop) := splitLoop numHCCS npuTop ([], [])
  let LeftNPUNum : Int := leftHccsTop.length
  let RightNPUNum : Int := rightHccsTop.length
  let AllNPUNum := LeftNPUNum + RightNPUNum
  if ab.NPUTaskNum > 1 then
    let minLen : Int := leftHccsTop.length
    let minLen : Int := if minLen > rightHccsTop.length then rightHccsTop.length else minLen
    { AllNPUNum := AllNPUNum, LeftNPUNum := LeftNPUNum, RightNPUNum := RightNPUNum,
      crossNPUNum := minLen * NPUIndex2 }
  else
    { AllNPUNum := AllNPUNum, LeftNPUNum := LeftNPUNum, RightNPUNum := RightNPUNum,
      crossNPUNum := crossCountLoop numHCCS rightHccsTop leftHccsTop 0 }

/-- The method `(ab *Base910b) Judge910BNodeAndTaskNPU(taskNPU int, nodeTop []int) error`;
`.ok ()` is the nil error. -/
def Base910b.Judge910BNodeAndTaskNPU (ab : Base910b) (taskNPU : Int) (nodeTop : List Int) :
    Except String Unit :=
  let dealReturnValue := fun (value : Bool) =>
    if value then (Except.ok () : Except String Unit)
    else .error (fmtInts nodeTop ++ " not meet req npu(" ++ toString taskNPU ++ ")")
  let sNodeInf := ab.initSelectNodeInf nodeTop
  if taskNPU = ab.MaxNodeNPUNum then
    dealReturnValue (decide (sNodeInf.AllNPUNum = ab.MaxNodeNPUNum))
  else if ab.IsVaildNpuNum taskNPU then
    dealReturnValue (decide (sNodeInf.LeftNPUNum ≥ taskNPU) || decide (sNodeInf.RightNPUNum ≥ taskNPU) ||
      (decide (taskNPU > ab.MaxNodeNPUNum.tdiv NPUIndex2) && decide (taskNPU ≤ sNodeInf.crossNPUNum)))
  else
    dealReturnValue false

/-- The index expression `table[i][j]` on a `[][]int`: `none` (a panic) when
`i` or `j` is negative or not below the length of the slice it indexes. -/
def tableAt (table : List (List Int)) (i j : Int) : Option Int :=
  if 0 ≤ i ∧ i < table.length then
    match table[i.toNat]? with
    | none => none
    | some row => if 0 ≤ j ∧ j < row.length then row[j.toNat]? else none
  else none

/-- The function `util.Min` on two `int`s. -/
def utilMin (a b : Int) : Int := if a < b then a else b

/-- The method `(ab *Base910b) GetNodeBestScore(taskNPUNum int, npuTop []int) (int, error)`;
`none` is a panic on an index of `AffScoreList` out of range. -/
def Base910b.GetNodeBestScore (ab : Base910b) (taskNPUNum : Int) (npuTop : List Int) :
    Option (Except String Int) :=
  let sNodeInf := ab.initSelectNodeInf npuTop
  if sNodeInf.AllNPUNum < 1 ∨ sNodeInf.AllNPUNum > ab.MaxNodeNPUNum then
    some (.error ("node top " ++ fmtInts npuTop ++ " is invalid for " ++ sNodeInf.fmt))
  else
    let err : String :=
      "node " ++ fmtInts npuTop ++ " is not meet task req " ++ toString taskNPUNum
    if taskNPUNum = ab.MaxNodeNPUNum then
      if (npuTop.length : Int) = ab.MaxNodeNPUNum then some (.ok 0) else some (.error err)
    else
      let bestScore : Option Int :=
        if taskNPUNum > ab.MaxNodeNPUNum.tdiv NPUIndex2 then
          tableAt ab.AffScoreList (taskNPUNum.tdiv NPUIndex2 - 1)
            (sNodeInf.crossNPUNum.tdiv NPUIndex2 - 1)
        else if sNodeInf.RightNPUNum = 0 then
          tableAt ab.AffScoreList (taskNPUNum - 1) (sNodeInf.LeftNPUNum - 1)
        else if sNodeInf.LeftNPUNum = 0 then
          tableAt ab.AffScoreList (taskNPUNum - 1) (sNodeInf.RightNPUNum - 1)
        else
          match tableAt ab.AffScoreList (taskNPUNum - 1) (sNodeInf.RightNPUNum - 1) with
          | none => none
          | some a =>
            match tableAt ab.AffScoreList (taskNPUNum - 1) (sNodeInf.LeftNPUNum - 1) with
            | none => none
            | some b => some (utilMin a b)
      match bestScore with
      | none => none
      | some bestScore =>
        if bestScore = (ab.AffScoreList.length : Int) then some (.error err)
        else some (.ok bestScore)

/-- The function `getCrossHccsArrayByCutNum`. -/
def getCrossHccsArrayByCutNum (crossHccsArray : List Int) (idCutNum : Int) : List Int :=
  if (crossHccsArray.length : Int) ≤ idCutNum then [] else crossHccsArray

/-- At most `fuel` iterations of the loop of `getCrossHccsArray` for replicas,
`for i := i; i < minLen; i++ { cross = append(cross, left[i], right[i]) }`;
`none` is a panic on an index out of range. -/
def pairByIndexFuel (leftHccsArray rightHccsArray : List Int) (minLen : Nat) :
    Nat → Nat → List Int → Option (List Int)
  | 0, _, cross => some cross
  | fuel + 1, i, cross =>
    if i < minLen then
      match leftHccsArray[i]?, rightHccsArray[i]? with
      | some l, some r =>
        pairByIndexFuel leftHccsArray rightHccsArray minLen fuel (i + 1) (cross ++ [l, r])
      | _, _ => none
    else some cross

/-- The inner loop of `getCrossHccsArray` for a single task:
`for _, rightCardID := range rightHccsArray { if leftCardID+idCutNum == rightCardID { cross = append(cross, leftCardID, rightCardID); break } }`. -/
def pairByOffsetInner (leftCardID idCutNum : Int) : List Int → List Int → List Int
  | [], cross => cross
  | rightCardID :: rest, cross =>
    if leftCardID + idCutNum = rightCardID then cross ++ [leftCardID, rightCardID]
    else pairByOffsetInner leftCardID idCutNum rest cross

/-- The outer loop `for _, leftCardID := range leftHccsArray { ... }` of
`getCrossHccsArray` for a single task. -/
def pairByOffsetLoop (idCutNum : Int) (rightHccsArray : List Int) : List Int → List Int → List Int
  | [], cross => cross
  | leftCardID :: rest, cross =>
    pairByOffsetLoop idCutNum rightHccsArray rest
      (pairByOffsetInner leftCardID idCutNum rightHccsArray cross)

/-- The local variable `crossHccsArray` of `getCrossHccsArray` when it is
passed to `getCrossHccsArrayByCutNum`, that is, the candidate list before the
capacity cut; `none` is a panic on an index out of range. -/
def crossCandidate (leftHccsArray rightHccsArray : List Int) (isMultNpuReplica : Bool)
    (idCutNum : Int) : Option (List Int) :=
  if isMultNpuReplica then
    let minLen := leftHccsArray.length
    let minLen := if minLen > rightHccsArray.length then rightHccsArray.length else minLen
    pairByIndexFuel leftHccsArray rightHccsArray minLen minLen 0 []
  else
    some (pairByOffsetLoop idCutNum rightHccsArray leftHccsArray [])

/-- The function `getCrossHccsArray`. -/
def getCrossHccsArray (leftHccsArray rightHccsArray : List Int) (isMultNpuReplica : Bool)
    (idCutNum : Int) : Option (List Int) :=
  match crossCandidate leftHccsArray rightHccsArray isMultNpuReplica idCutNum with
  | none => none
  | some crossHccsArray => some (getCrossHccsArrayByCutNum crossHccsArray idCutNum)

/-- The method `(tp *Base910b) GetNodeHccsArray(nodeTop []int, isMultNpuReplica bool) ([]int, []int, []int)`. -/
def Base910b.GetNodeHccsArray (tp : Base910b) (nodeTop : List Int) (isMultNpuReplica : Bool) :
    Option (List Int × List Int × List Int) :=
  let idCutNum := tp.MaxNodeNPUNum.tdiv NPUIndex2
  let (leftHccsArray, rightHccsArray) := splitLoop idCutNum nodeTop ([], [])
  match getCrossHccsArray leftHccsArray rightHccsArray isMultNpuReplica idCutNum with
  | none => none
  | some crossHccsArray => some (leftHccsArray, rightHccsArray, crossHccsArray)

/-- The slice expression `s[:n]`, defined when `0 <= n <= len(s)`.  For other
`n` the Go expression panics or, within the capacity of `s`, reaches past its
length; both are `none`. -/
def sliceTo (s : List Int) (n : Int) : Option (List Int) :=
  if 0 ≤ n ∧ n ≤ s.length then some (s.take n.toNat) else none

/-- The loop `for _, priority := range priorityArray { ... }` of
`SelectNPUByTaskNPUNumAndNodeTop`.  `some (some devices)` is a `return` from
inside the loop, `some none` the end of the loop without a return, and `none`
a slice expression out of range. -/
def selectLoop (taskNPUNum : Int) (leftHccsArray rightHccsArray samePlaceHccsArray : List Int) :
    List Int → Option (Option (List Int))
  | [] => some none
  | priority :: rest =>
    if priority = (leftHccsArray.length : Int) then
      (sliceTo leftHccsArray taskNPUNum).map some
    else if priority = (rightHccsArray.length : Int) then
      (sliceTo rightHccsArray taskNPUNum).map some
    else if priority = (samePlaceHccsArray.length : Int) then
      (sliceTo samePlaceHccsArray taskNPUNum).map some
    else selectLoop taskNPUNum leftHccsArray rightHccsArray samePlaceHccsArray rest

/-- The method
`(tp *Base910b) SelectNPUByTaskNPUNumAndNodeTop(taskNPUNum int, nodeTop []int) ([]int, error)`;
`none` is a panic. -/
def Base910b.SelectNPUByTaskNPUNumAndNodeTop (tp : Base910b) (taskNPUNum : Int)
    (nodeTop : List Int) : Option (Except String (List Int)) :=
  if taskNPUNum = tp.MaxNodeNPUNum then
    if (nodeTop.length : Int) = tp.MaxNodeNPUNum then some (.ok nodeTop)
    else some (.error ("node top<" ++ fmtInts nodeTop ++ "> can not meet task req<" ++
      toString taskNPUNum ++ ">"))
  else
    match tp.GetNPUAllocPriorityArray taskNPUNum with
    | .error err => some (.error err)
    | .ok priorityArray =>
      match tp.GetNodeHccsArray nodeTop (decide (tp.NPUTaskNum > 1)) with
      | none => none
      | some (leftHccsArray, rightHccsArray, samePlaceHccsArray) =>
        match selectLoop taskNPUNum leftHccsArray rightHccsArray samePlaceHccsArray
            priorityArray with
        | none => none
        | some (some devices) => some (.ok devices)
        | some none =>
          some (.error ("node top<" ++ toString nodeTop.length ++ "> can not meet task req<" ++
            toString taskNPUNum ++ ">"))

/-- The affinity table of a node of 8 devices: row `n - 1`, column `m - 1` is
the score of a request of `n` devices on a group of `m` free devices, 4 (the
number of rows) standing for a group that cannot hold the request. -/
def exampleAffScoreList : List (List Int) :=
  [[0, 1, 2, 3], [4, 0, 1, 2], [4, 4, 0, 1], [4, 4, 4, 0]]

/-- A handler for a node of 8 devices with the table `exampleAffScoreList`,
for a job of `npuTaskNum` tasks, accepting the requests between 1 and 8. -/
def exampleHandler8 (npuTaskNum : Int) : Base910b :=
  { MaxNodeNPUNum := 8
    NPUTaskNum := npuTaskNum
    AffScoreList := exampleAffScoreList
    IsVaildNpuNum := fun n => decide (1 ≤ n ∧ n ≤ 8) }

end Ascend910b

/-! ## The 300I Duo card handler (`ascend310p/card310px2/frame.go`)

The methods of `frame.go` are embedded on a handler record holding the fields
they read.  The constants and the helper methods they use are declared in
files outside the sources (`common/util`, `internal/npu/base`, `plugin`, the
rest of the package); they are parameters of the model: the constants in
`Consts`, the helper methods as function fields of the handler. -/

namespace Api

/-- The struct `api.ValidateResult`. -/
structure ValidateResult where
  Pass : Bool
  Reason : String
  Message : String
deriving DecidableEq, Repr

/-- The number `len(m)` is zero: the map is nil or has no entry. -/
def mapIsEmpty (m : StringMap) : Bool :=
  match m with
  | none => true
  | some kvs => kvs.isEmpty

end Api

namespace Card310px2

/-- The constants read by `frame.go` that are declared outside the sources:
`util.ArgumentError`, `util.DistributedInferKey`, `util.DistributedInferLabel`,
`util.NodeNotMeetTopologyWarning` and the package constants `affScore2` and
`constNPUWeight`. -/
structure Consts where
  ArgumentError : String
  DistributedInferKey : String
  DistributedInferLabel : String
  NodeNotMeetTopologyWarning : String
  affScore2 : Int
  constNPUWeight : Int

/-- The part of `api.TaskInfo` in reach of the model: the task name and the
annotations of its pod, which `SetNPUTopologyToPodFn` writes. -/
structure TaskInfo where
  Name : String
  PodAnnotations : Api.StringMap
deriving DecidableEq, Repr

/-- The part of `api.NodeInfo` read by `getScore`: the node name. -/
structure NodeInfo where
  Name : String
deriving DecidableEq, Repr

/-- The part of `plugin.NPUNode` in reach of the model: the node name and its
annotation map, which holds the free devices in serialized form. -/
structure NPUNode where
  Name : String
  Annotation : Api.StringMap
deriving DecidableEq, Repr

/-- A Go `map[string]float64` holding node scores.  Every score written by
`getScore` is `float64(k)` for an `int` value `k`; the entry stores `k`.  The
binding of a key is the first pair carrying it. -/
abbrev ScoreMap := List (String × Int)

/-- The assignment `scoreMap[key] = value`. -/
def scoreSet : ScoreMap → String → Int → ScoreMap
  | [], key, value => [(key, value)]
  | (k, v) :: rest, key, value =>
    if k = key then (k, value) :: rest else (k, v) :: scoreSet rest key value

/-- The part of `util.NPUJob` read by `frame.go`: the task map `Tasks`, of
which only the length is read (the list holds the task ids), and `NPUTaskNum`.
The handler reaches it through the pointer `*util.NPUJob` embedded in
`util.SchedulerJobAttr`, as in the handlers built in
`ascend910a3/frame_test.go`. -/
structure NPUJob where
  Tasks : List String
  NPUTaskNum : Int
deriving DecidableEq, Repr

/-- The handler `card310px2`: the fields read by `frame.go` (`Name` and `Label`
of the job attributes, the embedded pointer `NPUJob`, which is `none` when it
is nil, as on the handler that `New` returns, `MaxCardNPUNum`, `Nodes`,
`affScoreList`), and the methods declared outside the sources, as function
fields: the embedded `NPUHandler.ValidNPUJob` (its result), `GetTaskReqNPUNum`,
`GetUsableTopFromNode`, `JudgeNodeAndTaskNPU`, `GetCardNumGroupsFromTop`,
`SetNPUTopologyToPodFn`, `UpdateNodeInfo`, and the package function
`getNPUAllocPriorityArray`.  Reading `tp.Tasks` or `tp.NPUTaskNum` on a handler
whose `NPUJob` is nil is a nil-pointer panic. -/
structure card310px2 where
  Name : String
  Label : Api.StringMap
  NPUJob : Option NPUJob
  MaxCardNPUNum : Int
  Nodes : List (String × NPUNode)
  affScoreList : List (List Int)
  baseValidNPUJob : Option Api.ValidateResult
  GetTaskReqNPUNum : TaskInfo → Except String Int
  GetUsableTopFromNode : NPUNode → Bool → Except String (List Int)
  JudgeNodeAndTaskNPU : Int → List Int → Except String Unit
  getNPUAllocPriorityArray : Int → Except String (List Int)
  GetCardNumGroupsFromTop : List Int → List (List Int)
  SetNPUTopologyToPodFn : TaskInfo → List Int → NPUNode → TaskInfo
  UpdateNodeInfo : NPUNode → List Int → Option NPUNode

/-- The method `(tp *card310px2) ValidNPUJob() *api.ValidateResult`; `tp` is
`none` for a nil receiver.  The outer `none` of the result is a panic: the
arguments of the second log call contain `len(tp.Tasks)`, which is evaluated
whatever the log level is and dereferences the embedded `*util.NPUJob`.  The
inner `none` is a nil result. -/
def ValidNPUJob (c : Consts) (tp : Option card310px2) : Option (Option Api.ValidateResult) :=
  match tp with
  | none => some (some { Pass := false, Reason := c.ArgumentError, Message := c.ArgumentError })
  | some tp =>
    match tp.NPUJob with
    | none => none
    | some job =>
      if (Api.mapIndex tp.Label c.DistributedInferKey).1 = c.DistributedInferLabel ∧
          job.NPUTaskNum > 1 then
        let err := "job <" ++ tp.Name ++ "> task num <" ++ toString job.Tasks.length ++
          "> is invalid"
        some (some { Pass := false, Reason := "job task num is invalid", Message := err })
      else
        some tp.baseValidNPUJob

/-- The method `(tp *card310px2) CheckNodeNPUByTask(task *api.TaskInfo, node plugin.NPUNode) error`;
`.ok ()` is the nil error, and `none` is the panic of `tp.NPUTaskNum` on a
handler whose `NPUJob` is nil. -/
def CheckNodeNPUByTask (c : Consts) (tp : Option card310px2) (task : Option TaskInfo)
    (node : NPUNode) : Option (Except String Unit) :=
  match tp, task with
  | some tp, some task =>
    if Api.mapIsEmpty ( NPUNode.Annotation node) then some (.error c.ArgumentError)
    else
      match tp.GetTaskReqNPUNum task with
      | .error err => some (.error err)
      | .ok taskNPUNum =>
        match tp.NPUJob with
        | none => none
        | some job =>
          match tp.GetUsableTopFromNode node (decide (job.NPUTaskNum > 1)) with
          | .error err => some (.error err)
          | .ok nodeTop =>
            match tp.JudgeNodeAndTaskNPU taskNPUNum nodeTop with
            | .error err =>
              some (.error
                ("checkNodeNPUByTask " ++ c.NodeNotMeetTopologyWarning ++ " : " ++ err))
            | .ok _ => some (.ok ())
  | _, _ => some (.error c.ArgumentError)

/-- The inner loop of `getScore`,
`for _, cardNumGroup := range cardNumGroups { ... }`, started with the given
`bestScore`; `none` is a panic on an index of `affScoreList` out of range. -/
def bestScoreLoop (affScoreList : List (List Int)) (taskNPUNum : Int) :
    List (List Int) → Int → Option Int
  | [], bestScore => some bestScore
  | cardNumGroup :: rest, bestScore =>
    let num : Int := cardNumGroup.length
    if num = 0 then bestScoreLoop affScoreList taskNPUNum rest bestScore
    else
      match Ascend910b.tableAt affScoreList (taskNPUNum - 1) (num - 1) with
      | none => none
      | some v =>
        let bestScore := Ascend910b.utilMin bestScore v
        if bestScore = 0 then some bestScore
        else bestScoreLoop affScoreList taskNPUNum rest bestScore

/-- The method `(tp *card310px2) getScore(nodes []*api.NodeInfo, taskNPUNum int, scoreMap map[string]float64)`:
the score map after the call; `none` is a panic, on an index of `affScoreList`
out of range or on `tp.NPUTaskNum` when the `NPUJob` of the handler is nil.  A
nil entry of `nodes` is `none`. -/
def getScore (c : Consts) (tp : card310px2) (taskNPUNum : Int) :
    List (Option NodeInfo) → ScoreMap → Option ScoreMap
  | [], scoreMap => some scoreMap
  | none :: rest, scoreMap => getScore c tp taskNPUNum rest scoreMap
  | some node :: rest, scoreMap =>
    match tp.Nodes.lookup node.Name with
    | none => getScore c tp taskNPUNum rest scoreMap
    | some nNode =>
      match tp.NPUJob with
      | none => none
      | some job =>
        match tp.GetUsableTopFromNode nNode (decide (job.NPUTaskNum > 1)) with
        | .error _ => getScore c tp taskNPUNum rest scoreMap
        | .ok nodeTop =>
          let cardNumGroups := tp.GetCardNumGroupsFromTop nodeTop
          match bestScoreLoop tp.affScoreList taskNPUNum cardNumGroups c.affScore2 with
          | none => none
          | some bestScore =>
            getScore c tp taskNPUNum rest
              (scoreSet scoreMap node.Name (c.constNPUWeight * (tp.MaxCardNPUNum - bestScore)))

/-- The usable topology that `getScore` extracts for a listed node on a handler
whose job is `job`: `none` when the handler does not know the node (it is
absent from `tp.Nodes`) or when `GetUsableTopFromNode` fails on it. -/
def usableTopOf (tp : card310px2) (job : NPUJob) (node : NodeInfo) : Option (List Int) :=
  match tp.Nodes.lookup node.Name with
  | none => none
  | some nNode =>
    match tp.GetUsableTopFromNode nNode (decide (job.NPUTaskNum > 1)) with
    | .error _ => none
    | .ok nodeTop => some nodeTop

/-- The method
`(tp *card310px2) ScoreBestNPUNodes(task *api.TaskInfo, nodes []*api.NodeInfo, scoreMap map[string]float64) error`:
the score map after the call and the returned error; `none` is a panic. -/
def ScoreBestNPUNodes (c : Consts) (tp : Option card310px2) (task : Option TaskInfo)
    (nodes : List (Option NodeInfo)) (scoreMap : ScoreMap) :
    Option (ScoreMap × Except String Unit) :=
  match tp, task with
  | some tp, some task =>
    if nodes.isEmpty ∨ scoreMap.isEmpty then some (scoreMap, .error c.ArgumentError)
    else
      match tp.GetTaskReqNPUNum task with
      | .error err => some (scoreMap, .error err)
      | .ok taskNPUNum =>
        if taskNPUNum < 1 ∨ taskNPUNum > tp.MaxCardNPUNum then
          some (scoreMap, .error ("task<" ++ task.Name ++ "> req npu num<" ++
            toString taskNPUNum ++ "> is invalid"))
        else
          match getScore c tp taskNPUNum nodes scoreMap with
          | none => none
          | some scoreMap => some (scoreMap, .ok ())
  | _, _ => some (scoreMap, .error c.ArgumentError)

/-- The inner loop of `SelectNPUFromNode`,
`for _, cardNumGroup := range cardNumGroups { if priority == len(cardNumGroup) { return cardNumGroup[:taskNPUNum], nil } }`.
`some (some devices)` is the `return`, `some none` the end of the loop, and
`none` a slice expression out of range. -/
def groupLoop (taskNPUNum priority : Int) : List (List Int) → Option (Option (List Int))
  | [] => some none
  | cardNumGroup :: rest =>
    if priority = (cardNumGroup.length : Int) then
      (Ascend910b.sliceTo cardNumGroup taskNPUNum).map some
    else groupLoop taskNPUNum priority rest

/-- The outer loop `for _, priority := range priorityArray { ... }` of
`SelectNPUFromNode`, with the results of `groupLoop`. -/
def priorityLoop (taskNPUNum : Int) (cardNumGroups : List (List Int)) :
    List Int → Option (Option (List Int))
  | [] => some none
  | priority :: rest =>
    match groupLoop taskNPUNum priority cardNumGroups with
    | none => none
    | some (some devices) => some (some devices)
    | some none => priorityLoop taskNPUNum cardNumGroups rest

/-- The method
`(tp *card310px2) SelectNPUFromNode(task *api.TaskInfo, node plugin.NPUNode) ([]int, error)`;
`none` is a panic, on a slice expression out of range or on `tp.NPUTaskNum`
when the `NPUJob` of the handler is nil. -/
def SelectNPUFromNode (c : Consts) (tp : Option card310px2) (task : Option TaskInfo)
    (node : NPUNode) : Option (Except String (List Int)) :=
  match tp, task with
  | some tp, some task =>
    if Api.mapIsEmpty ( NPUNode.Annotation node) then some (.error c.ArgumentError)
    else
      match tp.GetTaskReqNPUNum task with
      | .error err => some (.error err)
      | .ok taskNPUNum =>
        match tp.NPUJob with
        | none => none
        | some job =>
          match tp.GetUsableTopFromNode node (decide (job.NPUTaskNum > 1)) with
          | .error err => some (.error err)
          | .ok nodeTop =>
            match tp.getNPUAllocPriorityArray taskNPUNum with
            | .error err => some (.error err)
            | .ok priorityArray =>
              let cardNumGroups := tp.GetCardNumGroupsFromTop nodeTop
              match priorityLoop taskNPUNum cardNumGroups priorityArray with
              | none => none
              | some (some selectedNPU) => some (.ok selectedNPU)
              | some none =>
                some (.error ("node top<" ++ Ascend910b.fmtInts nodeTop ++
                  "> not meet task req<" ++ toString taskNPUNum ++ ">"))
  | _, _ => some (.error c.ArgumentError)

/-- The method
`(tp *card310px2) UseAnnotation(task *api.TaskInfo, node plugin.NPUNode) *plugin.NPUNode`:
the task after the call (its pod annotations are written in place by
`SetNPUTopologyToPodFn`) and the returned pointer, `some none` for nil; the
outer `none` is a panic. -/
def UseAnnotation (c : Consts) (tp : Option card310px2) (task : Option TaskInfo)
    (node : NPUNode) : Option (Option TaskInfo × Option NPUNode) :=
  match tp, task with
  | some tp, some task =>
    if Api.mapIsEmpty ( NPUNode.Annotation node) then some (some task, none)
    else
      match SelectNPUFromNode c (some tp) (some task) node with
      | none => none
      | some (.error _) => some (some task, none)
      | some (.ok selectedNPU) =>
        some (some (tp.SetNPUTopologyToPodFn task selectedNPU node),
          tp.UpdateNodeInfo node selectedNPU)
  | _, _ => some (task, none)

/-- The method
`(tp *card310px2) ReleaseAnnotation(_ *api.TaskInfo, node plugin.NPUNode) *plugin.NPUNode`:
the node pointed to by the result `&node`, which is never nil. -/
def ReleaseAnnotation (_tp : Option card310px2) (_task : Option TaskInfo) (node : NPUNode) :
    Option NPUNode :=
  some node

end Card310px2

/-! ## Card groups of a topology (`internal/npu/base`) -/

namespace Base

/-- The field of `base.NPUHandler` read by `GetCardNumGroupsFromTop`. -/
structure NPUHandler where
  MaxCardNPUNum : Int
deriving DecidableEq, Repr

/-- Modelled from the spec: the method
`(tp *NPUHandler) GetCardNumGroupsFromTop(nodeNPUTopology []int) [][]int`,
whose code is not among the sources (only its test `TestGetCardNumGroupsFromTop`
is).  A nil handler or a handler of capacity zero yields no groups; otherwise
the devices are partitioned by card, the card of a device being the quotient
of its index by `MaxCardNPUNum`: the result has one group per card index
between the smallest and the largest card of the topology (card 0 included),
each holding the devices of that card in topology order.  A card without free
device gives an empty group, which `getScore` skips. -/
def GetCardNumGroupsFromTop (tp : Option NPUHandler) (nodeNPUTopology : List Int) :
    List (List Int) :=
  match tp with
  | none => []
  | some tp =>
    if tp.MaxCardNPUNum = 0 then []
    else
      let hi := nodeNPUTopology.foldl (fun m v => max m (v.tdiv tp.MaxCardNPUNum)) 0
      let lo := nodeNPUTopology.foldl (fun m v => min m (v.tdiv tp.MaxCardNPUNum)) 0
      (List.range (hi - lo + 1).toNat).map
        (fun (k : Nat) =>
          nodeNPUTopology.filter (fun v => decide (v.tdiv tp.MaxCardNPUNum = lo + (k : Int))))

end Base

/-! ## The full-node check of the A3 handler (`ascend910/ascend910a3`) -/

namespace Ascend910a3

/-- The package constants `taskSpec`, `schedulerSpec`, `skipAscendPlugin`,
`skipEnabled` and `JobCheckFailedReason`, declared outside the sources. -/
structure Consts where
  taskSpec : String
  schedulerSpec : String
  skipAscendPlugin : String
  skipEnabled : String
  JobCheckFailedReason : String

/-- The fields of `util.NPUTask` set by the tests. -/
structure NPUTask where
  ReqNPUNum : Int
  Annotation : Api.StringMap
deriving DecidableEq, Repr

/-- The fields of `Base910A3` set by the tests: `MaxNodeNPUNum` and the task map
`Tasks`, given as the list of its entries in the order in which a `range`
loop visits them. -/
structure Base910A3 where
  MaxNodeNPUNum : Int
  Tasks : List (String × NPUTask)
deriving DecidableEq, Repr

/-- Modelled from the spec: the loop over the tasks of
`CheckReqNPUEqualNodeNPU`, whose code is not among the sources.  A task passes
when it requests `MaxNodeNPUNum` devices, or requests none and carries the
scheduler-spec or the skip-plugin annotation; the first task that does not
pass gives the rejection expected by `TestBase910A3_CheckReqNPUEqualNodeNPU`. -/
def checkTasks (k : Consts) (maxNodeNPUNum : Int) :
    List (String × NPUTask) → Option Api.ValidateResult
  | [] => none
  | (_, task) :: rest =>
    if task.ReqNPUNum = maxNodeNPUNum then checkTasks k maxNodeNPUNum rest
    else if task.ReqNPUNum = 0 ∧
        ((Api.mapIndex ( NPUTask.Annotation task) k.taskSpec).1 = k.schedulerSpec ∨
          (Api.mapIndex ( NPUTask.Annotation task) k.skipAscendPlugin).1 = k.skipEnabled) then
      checkTasks k maxNodeNPUNum rest
    else
      some { Pass := false, Reason := k.JobCheckFailedReason,
             Message := "distributed job require npu " ++ toString maxNodeNPUNum ++
               ", instead of " ++ toString task.ReqNPUNum }

/-- Modelled from the spec: the method
`(tp *Base910A3) CheckReqNPUEqualNodeNPU() *api.ValidateResult`, whose code is
not among the sources (only its tests in `frame_test.go` are); `none` is the
nil result of a job that passes. -/
def CheckReqNPUEqualNodeNPU (k : Consts) (tp : Base910A3) : Option Api.ValidateResult :=
  checkTasks k tp.MaxNodeNPUNum tp.Tasks

end Ascend910a3

/-! ## The dequeue strategies of the allocate action (`actions/allocate`)

The code of the action is not among the sources (only `dequeue_strategy_test.go`
is).  The model follows sections 4.2 and 4.3 of the specification.  The
placement pipeline and the choice of the next queue are external
collaborators: the pipeline is a parameter `place` on a cluster state of any
type, the choice of queues a list of queue positions. -/

namespace Allocate

/-- The pod-group phases that occur in the tests. -/
inductive PodGroupPhase where
  | Pending
  | Inqueue
  | Running
deriving DecidableEq, Repr

/-- A task of a job: its name, its resource request (zero for a best-effort
task) and whether it is still pending. -/
structure Task where
  Name : String
  Request : Nat
  Pending : Bool
deriving DecidableEq, Repr

/-- A job (pod group): its name, its phase and its tasks. -/
structure Job where
  Name : String
  Phase : PodGroupPhase
  Tasks : List Task
deriving DecidableEq, Repr

/-- A bind commitment of a task to a node. -/
structure Bind where
  Task : String
  Node : String
deriving DecidableEq, Repr

/-- The result of evaluating a job. -/
inductive Outcome (σ : Type) where
  | passThrough
  | failed
  | placed (cluster : σ) (binds : List Bind)

/-- Modelled from the spec: "submit every pending task of that job to the
placement pipeline"; the pipeline `place` gives the cluster state after the
bind and the node, or nothing when the task cannot be placed, in which case
the remaining tasks are aborted. -/
def placeTasks {σ : Type} (place : σ → Task → Option (σ × String)) :
    List Task → σ → List Bind → Option (σ × List Bind)
  | [], cluster, binds => some (cluster, binds)
  | task :: rest, cluster, binds =>
    match place cluster task with
    | none => none
    | some (cluster', node) =>
      placeTasks place rest cluster' (binds ++ [{ Task := task.Name, Node := node }])

/-- Modelled from the spec: the evaluation of one job.  A job without pending
task is a pass-through; a job whose only pending tasks are best-effort counts
as a failure; otherwise the job is placed when all its pending tasks are. -/
def attemptJob {σ : Type} (place : σ → Task → Option (σ × String)) (cluster : σ) (job : Job) :
    Outcome σ :=
  let pending := job.Tasks.filter (fun t => t.Pending)
  if pending.isEmpty then .passThrough
  else if pending.all (fun t => decide (t.Request = 0)) then .failed
  else
    match placeTasks place pending cluster [] with
    | none => .failed
    | some (cluster', binds) => .placed cluster' binds

/-- A queue during a pass: its strategy (the `DequeueStrategy` of its
`QueueInfo`), the jobs already evaluated in this pass, its pending sequence,
whether it yields no further job in this pass, and the binds of its jobs. -/
structure QueueRun where
  Strategy : String
  Done : List Job
  Pending : List Job
  Blocked : Bool
  Binds : List Bind
deriving DecidableEq, Repr

/-- Modelled from the spec: one decision of the dequeue strategy selector on a
queue.  The job at the head of the pending sequence is evaluated; on success
it becomes `Running` and its binds are recorded; a pass-through job is
skipped; on failure the job keeps its phase, and the queue stops for this
pass under `fifo` (the job stays at the head) or advances under `traverse`. -/
def stepQueue {σ : Type} (place : σ → Task → Option (σ × String)) (cluster : σ)
    (q : QueueRun) : σ × QueueRun :=
  if q.Blocked then (cluster, q)
  else
    match q.Pending with
    | [] => (cluster, q)
    | job :: rest =>
      match attemptJob place cluster job with
      | .passThrough => (cluster, { q with Done := q.Done ++ [job], Pending := rest })
      | .placed cluster' binds =>
        (cluster', { q with Done := q.Done ++ [{ job with Phase := .Running }], Pending := rest,
                            Binds := q.Binds ++ binds })
      | .failed =>
        if q.Strategy = Api.DequeueStrategyFIFO then (cluster, { q with Blocked := true })
        else (cluster, { q with Done := q.Done ++ [job], Pending := rest })

/-- The state of a scheduling pass: the cluster and the queues. -/
structure Pass (σ : Type) where
  Cluster : σ
  Queues : List QueueRun
deriving DecidableEq

/-- Modelled from the spec: one iteration of the job admission loop on the
queue at position `i`, the candidate chosen by the external collaborator. -/
def step {σ : Type} (place : σ → Task → Option (σ × String)) (i : Nat) (p : Pass σ) : Pass σ :=
  match p.Queues[i]? with
  | none => p
  | some q =>
    { Cluster := (stepQueue place p.Cluster q).1
      Queues := p.Queues.set i (stepQueue place p.Cluster q).2 }

/-- Modelled from the spec: a scheduling pass in which the queues are chosen in
the order `choices`. -/
def run {σ : Type} (place : σ → Task → Option (σ × String)) (choices : List Nat)
    (p : Pass σ) : Pass σ :=
  choices.foldl (fun p i => step place i p) p

/-- The cluster of the tests: one node `n1`, the state being its free CPU; a
task is placed on it when its request fits. -/
def examplePlace (free : Nat) (task : Task) : Option (Nat × String) :=
  if task.Request ≤ free then some (free - task.Request, "n1") else none

/-- A job of one pending task with the given request, in phase `Inqueue`. -/
def exampleJob (name task : String) (request : Nat) : Job :=
  { Name := name, Phase := .Inqueue,
    Tasks := [{ Name := task, Request := request, Pending := true }] }

/-- A queue of the tests at the start of a pass, holding `pg1` (10 CPU) and
`pg2` (1 CPU). -/
def exampleQueueRun (strategy : String) : QueueRun :=
  { Strategy := strategy, Done := [],
    Pending := [exampleJob "c1/pg1" "c1/p1" 10, exampleJob "c1/pg2" "c1/p2" 1],
    Blocked := false, Binds := [] }

end Allocate

/-! ## Example objects for the card handler -/

namespace Card310px2

/-- Example values of the constants. -/
def exampleConsts : Consts :=
  { ArgumentError := "invalid argument"
    DistributedInferKey := "distributed"
    DistributedInferLabel := "true"
    NodeNotMeetTopologyWarning := "the npus on this node don't satisfy the schedulable topology"
    affScore2 := 2
    constNPUWeight := 8 }

/-- The annotation key of the free devices in the examples. -/
def exampleAnnoName : String := "huawei.com/Ascend310P"

/-- The free devices listed by an example annotation value, one decimal digit
per device. -/
def decodeTop (value : String) : List Int :=
  value.data.map (fun ch => (ch.toNat : Int) - 48)

/-- The example annotation value listing the given devices. -/
def encodeTop (devices : List Int) : String :=
  String.mk (devices.map (fun d => Char.ofNat (d.toNat + 48)))

/-- An example node whose annotation lists the given free devices. -/
def exampleNode (name value : String) : NPUNode :=
  { Name := name, Annotation := some [(exampleAnnoName, value)] }

/-- An example handler for cards of 2 devices and a job of one task of 2
devices.  Its helper methods read and write the free devices of a node under
`exampleAnnoName`, group them by card with `Base.GetCardNumGroupsFromTop`, and
remove the selected devices from the node. -/
def exampleCard : card310px2 :=
  { Name := "job1"
    Label := none
    NPUJob := some { Tasks := ["task1"], NPUTaskNum := 1 }
    MaxCardNPUNum := 2
    Nodes := [("n1", exampleNode "n1" "0123"), ("n3", { Name := "n3", Annotation := none })]
    affScoreList := [[0, 1], [2, 0]]
    baseValidNPUJob := some ⟨true, "", ""⟩
    GetTaskReqNPUNum := fun _ => .ok 2
    GetUsableTopFromNode := fun node _ =>
      match Api.mapIndex ( NPUNode.Annotation node) exampleAnnoName with
      | (value, true) => .ok (decodeTop value)
      | (_, false) => .error "no npu annotation"
    JudgeNodeAndTaskNPU := fun n top =>
      if n ≤ (top.length : Int) then .ok () else .error "node npu not enough"
    getNPUAllocPriorityArray := fun n =>
      if n = 1 then .ok [1, 2] else if n = 2 then .ok [2] else .error "illegal request npu number"
    GetCardNumGroupsFromTop := fun top =>
      Base.GetCardNumGroupsFromTop (some { MaxCardNPUNum := 2 }) top
    SetNPUTopologyToPodFn := fun task selected _ =>
      { task with PodAnnotations := some [(exampleAnnoName, encodeTop selected)] }
    UpdateNodeInfo := fun node selected =>
      match Api.mapIndex ( NPUNode.Annotation node) exampleAnnoName with
      | (value, _) =>
        some { node with Annotation := some [(exampleAnnoName,
          encodeTop ((decodeTop value).filter (fun d => !selected.contains d)))] } }

/-- An example task. -/
def exampleTask : TaskInfo := { Name := "task1", PodAnnotations := none }

end Card310px2

namespace Api

/-! ### Lemmas on the heap and on the strategy computation -/

theorem Heap.allocInfo_new (h : Heap) (v : QueueInfo) :
    (h.allocInfo v).1.infos[(h.allocInfo v).2]? = some v := by
  simp [Heap.allocInfo]

theorem Heap.allocInfo_old (h : Heap) (v : QueueInfo) (a : Nat) (ha : a < h.infos.length) :
    (h.allocInfo v).1.infos[a]? = h.infos[a]? := by
  simp [Heap.allocInfo, List.getElem?_append_left ha]

theorem Heap.allocInfo_queues (h : Heap) (v : QueueInfo) :
    (h.allocInfo v).1.queues = h.queues := rfl

theorem Heap.allocInfo_addr (h : Heap) (v : QueueInfo) :
    (h.allocInfo v).2 = h.infos.length := rfl

theorem lt_length_of_getElem?_eq_some {α : Type} {l : List α} {a : Nat} {v : α}
    (h : l[a]? = some v) : a < l.length := by
  by_contra hlt
  rw [List.getElem?_eq_none (Nat.le_of_not_lt hlt)] at h
  cases h

/-- The strategy chosen by `NewQueueInfo` is `"fifo"` exactly when the
annotation is present with value `"fifo"`, and `"traverse"` otherwise. -/
theorem dequeueStrategyOf_eq (m : StringMap) :
    dequeueStrategyOf m =
      if mapIndex m DequeueStrategyAnnotationKey = ("fifo", true) then "fifo" else "traverse" := by
  unfold dequeueStrategyOf
  cases m with
  | none => simp [mapIndex, DefaultDequeueStrategy, DequeueStrategyTraverse]
  | some kvs =>
    rcases hidx : mapIndex (some kvs) DequeueStrategyAnnotationKey with ⟨v, b⟩
    cases b with
    | false => simp [DefaultDequeueStrategy, DequeueStrategyTraverse]
    | true =>
      by_cases h1 : v = "fifo"
      · subst h1
        simp [DequeueStrategyFIFO]
      · by_cases h2 : v = "traverse"
        · subst h2
          simp [DequeueStrategyFIFO, DequeueStrategyTraverse]
        · by_cases h3 : v = ""
          · subst h3
            simp [DefaultDequeueStrategy, DequeueStrategyTraverse]
          · simp [h1, h2, h3, DequeueStrategyFIFO, DequeueStrategyTraverse,
              DefaultDequeueStrategy]

theorem NewQueueInfo_eq (keys : V1beta1) (h : Heap) (a : Nat) (obj : Queue)
    (hobj : h.queues[a]? = some obj) :
    NewQueueInfo keys h (some a) = some (h.allocInfo
      { UID := obj.Name
        Name := obj.Name
        Weight := obj.Spec.Weight
        Hierarchy := (mapIndex obj.Annotations keys.KubeHierarchyAnnotationKey).1
        Weights := (mapIndex obj.Annotations keys.KubeHierarchyWeightAnnotationKey).1
        DequeueStrategy := dequeueStrategyOf obj.Annotations
        Queue := some a }) := by
  simp [NewQueueInfo, hobj]

theorem NewQueueInfo_value_eq (keys : V1beta1) (h : Heap) (a : Nat) (obj : Queue)
    (hobj : h.queues[a]? = some obj) :
    NewQueueInfo.value keys h (some a) = some
      { UID := obj.Name
        Name := obj.Name
        Weight := obj.Spec.Weight
        Hierarchy := (mapIndex obj.Annotations keys.KubeHierarchyAnnotationKey).1
        Weights := (mapIndex obj.Annotations keys.KubeHierarchyWeightAnnotationKey).1
        DequeueStrategy := dequeueStrategyOf obj.Annotations
        Queue := some a } := by
  simp [NewQueueInfo.value, NewQueueInfo_eq keys h a obj hobj, Heap.allocInfo]

theorem Clone_eq (h : Heap) (a : Nat) (qv : QueueInfo) (hq : h.infos[a]? = some qv) :
    QueueInfo.Clone h (some a) = some (h.allocInfo qv) := by
  simp [QueueInfo.Clone, hq]

theorem Clone_some (h : Heap) (q : Nat) (r : Heap × Nat)
    (hc : QueueInfo.Clone h (some q) = some r) :
    ∃ qv, h.infos[q]? = some qv ∧ r = h.allocInfo qv := by
  unfold QueueInfo.Clone at hc
  cases hq : h.infos[q]? with
  | none => simp [hq] at hc
  | some qv =>
    refine ⟨qv, rfl, ?_⟩
    simp only [hq] at hc
    exact (Option.some.inj hc).symm

theorem assign_eq (h : Heap) (a : Nat) (cv : QueueInfo) (s : ScalarAssign)
    (hc : h.infos[a]? = some cv) :
    QueueInfo.assign h (some a) s = some { h with infos := h.infos.set a (s.apply cv) } := by
  simp [QueueInfo.assign, hc]

/-! ### The claims on the queue model -/

/-- C1: for a queue object whose annotations are nil, lack the key
"volcano.sh/dequeue-strategy", map it to the empty string, or map it to a
string other than "fifo" and "traverse", `NewQueueInfo` succeeds and the
object it returns has `DequeueStrategy` "traverse". -/
theorem newQueueInfo_default_strategy (keys : V1beta1) (h : Heap) (a : Nat) (obj : Queue)
    (hobj : h.queues[a]? = some obj)
    (hann : obj.Annotations = none ∨
      (mapIndex obj.Annotations DequeueStrategyAnnotationKey).2 = false ∨
      mapIndex obj.Annotations DequeueStrategyAnnotationKey = ("", true) ∨
      ∃ v, v ≠ "fifo" ∧ v ≠ "traverse" ∧
        mapIndex obj.Annotations DequeueStrategyAnnotationKey = (v, true)) :
    ∃ h' p qi, NewQueueInfo keys h (some a) = some (h', p) ∧ h'.infos[p]? = some qi ∧
      qi.DequeueStrategy = "traverse" := by
  refine ⟨_, _, _, NewQueueInfo_eq keys h a obj hobj, Heap.allocInfo_new _ _, ?_⟩
  simp only [dequeueStrategyOf_eq]
  have hne : mapIndex obj.Annotations DequeueStrategyAnnotationKey ≠ ("fifo", true) := by
    rcases hann with h1 | h2 | h3 | ⟨v, hv1, _, hv3⟩
    · simp [h1, mapIndex]
    · intro hc
      rw [hc] at h2
      cases h2
    · rw [h3]
      decide
    · rw [hv3]
      intro hc
      exact hv1 (congrArg Prod.fst hc)
  simp [hne]

/-- Witness of C1 on the test case "invalid strategy should use default". -/
theorem newQueueInfo_default_strategy_witness :
    ∃ h' p qi,
      NewQueueInfo exampleKeys
        (exampleHeap (some [("volcano.sh/dequeue-strategy", "invalid-strategy")]) none)
        (some 0) = some (h', p) ∧
      h'.infos[p]? = some qi ∧ qi.DequeueStrategy = "traverse" :=
  newQueueInfo_default_strategy exampleKeys
    (exampleHeap (some [("volcano.sh/dequeue-strategy", "invalid-strategy")]) none) 0
    (exampleQueue (some [("volcano.sh/dequeue-strategy", "invalid-strategy")]) none) rfl
    (Or.inr (Or.inr (Or.inr ⟨"invalid-strategy", by decide, by decide, by decide⟩)))

/-- C2: an annotation "volcano.sh/dequeue-strategy" equal to "fifo"
(respectively "traverse") gives `DequeueStrategy` "fifo" (respectively
"traverse"); every other value, such as "FIFO", "fifo " or the empty string,
gives the same strategy as a queue object without the annotation, namely
"traverse". -/
theorem newQueueInfo_exact_match (keys : V1beta1) (h : Heap) (a : Nat) (obj : Queue)
    (hobj : h.queues[a]? = some obj) :
    (mapIndex obj.Annotations DequeueStrategyAnnotationKey = ("fifo", true) →
      (NewQueueInfo.value keys h (some a)).map QueueInfo.DequeueStrategy = some "fifo") ∧
    (mapIndex obj.Annotations DequeueStrategyAnnotationKey = ("traverse", true) →
      (NewQueueInfo.value keys h (some a)).map QueueInfo.DequeueStrategy = some "traverse") ∧
    (∀ v, v ≠ "fifo" → v ≠ "traverse" →
      mapIndex obj.Annotations DequeueStrategyAnnotationKey = (v, true) →
      (NewQueueInfo.value keys h (some a)).map QueueInfo.DequeueStrategy = some "traverse" ∧
      ∀ (h2 : Heap) (a2 : Nat) (obj2 : Queue), h2.queues[a2]? = some obj2 →
        (mapIndex obj2.Annotations DequeueStrategyAnnotationKey).2 = false →
        (NewQueueInfo.value keys h (some a)).map QueueInfo.DequeueStrategy =
          (NewQueueInfo.value keys h2 (some a2)).map QueueInfo.DequeueStrategy) ∧
    (∀ v, v ∈ ["FIFO", "fifo ", "Fifo", "TRAVERSE", " traverse", ""] →
      mapIndex obj.Annotations DequeueStrategyAnnotationKey = (v, true) →
      (NewQueueInfo.value keys h (some a)).map QueueInfo.DequeueStrategy = some "traverse") := by
  have hval := NewQueueInfo_value_eq keys h a obj hobj
  have hother : ∀ v, v ≠ "fifo" →
      mapIndex obj.Annotations DequeueStrategyAnnotationKey = (v, true) →
      (NewQueueInfo.value keys h (some a)).map QueueInfo.DequeueStrategy = some "traverse" := by
    intro v hv hidx
    have hne : ((v, true) : String × Bool) ≠ ("fifo", true) :=
      fun hc => hv (congrArg Prod.fst hc)
    simp [hval, dequeueStrategyOf_eq, hidx, hne]
  refine ⟨?_, ?_, ?_, ?_⟩
  · intro hidx
    simp [hval, dequeueStrategyOf_eq, hidx]
  · intro hidx
    simp [hval, dequeueStrategyOf_eq, hidx]
  · intro v hv1 _ hidx
    refine ⟨hother v hv1 hidx, ?_⟩
    intro h2 a2 obj2 hobj2 habs
    have hne2 : mapIndex obj2.Annotations DequeueStrategyAnnotationKey ≠ ("fifo", true) := by
      intro hc
      rw [hc] at habs
      cases habs
    rw [hother v hv1 hidx]
    simp [NewQueueInfo_value_eq keys h2 a2 obj2 hobj2, dequeueStrategyOf_eq, hne2]
  · intro v hv hidx
    refine hother v ?_ hidx
    intro hc
    subst hc
    revert hv
    decide

/-- Witness of C2: the annotation value "FIFO" gives "traverse", like the
queue object with nil annotations. -/
theorem newQueueInfo_exact_match_witness :
    (NewQueueInfo.value exampleKeys
        (exampleHeap (some [("volcano.sh/dequeue-strategy", "FIFO")]) none)
        (some 0)).map QueueInfo.DequeueStrategy = some "traverse" ∧
    (NewQueueInfo.value exampleKeys
        (exampleHeap (some [("volcano.sh/dequeue-strategy", "FIFO")]) none)
        (some 0)).map QueueInfo.DequeueStrategy =
      (NewQueueInfo.value exampleKeys (exampleHeap none none)
        (some 0)).map QueueInfo.DequeueStrategy ∧
    (NewQueueInfo.value exampleKeys (exampleHeap mixedAnnotations none)
        (some 0)).map QueueInfo.DequeueStrategy = some "fifo" :=
  ⟨((newQueueInfo_exact_match exampleKeys
      (exampleHeap (some [("volcano.sh/dequeue-strategy", "FIFO")]) none) 0
      (exampleQueue (some [("volcano.sh/dequeue-strategy", "FIFO")]) none) rfl).2.2.1
      "FIFO" (by decide) (by decide) (by decide)).1,
   ((newQueueInfo_exact_match exampleKeys
      (exampleHeap (some [("volcano.sh/dequeue-strategy", "FIFO")]) none) 0
      (exampleQueue (some [("volcano.sh/dequeue-strategy", "FIFO")]) none) rfl).2.2.1
      "FIFO" (by decide) (by decide) (by decide)).2
      (exampleHeap none none) 0 (exampleQueue none none) rfl (by decide),
   (newQueueInfo_exact_match exampleKeys (exampleHeap mixedAnnotations none) 0
      (exampleQueue mixedAnnotations none) rfl).1 (by decide)⟩

/-- C3: every `QueueInfo` obtained from a queue object by `NewQueueInfo`
followed by any number of `Clone` calls is an allocated object whose
`DequeueStrategy` is "fifo" or "traverse". -/
theorem derived_strategy_valid (keys : V1beta1) (h0 : Heap) (queue : Ptr) (h : Heap) (p : Nat)
    (hd : Derived keys h0 queue h p) :
    ∃ qi, h.infos[p]? = some qi ∧
      (qi.DequeueStrategy = "fifo" ∨ qi.DequeueStrategy = "traverse") := by
  induction hd with
  | @new h1 p hnew =>
    cases queue with
    | none => simp [NewQueueInfo] at hnew
    | some a =>
      cases hobj : h0.queues[a]? with
      | none => simp [NewQueueInfo, hobj] at hnew
      | some obj =>
        rw [NewQueueInfo_eq keys h0 a obj hobj] at hnew
        have hr := Option.some.inj hnew
        have hh : h1 = (h0.allocInfo _).1 := (congrArg Prod.fst hr).symm
        have hp : p = (h0.allocInfo _).2 := (congrArg Prod.snd hr).symm
        refine ⟨_, by rw [hh, hp]; exact Heap.allocInfo_new _ _, ?_⟩
        simp only [dequeueStrategyOf_eq]
        split
        · exact Or.inl rfl
        · exact Or.inr rfl
  | @clone h h' p p' _ hc ih =>
    obtain ⟨qi, hqi, hvalid⟩ := ih
    obtain ⟨qv, hqv, hr⟩ := Clone_some h p (h', p') hc
    rw [hqi] at hqv
    cases Option.some.inj hqv
    have hh : h' = (h.allocInfo qi).1 := congrArg Prod.fst hr
    have hp : p' = (h.allocInfo qi).2 := congrArg Prod.snd hr
    exact ⟨qi, by rw [hh, hp]; exact Heap.allocInfo_new _ _, hvalid⟩
  | @keep h h' p q p' _ hc ih =>
    obtain ⟨qi, hqi, hvalid⟩ := ih
    obtain ⟨qv, _, hr⟩ := Clone_some h q (h', p') hc
    have hh : h' = (h.allocInfo qv).1 := congrArg Prod.fst hr
    refine ⟨qi, ?_, hvalid⟩
    rw [hh, Heap.allocInfo_old h qv p (lt_length_of_getElem?_eq_some hqi)]
    exact hqi

/-- Witness of C3: the clone of the clone of the object built from a queue
with an invalid strategy annotation. -/
theorem derived_strategy_valid_witness :
    ∃ qi,
      (Heap.mk [exampleQueue (some [("volcano.sh/dequeue-strategy", "invalid-strategy")]) none]
        [⟨"test-queue", "test-queue", 10, "", "", "traverse", some 0⟩,
         ⟨"test-queue", "test-queue", 10, "", "", "traverse", some 0⟩,
         ⟨"test-queue", "test-queue", 10, "", "", "traverse", some 0⟩]).infos[2]? = some qi ∧
      (qi.DequeueStrategy = "fifo" ∨ qi.DequeueStrategy = "traverse") :=
  derived_strategy_valid exampleKeys
    (exampleHeap (some [("volcano.sh/dequeue-strategy", "invalid-strategy")]) none) (some 0) _ 2
    (Derived.clone (Derived.clone (Derived.new rfl) rfl) rfl)

/-- C4: `Reclaimable` returns true exactly when the receiver is non-nil, its
`Queue` is non-nil and the flag `Spec.Reclaimable` is nil or true; it returns
false for a nil receiver and for a nil embedded queue, the value of the flag
when the flag is set, and true when the flag is not set. -/
theorem reclaimable_spec (h : Heap) :
    (∀ q : Ptr, QueueInfo.Reclaimable h q = some true ↔
      ∃ a qv b obj, q = some a ∧ h.infos[a]? = some qv ∧ qv.Queue = some b ∧
        h.queues[b]? = some obj ∧
        (obj.Spec.Reclaimable = none ∨ obj.Spec.Reclaimable = some true)) ∧
    QueueInfo.Reclaimable h none = some false ∧
    (∀ a qv, h.infos[a]? = some qv → qv.Queue = none →
      QueueInfo.Reclaimable h (some a) = some false) ∧
    (∀ a qv b obj v, h.infos[a]? = some qv → qv.Queue = some b → h.queues[b]? = some obj →
      obj.Spec.Reclaimable = some v → QueueInfo.Reclaimable h (some a) = some v) ∧
    (∀ a qv b obj, h.infos[a]? = some qv → qv.Queue = some b → h.queues[b]? = some obj →
      obj.Spec.Reclaimable = none → QueueInfo.Reclaimable h (some a) = some true) := by
  refine ⟨?_, rfl, ?_, ?_, ?_⟩
  · intro q
    constructor
    · intro hr
      unfold QueueInfo.Reclaimable at hr
      cases q with
      | none => simp at hr
      | some a =>
        cases hq : h.infos[a]? with
        | none => simp [hq] at hr
        | some qv =>
          cases hb : qv.Queue with
          | none => simp [hq, hb] at hr
          | some b =>
            cases hobj : h.queues[b]? with
            | none => simp [hq, hb, hobj] at hr
            | some obj =>
              refine ⟨a, qv, b, obj, rfl, hq, hb, hobj, ?_⟩
              cases hf : obj.Spec.Reclaimable with
              | none => exact Or.inl rfl
              | some v =>
                simp [hq, hb, hobj, hf] at hr
                exact Or.inr (by rw [hr])
    · rintro ⟨a, qv, b, obj, rfl, hq, hb, hobj, hf⟩
      rcases hf with hf | hf <;> simp [QueueInfo.Reclaimable, hq, hb, hobj, hf]
  · intro a qv hq hb
    simp [QueueInfo.Reclaimable, hq, hb]
  · intro a qv b obj v hq hb hobj hf
    simp [QueueInfo.Reclaimable, hq, hb, hobj, hf]
  · intro a qv b obj hq hb hobj hf
    simp [QueueInfo.Reclaimable, hq, hb, hobj, hf]

/-- Witness of C4: a queue whose flag is set to false is not reclaimable, and
a `QueueInfo` with a nil queue is not reclaimable. -/
theorem reclaimable_spec_witness :
    QueueInfo.Reclaimable
      (Heap.mk [exampleQueue none (some false)]
        [⟨"test-queue", "test-queue", 10, "", "", "traverse", some 0⟩]) (some 0) = some false ∧
    QueueInfo.Reclaimable
      (Heap.mk [] [⟨"test-queue", "test-queue", 10, "", "", "traverse", none⟩]) (some 0)
      = some false :=
  ⟨(reclaimable_spec _).2.2.2.1 0 _ 0 _ false rfl rfl rfl rfl,
   (reclaimable_spec _).2.2.1 0 _ rfl rfl⟩

/-- C5: for an allocated `QueueInfo` `q`, `Clone` succeeds and returns an
object whose `UID`, `Name`, `Weight`, `Hierarchy`, `Weights` and
`DequeueStrategy` equal those of `q` and whose `Queue` is the same pointer as
`q.Queue`; no queue object is allocated or changed. -/
theorem clone_copies_fields (h : Heap) (a : Nat) (q : QueueInfo) (hq : h.infos[a]? = some q) :
    ∃ h' p c, QueueInfo.Clone h (some a) = some (h', p) ∧ h'.infos[p]? = some c ∧
      c.UID = q.UID ∧ c.Name = q.Name ∧ c.Weight = q.Weight ∧ c.Hierarchy = q.Hierarchy ∧
      c.Weights = q.Weights ∧ c.DequeueStrategy = q.DequeueStrategy ∧ c.Queue = q.Queue ∧
      h'.queues = h.queues :=
  ⟨_, _, _, Clone_eq h a q hq, Heap.allocInfo_new _ _, rfl, rfl, rfl, rfl, rfl, rfl, rfl, rfl⟩

/-- Witness of C5 on a heap holding the object built in `TestQueueInfo_Clone`. -/
theorem clone_copies_fields_witness :
    ∃ h' p c,
      QueueInfo.Clone
        (Heap.mk [exampleQueue mixedAnnotations none]
          [⟨"test-queue", "test-queue", 10, "1/2", "root/child", "fifo", some 0⟩])
        (some 0) = some (h', p) ∧
      h'.infos[p]? = some c ∧
      c.UID = "test-queue" ∧ c.Name = "test-queue" ∧ c.Weight = 10 ∧
      c.Hierarchy = "root/child" ∧ c.Weights = "1/2" ∧ c.DequeueStrategy = "fifo" ∧
      c.Queue = some 0 ∧ h'.queues = [exampleQueue mixedAnnotations none] :=
  clone_copies_fields
    (Heap.mk [exampleQueue mixedAnnotations none]
      [⟨"test-queue", "test-queue", 10, "1/2", "root/child", "fifo", some 0⟩])
    0 ⟨"test-queue", "test-queue", 10, "1/2", "root/child", "fifo", some 0⟩ rfl

/-- C6: for an allocated `QueueInfo` `q`, `Clone` returns a pointer different
from `q`, leaves `q`, every other `QueueInfo` and every queue object
unchanged, and any assignment to a scalar field of the clone succeeds and
leaves `q` unchanged. -/
theorem clone_distinct_handle (h : Heap) (a : Nat) (q : QueueInfo) (hq : h.infos[a]? = some q) :
    ∃ h' p, QueueInfo.Clone h (some a) = some (h', p) ∧ p ≠ a ∧
      h'.infos[a]? = some q ∧
      (∀ b, b < h.infos.length → h'.infos[b]? = h.infos[b]?) ∧
      h'.queues = h.queues ∧
      ∀ s : ScalarAssign, ∃ h'', QueueInfo.assign h' (some p) s = some h'' ∧
        h''.infos[a]? = some q ∧ h''.infos[p]? = some (s.apply q) ∧
        h''.queues = h.queues := by
  have ha : a < h.infos.length := lt_length_of_getElem?_eq_some hq
  refine ⟨_, _, Clone_eq h a q hq, ?_, ?_, ?_, rfl, ?_⟩
  · show h.infos.length ≠ a
    omega
  · exact (Heap.allocInfo_old h q a ha).trans hq
  · intro b hb
    exact Heap.allocInfo_old h q b hb
  · intro s
    have hne : h.infos.length ≠ a := by omega
    refine ⟨_, assign_eq _ _ q s (Heap.allocInfo_new h q), ?_, ?_, rfl⟩
    · show ((h.infos ++ [q]).set h.infos.length (s.apply q))[a]? = some q
      rw [List.getElem?_set_ne hne, List.getElem?_append_left ha]
      exact hq
    · show ((h.infos ++ [q]).set h.infos.length (s.apply q))[h.infos.length]? = _
      simp

/-- Witness of C6: after cloning the object at address 0, writing
`DequeueStrategy = "traverse"` through the clone leaves the original "fifo". -/
theorem clone_distinct_handle_witness :
    ∃ h' p,
      QueueInfo.Clone
        (Heap.mk [exampleQueue mixedAnnotations none]
          [⟨"test-queue", "test-queue", 10, "1/2", "root/child", "fifo", some 0⟩])
        (some 0) = some (h', p) ∧ p ≠ 0 ∧
      h'.infos[0]? = some ⟨"test-queue", "test-queue", 10, "1/2", "root/child", "fifo", some 0⟩ ∧
      ∃ h'', QueueInfo.assign h' (some p) (ScalarAssign.DequeueStrategy "traverse") = some h'' ∧
        h''.infos[0]? =
          some ⟨"test-queue", "test-queue", 10, "1/2", "root/child", "fifo", some 0⟩ := by
  obtain ⟨h', p, hc, hne, hkeep, _, _, hassign⟩ := clone_distinct_handle
    (Heap.mk [exampleQueue mixedAnnotations none]
      [⟨"test-queue", "test-queue", 10, "1/2", "root/child", "fifo", some 0⟩])
    0 ⟨"test-queue", "test-queue", 10, "1/2", "root/child", "fifo", some 0⟩ rfl
  obtain ⟨h'', ha, hq, _, _⟩ := hassign (ScalarAssign.DequeueStrategy "traverse")
  exact ⟨h', p, hc, hne, hkeep, h'', ha, hq⟩

/-- C7: for every queue object `NewQueueInfo` succeeds with `Name` and `UID`
equal to the queue name, `Weight` equal to `Spec.Weight`, `Hierarchy` and
`Weights` equal to the values of the hierarchy and hierarchy-weight
annotations (the empty string when the map is nil or lacks the key) and
`Queue` pointing to the input object; a queue object that differs only in the
dequeue-strategy annotation gives the same values of these fields. -/
theorem newQueueInfo_fields (keys : V1beta1) (h : Heap) (a : Nat) (obj : Queue)
    (hobj : h.queues[a]? = some obj) :
    ∃ h' p qi, NewQueueInfo keys h (some a) = some (h', p) ∧ h'.infos[p]? = some qi ∧
      qi.Name = obj.Name ∧ qi.UID = obj.Name ∧ qi.Weight = obj.Spec.Weight ∧
      qi.Hierarchy = (mapIndex obj.Annotations keys.KubeHierarchyAnnotationKey).1 ∧
      qi.Weights = (mapIndex obj.Annotations keys.KubeHierarchyWeightAnnotationKey).1 ∧
      qi.Queue = some a ∧
      (obj.Annotations = none → qi.Hierarchy = "" ∧ qi.Weights = "") ∧
      ((mapIndex obj.Annotations keys.KubeHierarchyAnnotationKey).2 = false →
        qi.Hierarchy = "") ∧
      ((mapIndex obj.Annotations keys.KubeHierarchyWeightAnnotationKey).2 = false →
        qi.Weights = "") ∧
      (∀ (h2 : Heap) (obj2 : Queue), h2.queues[a]? = some obj2 →
        obj2.Name = obj.Name → obj2.Spec.Weight = obj.Spec.Weight →
        (∀ k, k ≠ DequeueStrategyAnnotationKey →
          mapIndex obj2.Annotations k = mapIndex obj.Annotations k) →
        keys.KubeHierarchyAnnotationKey ≠ DequeueStrategyAnnotationKey →
        keys.KubeHierarchyWeightAnnotationKey ≠ DequeueStrategyAnnotationKey →
        ∃ h2' p2 qi2, NewQueueInfo keys h2 (some a) = some (h2', p2) ∧
          h2'.infos[p2]? = some qi2 ∧
          qi2.Name = qi.Name ∧ qi2.UID = qi.UID ∧ qi2.Weight = qi.Weight ∧
          qi2.Hierarchy = qi.Hierarchy ∧ qi2.Weights = qi.Weights ∧ qi2.Queue = qi.Queue) := by
  have hfalse : ∀ k, (mapIndex obj.Annotations k).2 = false → (mapIndex obj.Annotations k).1 = "" := by
    intro k hk
    unfold mapIndex at hk ⊢
    cases hm : obj.Annotations with
    | none => rfl
    | some kvs =>
      simp only [hm] at hk ⊢
      cases hl : kvs.lookup k with
      | none => rfl
      | some v => simp [hl] at hk
  refine ⟨_, _, _, NewQueueInfo_eq keys h a obj hobj, Heap.allocInfo_new _ _,
    rfl, rfl, rfl, rfl, rfl, rfl, ?_, hfalse _, hfalse _, ?_⟩
  · intro hnil
    simp [hnil, mapIndex]
  · intro h2 obj2 hobj2 hname hweight hann hk1 hk2
    refine ⟨_, _, _, NewQueueInfo_eq keys h2 a obj2 hobj2, Heap.allocInfo_new _ _, ?_⟩
    simp [hname, hweight, hann _ hk1, hann _ hk2]

/-- Witness of C7 on the test case "mixed annotations with valid strategy",
compared with the same queue object without the strategy annotation. -/
theorem newQueueInfo_fields_witness :
    (∃ h' p qi, NewQueueInfo exampleKeys (exampleHeap mixedAnnotations none) (some 0)
        = some (h', p) ∧ h'.infos[p]? = some qi ∧
      qi.Name = "test-queue" ∧ qi.UID = "test-queue" ∧ qi.Weight = 10 ∧
      qi.Hierarchy = "root/child" ∧ qi.Weights = "1/2" ∧ qi.Queue = some 0) ∧
    (∃ h2' p2 qi2,
      NewQueueInfo exampleKeys
        (exampleHeap (some [("volcano.sh/hierarchy", "root/child"),
          ("volcano.sh/hierarchy-weights", "1/2"), ("some.other.annotation", "value")]) none)
        (some 0) = some (h2', p2) ∧ h2'.infos[p2]? = some qi2 ∧
      qi2.Name = "test-queue" ∧ qi2.UID = "test-queue" ∧ qi2.Weight = 10 ∧
      qi2.Hierarchy = "root/child" ∧ qi2.Weights = "1/2" ∧ qi2.Queue = some 0) := by
  obtain ⟨h', p, qi, hnew, hqi, h1, h2, h3, h4, h5, h6, _, _, _, hind⟩ :=
    newQueueInfo_fields exampleKeys (exampleHeap mixedAnnotations none) 0
      (exampleQueue mixedAnnotations none) rfl
  have h4' : qi.Hierarchy = "root/child" := h4.trans (by decide)
  have h5' : qi.Weights = "1/2" := h5.trans (by decide)
  refine ⟨⟨h', p, qi, hnew, hqi, h1, h2, h3, h4', h5', h6⟩, ?_⟩
  obtain ⟨h2', p2, qi2, hnew2, hqi2, g1, g2, g3, g4, g5, g6⟩ :=
    hind (exampleHeap (some [("volcano.sh/hierarchy", "root/child"),
          ("volcano.sh/hierarchy-weights", "1/2"), ("some.other.annotation", "value")]) none)
      (exampleQueue (some [("volcano.sh/hierarchy", "root/child"),
          ("volcano.sh/hierarchy-weights", "1/2"), ("some.other.annotation", "value")]) none)
      rfl rfl rfl
      (by
        intro k hk
        have hk' : (k == "volcano.sh/dequeue-strategy") = false := by
          simpa [DequeueStrategyAnnotationKey] using hk
        simp [mapIndex, exampleQueue, mixedAnnotations, List.lookup, hk'])
      (by decide) (by decide)
  exact ⟨h2', p2, qi2, hnew2, hqi2, g1.trans h1, g2.trans h2, g3.trans h3, g4.trans h4',
    g5.trans h5', g6.trans h6⟩

end Api

namespace Ascend910b

/-! ### Lemmas on the append loop -/

/-- A run of the loop that leaves it after `c` iterations by its condition:
the entries appended are `i`, `i + step`, ..., `i + step * (c - 1)`. -/
theorem appendLoopFuel_eq (step hi : Int) :
    ∀ (c fuel : Nat) (i : Int) (acc : List Int), c ≤ fuel →
      (∀ k : Nat, k < c → i + step * (k : Int) ≤ hi) → ¬ (i + step * (c : Int) ≤ hi) →
      appendLoopFuel fuel i hi step acc =
        acc ++ (List.range c).map (fun k : Nat => i + step * (k : Int)) := by
  intro c
  induction c with
  | zero =>
    intro fuel i acc _ _ hstop
    have hi0 : ¬ i ≤ hi := by simpa using hstop
    cases fuel with
    | zero => simp [appendLoopFuel]
    | succ f => simp [appendLoopFuel, hi0]
  | succ c ih =>
    intro fuel i acc hfuel hin hstop
    cases fuel with
    | zero => omega
    | succ f =>
      have h0 : i ≤ hi := by simpa using hin 0 (Nat.succ_pos c)
      have hin' : ∀ k : Nat, k < c → i + step + step * (k : Int) ≤ hi := by
        intro k hk
        have := hin (k + 1) (Nat.succ_lt_succ hk)
        push_cast at this
        linarith
      have hstop' : ¬ (i + step + step * (c : Int) ≤ hi) := by
        intro hc
        apply hstop
        push_cast
        linarith
      rw [appendLoopFuel, if_pos h0, ih f (i + step) (acc ++ [i]) (Nat.le_of_succ_le_succ hfuel)
        hin' hstop', List.range_succ_eq_map, List.map_cons, List.map_map, List.append_assoc]
      congr 1
      simp only [List.singleton_append, Nat.cast_zero, mul_zero, add_zero, List.cons.injEq,
        true_and]
      apply List.map_congr_left
      intro k _
      simp only [Function.comp, Nat.succ_eq_add_one]
      push_cast
      ring

/-- With a positive step, any fuel of at least `hi + 1 - i` gives the result of
`appendLoop`: the loop always ends by its condition `i <= hi` becoming false. -/
theorem appendLoopFuel_stable (hi step : Int) (hstep : 0 < step) :
    ∀ (fuel : Nat) (i : Int) (acc : List Int), (hi + 1 - i).toNat ≤ fuel →
      appendLoopFuel fuel i hi step acc = appendLoop i hi step acc := by
  have key : ∀ (f1 f2 : Nat) (i : Int) (acc : List Int), (hi + 1 - i).toNat ≤ f1 →
      (hi + 1 - i).toNat ≤ f2 →
      appendLoopFuel f1 i hi step acc = appendLoopFuel f2 i hi step acc := by
    intro f1
    induction f1 with
    | zero =>
      intro f2 i acc h1 _
      have hi0 : ¬ i ≤ hi := by omega
      cases f2 with
      | zero => rfl
      | succ g => simp [appendLoopFuel, hi0]
    | succ f ih =>
      intro f2 i acc h1 h2
      cases f2 with
      | zero =>
        have hi0 : ¬ i ≤ hi := by omega
        simp [appendLoopFuel, hi0]
      | succ g =>
        by_cases hc : i ≤ hi
        · simp only [appendLoopFuel, if_pos hc]
          exact ih g (i + step) (acc ++ [i]) (by omega) (by omega)
        · simp [appendLoopFuel, hc]
  intro fuel i acc hfuel
  exact key fuel _ i acc hfuel (le_refl _)

/-! ### The claims on the priority array -/

/-- C8: for a request accepted by `IsVaildNpuNum` and equal to
`MaxNodeNPUNum`, `GetNPUAllocPriorityArray` returns the one-element array
`[MaxNodeNPUNum]` and no error. -/
theorem priorityArray_full (tp : Base910b) (n : Int) (hvalid : tp.IsVaildNpuNum n = true)
    (hfull : n = tp.MaxNodeNPUNum) :
    tp.GetNPUAllocPriorityArray n = .ok [tp.MaxNodeNPUNum] := by
  subst hfull
  simp [Base910b.GetNPUAllocPriorityArray, hvalid]

/-- Witness of C8: a request of 8 devices on a node of 8. -/
theorem priorityArray_full_witness :
    (exampleHandler 8).GetNPUAllocPriorityArray 8 = .ok [8] :=
  priorityArray_full (exampleHandler 8) 8 (by decide) (by decide)

/-- C9: for a request `n` accepted by `IsVaildNpuNum`, different from
`MaxNodeNPUNum` and at most `MaxNodeNPUNum / 2`, `GetNPUAllocPriorityArray`
returns without error the list `n, n + 1, ..., MaxNodeNPUNum / 2`: its first
entry is `n`, its last is `MaxNodeNPUNum / 2`, and it has
`MaxNodeNPUNum / 2 - n + 1` entries. -/
theorem priorityArray_le_half (tp : Base910b) (n : Int) (hvalid : tp.IsVaildNpuNum n = true)
    (hne : n ≠ tp.MaxNodeNPUNum) (hle : n ≤ tp.MaxNodeNPUNum.tdiv 2) :
    ∃ l, tp.GetNPUAllocPriorityArray n = .ok l ∧
      l = (List.range (tp.MaxNodeNPUNum.tdiv 2 - n + 1).toNat).map (fun k : Nat => n + (k : Int)) ∧
      l.head? = some n ∧ l.getLast? = some (tp.MaxNodeNPUNum.tdiv 2) ∧
      (l.length : Int) = tp.MaxNodeNPUNum.tdiv 2 - n + 1 := by
  have hloop : appendLoop n (tp.MaxNodeNPUNum.tdiv 2) 1 [] =
      (List.range (tp.MaxNodeNPUNum.tdiv 2 - n + 1).toNat).map (fun k : Nat => n + (k : Int)) := by
    unfold appendLoop
    rw [appendLoopFuel_eq 1 (tp.MaxNodeNPUNum.tdiv 2) (tp.MaxNodeNPUNum.tdiv 2 - n + 1).toNat _ n []
      (by omega) (by intro k hk; omega) (by omega)]
    simp
  obtain ⟨c, hc⟩ : ∃ c : Nat, (tp.MaxNodeNPUNum.tdiv 2 - n + 1).toNat = c + 1 :=
    ⟨(tp.MaxNodeNPUNum.tdiv 2 - n).toNat, by omega⟩
  refine ⟨_, ?_, rfl, ?_, ?_, ?_⟩
  · simp [Base910b.GetNPUAllocPriorityArray, hvalid, hne, hle, NPUIndex2, hloop]
  · rw [hc, List.range_succ_eq_map]
    simp
  · rw [hc, List.range_succ]
    simp
    omega
  · rw [List.length_map, List.length_range]
    omega

/-- Witness of C9: a request of 2 devices on a node of 8 gives `[2, 3, 4]`. -/
theorem priorityArray_le_half_witness :
    (exampleHandler 8).GetNPUAllocPriorityArray 2 = .ok [2, 3, 4] := by
  obtain ⟨l, hl, hlist, _, _, _⟩ :=
    priorityArray_le_half (exampleHandler 8) 2 (by decide) (by decide) (by decide)
  rw [hl, hlist]
  decide

/-- C10: for a request `n` accepted by `IsVaildNpuNum` with
`MaxNodeNPUNum / 2 < n < MaxNodeNPUNum`, `GetNPUAllocPriorityArray` returns
without error the ascending list of all values `n + 2 * k` (`k >= 0`) that are
at most `MaxNodeNPUNum`; every entry has the parity of `n`, and
`MaxNodeNPUNum` is an entry exactly when `MaxNodeNPUNum - n` is even. -/
theorem priorityArray_above_half (tp : Base910b) (n : Int)
    (hvalid : tp.IsVaildNpuNum n = true)
    (hgt : tp.MaxNodeNPUNum.tdiv 2 < n) (hlt : n < tp.MaxNodeNPUNum) :
    ∃ l, tp.GetNPUAllocPriorityArray n = .ok l ∧
      l = (List.range ((tp.MaxNodeNPUNum - n) / 2 + 1).toNat).map
        (fun k : Nat => n + 2 * (k : Int)) ∧
      (∀ x, x ∈ l ↔ ∃ k : Nat, x = n + 2 * (k : Int) ∧ x ≤ tp.MaxNodeNPUNum) ∧
      l.Pairwise (fun x y => x < y) ∧
      (∀ x ∈ l, x % 2 = n % 2) ∧
      (tp.MaxNodeNPUNum ∈ l ↔ (tp.MaxNodeNPUNum - n) % 2 = 0) := by
  have hloop : appendLoop n tp.MaxNodeNPUNum 2 [] =
      (List.range ((tp.MaxNodeNPUNum - n) / 2 + 1).toNat).map
        (fun k : Nat => n + 2 * (k : Int)) := by
    unfold appendLoop
    rw [appendLoopFuel_eq 2 tp.MaxNodeNPUNum ((tp.MaxNodeNPUNum - n) / 2 + 1).toNat _ n []
      (by omega) (by intro k hk; omega) (by omega)]
    simp
  have hmem : ∀ x, x ∈ (List.range ((tp.MaxNodeNPUNum - n) / 2 + 1).toNat).map
        (fun k : Nat => n + 2 * (k : Int)) ↔
      ∃ k : Nat, x = n + 2 * (k : Int) ∧ x ≤ tp.MaxNodeNPUNum := by
    intro x
    simp only [List.mem_map, List.mem_range]
    constructor
    · rintro ⟨k, hk, rfl⟩
      exact ⟨k, rfl, by omega⟩
    · rintro ⟨k, rfl, hk⟩
      exact ⟨k, by omega, rfl⟩
  refine ⟨_, ?_, rfl, hmem, ?_, ?_, ?_⟩
  · have hne : n ≠ tp.MaxNodeNPUNum := by omega
    have hnle : ¬ n ≤ tp.MaxNodeNPUNum.tdiv 2 := by omega
    simp [Base910b.GetNPUAllocPriorityArray, hvalid, hne, hnle, hgt, NPUIndex2, hloop]
  · rw [List.pairwise_map]
    exact (List.pairwise_lt_range _).imp (by intro a b hab; omega)
  · intro x hx
    obtain ⟨k, rfl, _⟩ := (hmem x).mp hx
    omega
  · rw [hmem]
    constructor
    · rintro ⟨k, hk, _⟩
      omega
    · intro heven
      exact ⟨((tp.MaxNodeNPUNum - n) / 2).toNat, by omega, le_refl _⟩

/-- Witness of C10: on a node of 8 a request of 5 gives `[5, 7]`, without the
full capacity, and a request of 6 gives `[6, 8]`. -/
theorem priorityArray_above_half_witness :
    (exampleHandler 8).GetNPUAllocPriorityArray 5 = .ok [5, 7] ∧
    (exampleHandler 8).GetNPUAllocPriorityArray 6 = .ok [6, 8] := by
  obtain ⟨l, hl, hlist, _⟩ :=
    priorityArray_above_half (exampleHandler 8) 5 (by decide) (by decide) (by decide)
  obtain ⟨l', hl', hlist', _⟩ :=
    priorityArray_above_half (exampleHandler 8) 6 (by decide) (by decide) (by decide)
  rw [hl, hlist, hl', hlist']
  decide

/-! ### Lemmas on the topology split and on the cross-module pairing -/

theorem splitLoop_eq (cut : Int) :
    ∀ (top : List Int) (left right : List Int),
      splitLoop cut top (left, right) =
        (left ++ top.filter (fun v => decide (v < cut)),
         right ++ top.filter (fun v => !decide (v < cut))) := by
  intro top
  induction top with
  | nil => intro left right; simp [splitLoop]
  | cons v rest ih =>
    intro left right
    by_cases hv : v < cut
    · simp [splitLoop, hv, ih]
    · simp [splitLoop, hv, ih]

theorem pairByOffsetInner_eq (l cut : Int) :
    ∀ (right cross : List Int),
      pairByOffsetInner l cut right cross =
        if l + cut ∈ right then cross ++ [l, l + cut] else cross := by
  intro right
  induction right with
  | nil => intro cross; simp [pairByOffsetInner]
  | cons r rest ih =>
    intro cross
    by_cases hr : l + cut = r
    · simp [pairByOffsetInner, hr]
    · have hr' : ¬ r = l + cut := fun hc => hr hc.symm
      simp [pairByOffsetInner, hr, ih, hr']

theorem pairByOffsetLoop_eq (cut : Int) (right : List Int) :
    ∀ (left cross : List Int),
      pairByOffsetLoop cut right left cross =
        cross ++ left.flatMap (fun l => if l + cut ∈ right then [l, l + cut] else []) := by
  intro left
  induction left with
  | nil => intro cross; simp [pairByOffsetLoop]
  | cons l rest ih =>
    intro cross
    rw [pairByOffsetLoop, ih, pairByOffsetInner_eq]
    by_cases hl : l + cut ∈ right
    · simp [hl]
    · simp [hl]

theorem pairByIndexFuel_eq (left right : List Int) (minLen : Nat)
    (hl : minLen ≤ left.length) (hr : minLen ≤ right.length) :
    ∀ (fuel i : Nat) (cross : List Int), i + fuel = minLen →
      pairByIndexFuel left right minLen fuel i cross =
        some (cross ++ (((left.drop i).zip (right.drop i)).take fuel).flatMap
          (fun p => [p.1, p.2])) := by
  intro fuel
  induction fuel with
  | zero => intro i cross _; simp [pairByIndexFuel]
  | succ f ih =>
    intro i cross hif
    have hi : i < minLen := by omega
    have hil : i < left.length := by omega
    have hir : i < right.length := by omega
    rw [pairByIndexFuel, if_pos hi, List.getElem?_eq_getElem hil, List.getElem?_eq_getElem hir]
    simp only []
    rw [ih (i + 1) _ (by omega), List.drop_eq_getElem_cons hil, List.drop_eq_getElem_cons hir]
    simp only [List.zip_cons_cons, List.take_succ_cons, List.flatMap_cons, List.append_assoc,
      List.cons_append, List.nil_append]

theorem crossCandidate_eq (left right : List Int) (mult : Bool) (cut : Int) :
    crossCandidate left right mult cut = some
      (if mult then (left.zip right).flatMap (fun p => [p.1, p.2])
       else left.flatMap (fun l => if l + cut ∈ right then [l, l + cut] else [])) := by
  cases mult with
  | false => simp [crossCandidate, pairByOffsetLoop_eq]
  | true =>
    simp only [crossCandidate, if_true]
    have hmin : (if left.length > right.length then right.length else left.length) =
        min left.length right.length := by
      by_cases h : left.length > right.length
      · rw [if_pos h]; omega
      · rw [if_neg h]; omega
    rw [hmin, pairByIndexFuel_eq left right _ (Nat.min_le_left _ _) (Nat.min_le_right _ _)
      _ 0 [] (by omega)]
    have htake : (left.zip right).take (min left.length right.length) = left.zip right := by
      apply List.take_of_length_le
      simp
    simp [htake]

theorem length_pairs_zip (left right : List Int) :
    ((left.zip right).flatMap (fun p => [p.1, p.2])).length =
      2 * min left.length right.length := by
  induction left generalizing right with
  | nil => simp
  | cons l rest ih =>
    cases right with
    | nil => simp
    | cons r rest' =>
      simp only [List.zip_cons_cons, List.flatMap_cons, List.length_append, List.length_cons,
        List.length_nil, ih]
      omega

theorem length_pairs_offset_even (left right : List Int) (cut : Int) :
    (left.flatMap (fun l => if l + cut ∈ right then [l, l + cut] else [])).length % 2 = 0 := by
  induction left with
  | nil => simp
  | cons l rest ih =>
    by_cases hl : l + cut ∈ right
    · simp only [List.flatMap_cons, hl, if_true, List.length_append, List.length_cons,
        List.length_nil]
      omega
    · simp only [List.flatMap_cons, hl, if_false, List.nil_append]
      exact ih

theorem getElem?_pairs_offset (cut : Int) :
    ∀ (F : List Int) (k : Nat),
      (F.flatMap (fun l => [l, l + cut]))[2 * k]? = F[k]? ∧
      (F.flatMap (fun l => [l, l + cut]))[2 * k + 1]? = F[k]?.map (fun l => l + cut) := by
  intro F
  induction F with
  | nil => intro k; simp
  | cons l rest ih =>
    intro k
    cases k with
    | zero => simp
    | succ j =>
      have h1 : 2 * (j + 1) = 2 * j + 1 + 1 := by omega
      have h2 : 2 * (j + 1) + 1 = 2 * j + 1 + 1 + 1 := by omega
      rw [h2, h1]
      simpa using ih j

theorem getElem?_pairs_zip :
    ∀ (left right : List Int) (i : Nat), i < min left.length right.length →
      ((left.zip right).flatMap (fun p => [p.1, p.2]))[2 * i]? = left[i]? ∧
      ((left.zip right).flatMap (fun p => [p.1, p.2]))[2 * i + 1]? = right[i]? := by
  intro left
  induction left with
  | nil => intro right i hi; simp at hi
  | cons l rest ih =>
    intro right i hi
    cases right with
    | nil => simp at hi
    | cons r rest' =>
      cases i with
      | zero => simp
      | succ j =>
        have hj : j < min rest.length rest'.length := by
          simp only [List.length_cons] at hi
          omega
        have h1 : 2 * (j + 1) = 2 * j + 1 + 1 := by omega
        have h2 : 2 * (j + 1) + 1 = 2 * j + 1 + 1 + 1 := by omega
        rw [h2, h1]
        simpa using ih rest' j hj

theorem flatMap_if_eq_filter (left right : List Int) (cut : Int) :
    left.flatMap (fun l => if l + cut ∈ right then [l, l + cut] else []) =
      (left.filter (fun l => decide (l + cut ∈ right))).flatMap (fun l => [l, l + cut]) := by
  induction left with
  | nil => simp
  | cons l rest ih =>
    by_cases hl : l + cut ∈ right
    · simp [List.filter_cons, hl, ih]
    · simp [List.filter_cons, hl, ih]

theorem GetNodeHccsArray_eq (tp : Base910b) (nodeTop : List Int) (mult : Bool)
    (res : List Int)
    (hres : getCrossHccsArray (nodeTop.filter (fun v => decide (v < tp.MaxNodeNPUNum.tdiv 2)))
      (nodeTop.filter (fun v => !decide (v < tp.MaxNodeNPUNum.tdiv 2))) mult
      (tp.MaxNodeNPUNum.tdiv 2) = some res) :
    tp.GetNodeHccsArray nodeTop mult =
      some (nodeTop.filter (fun v => decide (v < tp.MaxNodeNPUNum.tdiv 2)),
        nodeTop.filter (fun v => !decide (v < tp.MaxNodeNPUNum.tdiv 2)), res) := by
  simp only [Base910b.GetNodeHccsArray, NPUIndex2, splitLoop_eq, List.nil_append, hres]

/-! ### The claims on the cross-module pairing -/

/-- C16: with `isMultNpuReplica = false` the candidate list built by
`getCrossHccsArray` before the capacity cut consists, for each left device `l`
in list order such that `l + idCutNum` occurs in the right list, of the two
entries `l`, `l + idCutNum`; a left device without its partner contributes
nothing, and every right device of the list stands directly after its
partner. -/
theorem crossCandidate_single (left right : List Int) (idCutNum : Int) :
    ∃ cand, crossCandidate left right false idCutNum = some cand ∧
      cand = left.flatMap (fun l => if l + idCutNum ∈ right then [l, l + idCutNum] else []) ∧
      cand = (left.filter (fun l => decide (l + idCutNum ∈ right))).flatMap
        (fun l => [l, l + idCutNum]) ∧
      (∀ k : Nat,
        cand[2 * k]? = (left.filter (fun l => decide (l + idCutNum ∈ right)))[k]? ∧
        cand[2 * k + 1]? = ((left.filter (fun l => decide (l + idCutNum ∈ right)))[k]?).map
          (fun l => l + idCutNum)) ∧
      (∀ x, x ∈ cand →
        (x ∈ left ∧ x + idCutNum ∈ right) ∨ (x ∈ right ∧ x - idCutNum ∈ left)) := by
  refine ⟨_, crossCandidate_eq left right false idCutNum, by simp, ?_, ?_, ?_⟩
  · simpa using flatMap_if_eq_filter left right idCutNum
  · intro k
    have h := flatMap_if_eq_filter left right idCutNum
    simp only [Bool.false_eq_true, if_false]
    rw [h]
    exact getElem?_pairs_offset idCutNum _ k
  · intro x hx
    simp only [Bool.false_eq_true, if_false, List.mem_flatMap] at hx
    obtain ⟨l, hl, hxl⟩ := hx
    by_cases hp : l + idCutNum ∈ right
    · simp only [hp, if_true, List.mem_cons, List.mem_singleton, List.not_mem_nil, or_false] at hxl
      rcases hxl with rfl | rfl
      · exact Or.inl ⟨hl, hp⟩
      · exact Or.inr ⟨hp, by simpa using hl⟩
    · simp [hp] at hxl

/-- C17: with `isMultNpuReplica = true` the candidate list built by
`getCrossHccsArray` before the capacity cut is `left[0], right[0], left[1],
right[1], ...` over the first `min(len(left), len(right))` positions; it has
`2 * min(len(left), len(right))` entries, one left and one right device per
position, and does not depend on `idCutNum`. -/
theorem crossCandidate_replica (left right : List Int) (idCutNum : Int) :
    ∃ cand, crossCandidate left right true idCutNum = some cand ∧
      cand = (left.zip right).flatMap (fun p => [p.1, p.2]) ∧
      cand.length = 2 * min left.length right.length ∧
      (∀ i : Nat, i < min left.length right.length →
        cand[2 * i]? = left[i]? ∧ cand[2 * i + 1]? = right[i]?) ∧
      (∀ cut : Int, crossCandidate left right true cut = some cand) := by
  refine ⟨_, crossCandidate_eq left right true idCutNum, by simp, ?_, ?_, ?_⟩
  · simpa using length_pairs_zip left right
  · intro i hi
    simpa using getElem?_pairs_zip left right i hi
  · intro cut
    simp [crossCandidate_eq]

/-- Witness of C17: three left and two right devices that are not adjacent
give two index pairs. -/
theorem crossCandidate_replica_witness :
    crossCandidate [0, 1, 2] [6, 7] true 4 = some [0, 6, 1, 7] ∧
    ([0, 6, 1, 7] : List Int)[2 * 1]? = ([0, 1, 2] : List Int)[1]? ∧
    ([0, 6, 1, 7] : List Int)[2 * 1 + 1]? = ([6, 7] : List Int)[1]? := by
  obtain ⟨cand, hc, hcand, _, hpos, _⟩ := crossCandidate_replica [0, 1, 2] [6, 7] 4
  have hval : cand = [0, 6, 1, 7] := by rw [hcand]; decide
  subst hval
  exact ⟨hc, hpos 1 (by decide)⟩

/-- Witness of C16: the left device 1, whose partner 5 is missing, contributes
nothing, and the entries are the pairs of 0 and of 2. -/
theorem crossCandidate_single_witness :
    crossCandidate [0, 1, 2] [4, 6, 7] false 4 = some [0, 4, 2, 6] ∧
    ((4 : Int) ∈ ([0, 1, 2] : List Int) ∧ (4 : Int) + 4 ∈ ([4, 6, 7] : List Int) ∨
      (4 : Int) ∈ ([4, 6, 7] : List Int) ∧ (4 : Int) - 4 ∈ ([0, 1, 2] : List Int)) := by
  obtain ⟨cand, hc, hcand, _, _, hmem⟩ := crossCandidate_single [0, 1, 2] [4, 6, 7] 4
  have hval : cand = [0, 4, 2, 6] := by rw [hcand]; decide
  subst hval
  exact ⟨hc, hmem 4 (by decide)⟩

/-- C18: in both pairing modes the list returned by `getCrossHccsArray`, which
is the third result of `GetNodeHccsArray`, is empty or has more than
`idCutNum` entries: a candidate of at most `idCutNum` entries is replaced by
the empty list, a longer one is returned unchanged, and the returned list has
even length. -/
theorem crossHccsArray_cut (left right : List Int) (mult : Bool) (idCutNum : Int) :
    (∃ cand res, crossCandidate left right mult idCutNum = some cand ∧
      getCrossHccsArray left right mult idCutNum = some res ∧
      ((cand.length : Int) ≤ idCutNum → res = []) ∧
      (idCutNum < (cand.length : Int) → res = cand) ∧
      (res = [] ∨ idCutNum < (res.length : Int)) ∧
      res.length % 2 = 0) ∧
    (∀ (tp : Base910b) (nodeTop : List Int),
      ∃ l r c, tp.GetNodeHccsArray nodeTop mult = some (l, r, c) ∧
        (c = [] ∨ tp.MaxNodeNPUNum.tdiv 2 < (c.length : Int)) ∧ c.length % 2 = 0) := by
  have hcandEven : ∀ (l r : List Int) (cut : Int) (cand : List Int),
      crossCandidate l r mult cut = some cand → cand.length % 2 = 0 := by
    intro l r cut cand hc
    rw [crossCandidate_eq] at hc
    have hc' := (Option.some.inj hc).symm
    subst hc'
    cases mult with
    | true =>
      simp only [if_true, length_pairs_zip]
      omega
    | false =>
      simpa using length_pairs_offset_even l r cut
  have hmain : ∀ (l r : List Int) (cut : Int),
      ∃ cand res, crossCandidate l r mult cut = some cand ∧
        getCrossHccsArray l r mult cut = some res ∧
        ((cand.length : Int) ≤ cut → res = []) ∧
        (cut < (cand.length : Int) → res = cand) ∧
        (res = [] ∨ cut < (res.length : Int)) ∧
        res.length % 2 = 0 := by
    intro l r cut
    obtain ⟨cand, hc⟩ : ∃ cand, crossCandidate l r mult cut = some cand :=
      ⟨_, crossCandidate_eq l r mult cut⟩
    have heven := hcandEven l r cut cand hc
    refine ⟨cand, getCrossHccsArrayByCutNum cand cut, hc, ?_, ?_, ?_, ?_, ?_⟩
    · simp [getCrossHccsArray, hc]
    · intro hle
      simp [getCrossHccsArrayByCutNum, hle]
    · intro hlt
      have : ¬ (cand.length : Int) ≤ cut := by omega
      simp [getCrossHccsArrayByCutNum, this]
    · by_cases hle : (cand.length : Int) ≤ cut
      · left
        simp [getCrossHccsArrayByCutNum, hle]
      · right
        simp only [getCrossHccsArrayByCutNum, hle, if_false]
        omega
    · by_cases hle : (cand.length : Int) ≤ cut
      · simp [getCrossHccsArrayByCutNum, hle]
      · simpa [getCrossHccsArrayByCutNum, hle] using heven
  refine ⟨hmain left right idCutNum, ?_⟩
  intro tp nodeTop
  obtain ⟨cand, res, _, hres, _, _, hcut, heven⟩ :=
    hmain (nodeTop.filter (fun v => decide (v < tp.MaxNodeNPUNum.tdiv 2)))
      (nodeTop.filter (fun v => !decide (v < tp.MaxNodeNPUNum.tdiv 2)))
      (tp.MaxNodeNPUNum.tdiv 2)
  exact ⟨_, _, res, GetNodeHccsArray_eq tp nodeTop mult res hres, hcut, heven⟩

/-- Witness of C18: two complete pairs on a node of 8 devices do not exceed
one half (4 devices), so the cross-module group is empty. -/
theorem crossHccsArray_cut_witness :
    getCrossHccsArray [0, 1] [4, 5] false 4 = some [] := by
  obtain ⟨cand, res, hc, hres, hle, _⟩ := (crossHccsArray_cut [0, 1] [4, 5] false 4).1
  have hcand : cand = [0, 4, 1, 5] := by
    have h : crossCandidate [0, 1] [4, 5] false 4 = some [0, 4, 1, 5] := by decide
    rw [h] at hc
    exact (Option.some.inj hc).symm
  subst hcand
  rw [hres, hle (by decide)]

/-! ### Lemmas on feasibility and selection -/

theorem length_filter_add (cut : Int) (top : List Int) :
    (top.filter (fun v => decide (v < cut))).length +
      (top.filter (fun v => !decide (v < cut))).length = top.length := by
  induction top with
  | nil => rfl
  | cons v rest ih =>
    by_cases hv : v < cut
    · simp only [List.filter_cons, hv, decide_True, if_true, Bool.not_true, List.length_cons]
      simp only [Bool.false_eq_true, if_false]
      omega
    · simp only [List.filter_cons, hv, decide_False, Bool.false_eq_true, if_false, Bool.not_false,
        if_true, List.length_cons]
      omega

theorem initSelectNodeInf_counts (ab : Base910b) (npuTop : List Int) :
    (ab.initSelectNodeInf npuTop).LeftNPUNum =
      ((npuTop.filter (fun v => decide (v < ab.MaxNodeNPUNum.tdiv 2))).length : Int) ∧
    (ab.initSelectNodeInf npuTop).RightNPUNum =
      ((npuTop.filter (fun v => !decide (v < ab.MaxNodeNPUNum.tdiv 2))).length : Int) ∧
    (ab.initSelectNodeInf npuTop).AllNPUNum = (npuTop.length : Int) := by
  have hlen := length_filter_add (ab.MaxNodeNPUNum.tdiv 2) npuTop
  unfold Base910b.initSelectNodeInf
  simp only [NPUIndex2, splitLoop_eq, List.nil_append]
  by_cases hm : ab.NPUTaskNum > 1
  · simp only [hm, if_true]
    refine ⟨trivial, trivial, ?_⟩
    omega
  · simp only [hm, if_false]
    refine ⟨trivial, trivial, ?_⟩
    omega

theorem selectLoop_eq (n : Int) (l r c : List Int) :
    ∀ ps : List Int,
      selectLoop n l r c ps =
        match ps.find? (fun p => decide (p = (l.length : Int) ∨ p = (r.length : Int) ∨
            p = (c.length : Int))) with
        | none => some none
        | some p =>
          if p = (l.length : Int) then (sliceTo l n).map some
          else if p = (r.length : Int) then (sliceTo r n).map some
          else (sliceTo c n).map some := by
  intro ps
  induction ps with
  | nil => simp [selectLoop]
  | cons p rest ih =>
    by_cases h1 : p = (l.length : Int)
    · simp [selectLoop, List.find?_cons, h1]
    · by_cases h2 : p = (r.length : Int)
      · simp [selectLoop, List.find?_cons, h1, h2]
      · by_cases h3 : p = (c.length : Int)
        · simp [selectLoop, List.find?_cons, h1, h2, h3]
        · simp [selectLoop, List.find?_cons, h1, h2, h3, ih]

theorem appendLoop_step_one (n hi : Int) :
    appendLoop n hi 1 [] = (List.range (hi - n + 1).toNat).map (fun k : Nat => n + (k : Int)) := by
  unfold appendLoop
  rw [appendLoopFuel_eq 1 hi (hi - n + 1).toNat _ n [] (by omega) (by intro k hk; omega)
    (by omega)]
  simp

theorem appendLoop_step_two (n hi : Int) :
    appendLoop n hi 2 [] =
      (List.range ((hi - n) / 2 + 1).toNat).map (fun k : Nat => n + 2 * (k : Int)) := by
  unfold appendLoop
  rw [appendLoopFuel_eq 2 hi ((hi - n) / 2 + 1).toNat _ n [] (by omega) (by intro k hk; omega)
    (by omega)]
  simp

/-- The priority array of an accepted request other than `MaxNodeNPUNum`. -/
theorem priorityArray_of_valid (tp : Base910b) (n : Int) (hvalid : tp.IsVaildNpuNum n = true)
    (hne : n ≠ tp.MaxNodeNPUNum) :
    tp.GetNPUAllocPriorityArray n = .ok
      (if n ≤ tp.MaxNodeNPUNum.tdiv 2 then
        (List.range (tp.MaxNodeNPUNum.tdiv 2 - n + 1).toNat).map (fun k : Nat => n + (k : Int))
       else
        (List.range ((tp.MaxNodeNPUNum - n) / 2 + 1).toNat).map
          (fun k : Nat => n + 2 * (k : Int))) := by
  by_cases hle : n ≤ tp.MaxNodeNPUNum.tdiv 2
  · simp [Base910b.GetNPUAllocPriorityArray, hvalid, hne, hle, NPUIndex2, appendLoop_step_one]
  · have hgt : tp.MaxNodeNPUNum.tdiv 2 < n := by omega
    simp [Base910b.GetNPUAllocPriorityArray, hvalid, hne, hle, hgt, NPUIndex2,
      appendLoop_step_two]

theorem priorityArray_of_invalid (tp : Base910b) (n : Int)
    (hinvalid : tp.IsVaildNpuNum n = false) :
    ∃ e, tp.GetNPUAllocPriorityArray n = .error e := by
  simp [Base910b.GetNPUAllocPriorityArray, hinvalid]

/-- Every priority entry is at least the request. -/
theorem priorityArray_ge (tp : Base910b) (n : Int) (ps : List Int)
    (hps : tp.GetNPUAllocPriorityArray n = .ok ps) : ∀ p ∈ ps, n ≤ p := by
  intro p hp
  cases hv : tp.IsVaildNpuNum n with
  | false =>
    obtain ⟨e, he⟩ := priorityArray_of_invalid tp n hv
    rw [he] at hps
    cases hps
  | true =>
    by_cases hne : n = tp.MaxNodeNPUNum
    · have : tp.GetNPUAllocPriorityArray n = .ok [tp.MaxNodeNPUNum] := by
        subst hne
        simp [Base910b.GetNPUAllocPriorityArray, hv]
      rw [this] at hps
      cases hps
      simp only [List.mem_singleton] at hp
      omega
    · rw [priorityArray_of_valid tp n hv hne] at hps
      cases hps
      split at hp
      · simp only [List.mem_map, List.mem_range] at hp
        obtain ⟨k, _, rfl⟩ := hp
        omega
      · simp only [List.mem_map, List.mem_range] at hp
        obtain ⟨k, _, rfl⟩ := hp
        omega

theorem getCrossHccsArray_eq (left right : List Int) (mult : Bool) (cut : Int) :
    getCrossHccsArray left right mult cut = some (getCrossHccsArrayByCutNum
      (if mult then (left.zip right).flatMap (fun p => [p.1, p.2])
       else left.flatMap (fun l => if l + cut ∈ right then [l, l + cut] else [])) cut) := by
  simp [getCrossHccsArray, crossCandidate_eq]

/-- The three candidate groups of a topology always exist: the split never
panics. -/
theorem GetNodeHccsArray_some (tp : Base910b) (nodeTop : List Int) (mult : Bool) :
    ∃ c, tp.GetNodeHccsArray nodeTop mult =
      some (nodeTop.filter (fun v => decide (v < tp.MaxNodeNPUNum.tdiv 2)),
        nodeTop.filter (fun v => !decide (v < tp.MaxNodeNPUNum.tdiv 2)), c) ∧
      c = getCrossHccsArrayByCutNum
        (if mult then
          ((nodeTop.filter (fun v => decide (v < tp.MaxNodeNPUNum.tdiv 2))).zip
            (nodeTop.filter (fun v => !decide (v < tp.MaxNodeNPUNum.tdiv 2)))).flatMap
              (fun p => [p.1, p.2])
         else
          (nodeTop.filter (fun v => decide (v < tp.MaxNodeNPUNum.tdiv 2))).flatMap
            (fun l => if l + tp.MaxNodeNPUNum.tdiv 2 ∈
                nodeTop.filter (fun v => !decide (v < tp.MaxNodeNPUNum.tdiv 2))
              then [l, l + tp.MaxNodeNPUNum.tdiv 2] else []))
        (tp.MaxNodeNPUNum.tdiv 2) :=
  ⟨_, GetNodeHccsArray_eq tp nodeTop mult _ (getCrossHccsArray_eq _ _ mult _), rfl⟩

/-- The selection of a request other than `MaxNodeNPUNum`, given its priority
array and the three candidate groups. -/
theorem select_unfold (tp : Base910b) (n : Int) (nodeTop ps l r c : List Int)
    (hne : n ≠ tp.MaxNodeNPUNum) (hps : tp.GetNPUAllocPriorityArray n = .ok ps)
    (hg : tp.GetNodeHccsArray nodeTop (decide (tp.NPUTaskNum > 1)) = some (l, r, c)) :
    tp.SelectNPUByTaskNPUNumAndNodeTop n nodeTop =
      match selectLoop n l r c ps with
      | none => none
      | some (some devices) => some (.ok devices)
      | some none =>
        some (.error ("node top<" ++ toString nodeTop.length ++ "> can not meet task req<" ++
          toString n ++ ">")) := by
  simp only [Base910b.SelectNPUByTaskNPUNumAndNodeTop, hne, if_false, hps, hg]

theorem judge_full_eq (ab : Base910b) (nodeTop : List Int) :
    ab.Judge910BNodeAndTaskNPU ab.MaxNodeNPUNum nodeTop =
      if (nodeTop.length : Int) = ab.MaxNodeNPUNum then .ok ()
      else .error (fmtInts nodeTop ++ " not meet req npu(" ++ toString ab.MaxNodeNPUNum ++ ")") := by
  have hall := (initSelectNodeInf_counts ab nodeTop).2.2
  simp only [Base910b.Judge910BNodeAndTaskNPU, if_true, hall]
  by_cases h : (nodeTop.length : Int) = ab.MaxNodeNPUNum
  · simp [h]
  · simp [h]

/-! ### The claims on a request of the full node -/

/-- C14: with a request equal to `MaxNodeNPUNum`, `Judge910BNodeAndTaskNPU`
returns nil exactly when the topology holds `MaxNodeNPUNum` devices, the
left and right counts adding up to the number of devices of the topology; on
any other topology it returns an error. -/
theorem judge_full_capacity (ab : Base910b) (nodeTop : List Int) :
    (ab.Judge910BNodeAndTaskNPU ab.MaxNodeNPUNum nodeTop = .ok () ↔
      (ab.initSelectNodeInf nodeTop).LeftNPUNum + (ab.initSelectNodeInf nodeTop).RightNPUNum =
        ab.MaxNodeNPUNum) ∧
    (ab.initSelectNodeInf nodeTop).LeftNPUNum + (ab.initSelectNodeInf nodeTop).RightNPUNum =
      (nodeTop.length : Int) ∧
    ((nodeTop.length : Int) ≠ ab.MaxNodeNPUNum →
      ∃ e, ab.Judge910BNodeAndTaskNPU ab.MaxNodeNPUNum nodeTop = .error e) := by
  obtain ⟨hl, hr, _⟩ := initSelectNodeInf_counts ab nodeTop
  have hsum : (ab.initSelectNodeInf nodeTop).LeftNPUNum +
      (ab.initSelectNodeInf nodeTop).RightNPUNum = (nodeTop.length : Int) := by
    rw [hl, hr]
    have := length_filter_add (ab.MaxNodeNPUNum.tdiv 2) nodeTop
    omega
  refine ⟨?_, hsum, ?_⟩
  · rw [hsum, judge_full_eq]
    by_cases h : (nodeTop.length : Int) = ab.MaxNodeNPUNum
    · simp [h]
    · simp [h]
  · intro h
    rw [judge_full_eq, if_neg h]
    exact ⟨_, rfl⟩

/-- Witness of C14: on a node of 8 devices a topology of 7 devices is rejected
for a request of 8. -/
theorem judge_full_capacity_witness :
    ∃ e, (exampleHandler8 1).Judge910BNodeAndTaskNPU 8 [0, 1, 2, 3, 4, 5, 6] = .error e :=
  (judge_full_capacity (exampleHandler8 1) [0, 1, 2, 3, 4, 5, 6]).2.2 (by decide)

/-- C15: with a request equal to `MaxNodeNPUNum`,
`SelectNPUByTaskNPUNumAndNodeTop` returns the node topology itself when it has
`MaxNodeNPUNum` entries and an error otherwise; it succeeds exactly on the
topologies `Judge910BNodeAndTaskNPU` accepts for that request. -/
theorem select_full_capacity (tp : Base910b) (nodeTop : List Int) :
    ((nodeTop.length : Int) = tp.MaxNodeNPUNum →
      tp.SelectNPUByTaskNPUNumAndNodeTop tp.MaxNodeNPUNum nodeTop = some (.ok nodeTop)) ∧
    ((nodeTop.length : Int) ≠ tp.MaxNodeNPUNum →
      ∃ e, tp.SelectNPUByTaskNPUNumAndNodeTop tp.MaxNodeNPUNum nodeTop = some (.error e)) ∧
    ((∃ devices, tp.SelectNPUByTaskNPUNumAndNodeTop tp.MaxNodeNPUNum nodeTop =
        some (.ok devices)) ↔
      tp.Judge910BNodeAndTaskNPU tp.MaxNodeNPUNum nodeTop = .ok ()) := by
  by_cases h : (nodeTop.length : Int) = tp.MaxNodeNPUNum
  · have hs : tp.SelectNPUByTaskNPUNumAndNodeTop tp.MaxNodeNPUNum nodeTop =
        some (.ok nodeTop) := by
      simp [Base910b.SelectNPUByTaskNPUNumAndNodeTop, h]
    refine ⟨fun _ => hs, fun hne => absurd h hne, ?_⟩
    rw [judge_full_eq, if_pos h]
    exact ⟨fun _ => rfl, fun _ => ⟨nodeTop, hs⟩⟩
  · have hs : tp.SelectNPUByTaskNPUNumAndNodeTop tp.MaxNodeNPUNum nodeTop =
        some (.error ("node top<" ++ fmtInts nodeTop ++ "> can not meet task req<" ++
          toString tp.MaxNodeNPUNum ++ ">")) := by
      simp [Base910b.SelectNPUByTaskNPUNumAndNodeTop, h]
    refine ⟨fun he => absurd he h, fun _ => ⟨_, hs⟩, ?_⟩
    rw [judge_full_eq, if_neg h, hs]
    constructor
    · rintro ⟨devices, hd⟩
      cases hd
    · intro hc
      cases hc

/-- Witness of C15: the full topology in any order is returned unchanged, and
a topology of 7 devices gives an error. -/
theorem select_full_capacity_witness :
    (exampleHandler8 1).SelectNPUByTaskNPUNumAndNodeTop 8 [7, 0, 1, 2, 3, 4, 5, 6] =
      some (.ok [7, 0, 1, 2, 3, 4, 5, 6]) ∧
    ∃ e, (exampleHandler8 1).SelectNPUByTaskNPUNumAndNodeTop 8 [0, 1, 2, 3, 4, 5, 6] =
      some (.error e) :=
  ⟨(select_full_capacity (exampleHandler8 1) [7, 0, 1, 2, 3, 4, 5, 6]).1 (by decide),
   (select_full_capacity (exampleHandler8 1) [0, 1, 2, 3, 4, 5, 6]).2.1 (by decide)⟩

/-! ### Lemmas on the selected devices -/

theorem select_invalid (tp : Base910b) (n : Int) (nodeTop : List Int) (e : String)
    (hne : n ≠ tp.MaxNodeNPUNum) (he : tp.GetNPUAllocPriorityArray n = .error e) :
    tp.SelectNPUByTaskNPUNumAndNodeTop n nodeTop = some (.error e) := by
  simp only [Base910b.SelectNPUByTaskNPUNumAndNodeTop, hne, if_false, he]

/-- The selection in terms of the first priority entry that is the size of a
candidate group. -/
theorem select_of_find (tp : Base910b) (n : Int) (nodeTop ps l r c : List Int)
    (hne : n ≠ tp.MaxNodeNPUNum) (hps : tp.GetNPUAllocPriorityArray n = .ok ps)
    (hg : tp.GetNodeHccsArray nodeTop (decide (tp.NPUTaskNum > 1)) = some (l, r, c)) :
    (ps.find? (fun p => decide (p = (l.length : Int) ∨ p = (r.length : Int) ∨
        p = (c.length : Int))) = none ∧
      tp.SelectNPUByTaskNPUNumAndNodeTop n nodeTop =
        some (.error ("node top<" ++ toString nodeTop.length ++ "> can not meet task req<" ++
          toString n ++ ">"))) ∨
    (∃ p, ps.find? (fun p => decide (p = (l.length : Int) ∨ p = (r.length : Int) ∨
        p = (c.length : Int))) = some p ∧
      tp.SelectNPUByTaskNPUNumAndNodeTop n nodeTop =
        (sliceTo (if p = (l.length : Int) then l else if p = (r.length : Int) then r else c)
          n).map Except.ok) := by
  rw [select_unfold tp n nodeTop ps l r c hne hps hg, selectLoop_eq]
  cases hf : ps.find? (fun p => decide (p = (l.length : Int) ∨ p = (r.length : Int) ∨
      p = (c.length : Int))) with
  | none => exact Or.inl ⟨rfl, rfl⟩
  | some p =>
    refine Or.inr ⟨p, rfl, ?_⟩
    simp only []
    by_cases h1 : p = (l.length : Int)
    · rw [if_pos h1, if_pos h1]
      cases sliceTo l n <;> rfl
    · by_cases h2 : p = (r.length : Int)
      · rw [if_neg h1, if_neg h1, if_pos h2, if_pos h2]
        cases sliceTo r n <;> rfl
      · rw [if_neg h1, if_neg h1, if_neg h2, if_neg h2]
        cases sliceTo c n <;> rfl

/-- The group whose size is the priority entry `p` found by the selection loop. -/
theorem chosen_length (l r c : List Int) (p : Int)
    (hp : p = (l.length : Int) ∨ p = (r.length : Int) ∨ p = (c.length : Int)) :
    (((if p = (l.length : Int) then l else if p = (r.length : Int) then r else c).length : Int)
      = p) := by
  by_cases h1 : p = (l.length : Int)
  · rw [if_pos h1]
    exact h1.symm
  · by_cases h2 : p = (r.length : Int)
    · rw [if_neg h1, if_pos h2]
      exact h2.symm
    · rcases hp with h | h | h
      · exact absurd h h1
      · exact absurd h h2
      · rw [if_neg h1, if_neg h2]
        exact h.symm

theorem sliceTo_eq (g : List Int) (n : Int) (h0 : 0 ≤ n) (hle : n ≤ (g.length : Int)) :
    sliceTo g n = some (g.take n.toNat) := by
  simp [sliceTo, h0, hle]

theorem mem_pairs_zip (x : Int) :
    ∀ (left right : List Int), x ∈ (left.zip right).flatMap (fun p => [p.1, p.2]) →
      x ∈ left ∨ x ∈ right := by
  intro left
  induction left with
  | nil => intro right hx; simp at hx
  | cons l rest ih =>
    intro right hx
    cases right with
    | nil => simp at hx
    | cons r rest' =>
      simp only [List.zip_cons_cons, List.flatMap_cons, List.mem_append, List.mem_cons,
        List.mem_singleton, List.not_mem_nil, or_false] at hx
      rcases hx with (rfl | rfl) | hx
      · exact Or.inl (List.mem_cons_self _ _)
      · exact Or.inr (List.mem_cons_self _ _)
      · rcases ih rest' hx with h | h
        · exact Or.inl (List.mem_cons_of_mem _ h)
        · exact Or.inr (List.mem_cons_of_mem _ h)

theorem nodup_pairs_zip :
    ∀ (left right : List Int), left.Nodup → right.Nodup → (∀ a ∈ left, a ∉ right) →
      ((left.zip right).flatMap (fun p => [p.1, p.2])).Nodup := by
  intro left
  induction left with
  | nil => intro right _ _ _; simp
  | cons l rest ih =>
    intro right hl hr hd
    cases right with
    | nil => simp
    | cons r rest' =>
      have hl' := List.nodup_cons.mp hl
      have hr' := List.nodup_cons.mp hr
      have hrec := ih rest' hl'.2 hr'.2
        (fun a ha hc => hd a (List.mem_cons_of_mem _ ha) (List.mem_cons_of_mem _ hc))
      simp only [List.zip_cons_cons, List.flatMap_cons, List.cons_append, List.nil_append,
        List.nodup_cons, List.mem_cons]
      refine ⟨?_, ?_, hrec⟩
      · rintro (h | h)
        · exact hd l (List.mem_cons_self _ _) (h ▸ List.mem_cons_self _ _)
        · rcases mem_pairs_zip l rest rest' h with h' | h'
          · exact hl'.1 h'
          · exact hd l (List.mem_cons_self _ _) (List.mem_cons_of_mem _ h')
      · intro h
        rcases mem_pairs_zip r rest rest' h with h' | h'
        · exact hd r (List.mem_cons_of_mem _ h') (List.mem_cons_self _ _)
        · exact hr'.1 h'

theorem mem_pairs_offset (x cut : Int) (right : List Int) :
    ∀ (left : List Int),
      x ∈ left.flatMap (fun l => if l + cut ∈ right then [l, l + cut] else []) →
      (x ∈ left ∧ x + cut ∈ right) ∨ (x ∈ right ∧ x - cut ∈ left) := by
  intro left hx
  simp only [List.mem_flatMap] at hx
  obtain ⟨l, hl, hxl⟩ := hx
  by_cases hp : l + cut ∈ right
  · simp only [hp, if_true, List.mem_cons, List.mem_singleton, List.not_mem_nil, or_false] at hxl
    rcases hxl with rfl | rfl
    · exact Or.inl ⟨hl, hp⟩
    · exact Or.inr ⟨hp, by simpa using hl⟩
  · simp [hp] at hxl

theorem nodup_pairs_offset (cut : Int) (right : List Int) (hright : ∀ r ∈ right, cut ≤ r) :
    ∀ (left : List Int), left.Nodup → (∀ l ∈ left, l < cut) →
      (left.flatMap (fun l => if l + cut ∈ right then [l, l + cut] else [])).Nodup := by
  intro left
  induction left with
  | nil => intro _ _; simp
  | cons l rest ih =>
    intro hl hlt
    have hl' := List.nodup_cons.mp hl
    have hrec := ih hl'.2 (fun a ha => hlt a (List.mem_cons_of_mem _ ha))
    by_cases hp : l + cut ∈ right
    · have hlc : l < cut := hlt l (List.mem_cons_self _ _)
      have hge : cut ≤ l + cut := hright _ hp
      simp only [List.flatMap_cons, hp, if_true, List.cons_append, List.nil_append,
        List.nodup_cons, List.mem_cons]
      refine ⟨?_, ?_, hrec⟩
      · rintro (h | h)
        · omega
        · rcases mem_pairs_offset l cut right rest h with ⟨h', _⟩ | ⟨h', _⟩
          · exact hl'.1 h'
          · have := hright l h'
            omega
      · intro h
        rcases mem_pairs_offset (l + cut) cut right rest h with ⟨h', _⟩ | ⟨_, h'⟩
        · have := hlt (l + cut) (List.mem_cons_of_mem _ h')
          omega
        · apply hl'.1
          simpa using h'
    · simpa [List.flatMap_cons, hp] using hrec

/-- The three candidate groups consist of devices of the topology, and are
duplicate-free when the topology is. -/
theorem groups_sound (tp : Base910b) (nodeTop l r c : List Int) (mult : Bool)
    (hg : tp.GetNodeHccsArray nodeTop mult = some (l, r, c)) :
    ∀ g, g = l ∨ g = r ∨ g = c → (∀ d ∈ g, d ∈ nodeTop) ∧ (nodeTop.Nodup → g.Nodup) := by
  obtain ⟨c', hg', hc'⟩ := GetNodeHccsArray_some tp nodeTop mult
  rw [hg'] at hg
  have hg'' := Option.some.inj hg
  have hl : l = nodeTop.filter (fun v => decide (v < tp.MaxNodeNPUNum.tdiv 2)) :=
    (congrArg Prod.fst hg'').symm
  have hr : r = nodeTop.filter (fun v => !decide (v < tp.MaxNodeNPUNum.tdiv 2)) :=
    (congrArg (fun t => t.2.1) hg'').symm
  have hc : c = c' := (congrArg (fun t => t.2.2) hg'').symm
  have hlmem : ∀ d ∈ l, d ∈ nodeTop ∧ d < tp.MaxNodeNPUNum.tdiv 2 := by
    intro d hd
    rw [hl] at hd
    simpa using List.mem_filter.mp hd
  have hrmem : ∀ d ∈ r, d ∈ nodeTop ∧ tp.MaxNodeNPUNum.tdiv 2 ≤ d := by
    intro d hd
    rw [hr] at hd
    simpa using List.mem_filter.mp hd
  have hlnd : nodeTop.Nodup → l.Nodup := fun h => hl ▸ h.filter _
  have hrnd : nodeTop.Nodup → r.Nodup := fun h => hr ▸ h.filter _
  intro g hgc
  rcases hgc with rfl | rfl | rfl
  · exact ⟨fun d hd => (hlmem d hd).1, hlnd⟩
  · exact ⟨fun d hd => (hrmem d hd).1, hrnd⟩
  · have hcut : ∀ (cand : List Int) (cut : Int),
        ((∀ d ∈ cand, d ∈ nodeTop) ∧ (nodeTop.Nodup → cand.Nodup)) →
        ((∀ d ∈ getCrossHccsArrayByCutNum cand cut, d ∈ nodeTop) ∧
          (nodeTop.Nodup → (getCrossHccsArrayByCutNum cand cut).Nodup)) := by
      intro cand cut hcand
      unfold getCrossHccsArrayByCutNum
      split
      · exact ⟨fun d hd => absurd hd (List.not_mem_nil d), fun _ => List.nodup_nil⟩
      · exact hcand
    rw [hc, hc', ← hl, ← hr]
    apply hcut
    cases mult with
    | true =>
      simp only [if_true]
      refine ⟨?_, ?_⟩
      · intro d hd
        rcases mem_pairs_zip d l r hd with h | h
        · exact (hlmem d h).1
        · exact (hrmem d h).1
      · intro hnd
        refine nodup_pairs_zip l r (hlnd hnd) (hrnd hnd) ?_
        intro a ha hc2
        have h1 := (hlmem a ha).2
        have h2 := (hrmem a hc2).2
        omega
    | false =>
      simp only [Bool.false_eq_true, if_false]
      refine ⟨?_, ?_⟩
      · intro d hd
        rcases mem_pairs_offset d _ r l hd with ⟨h, _⟩ | ⟨h, _⟩
        · exact (hlmem d h).1
        · exact (hrmem d h).1
      · intro hnd
        exact nodup_pairs_offset _ r (fun x hx => (hrmem x hx).2) l (hlnd hnd)
          (fun x hx => (hlmem x hx).2)

theorem chosen_is_group (l r c : List Int) (p : Int) :
    (if p = (l.length : Int) then l else if p = (r.length : Int) then r else c) = l ∨
    (if p = (l.length : Int) then l else if p = (r.length : Int) then r else c) = r ∨
    (if p = (l.length : Int) then l else if p = (r.length : Int) then r else c) = c := by
  by_cases h1 : p = (l.length : Int)
  · rw [if_pos h1]
    exact Or.inl rfl
  · by_cases h2 : p = (r.length : Int)
    · rw [if_neg h1, if_pos h2]
      exact Or.inr (Or.inl rfl)
    · rw [if_neg h1, if_neg h2]
      exact Or.inr (Or.inr rfl)

theorem find_matches (l r c ps : List Int) (p : Int)
    (hf : ps.find? (fun p => decide (p = (l.length : Int) ∨ p = (r.length : Int) ∨
      p = (c.length : Int))) = some p) :
    p ∈ ps ∧ (p = (l.length : Int) ∨ p = (r.length : Int) ∨ p = (c.length : Int)) := by
  refine ⟨List.mem_of_find?_eq_some hf, ?_⟩
  simpa using List.find?_some hf

/-! ### The claims on the selected devices -/

/-- C12: for a request `n >= 0` every priority entry is at least `n` and the
selection does not panic: no slice expression `group[:n]` is taken on a group
shorter than `n`; and when it returns without error the returned list has
exactly `n` entries, each a device of the node topology, pairwise distinct
when the topology's are. -/
theorem select_devices_sound (tp : Base910b) (n : Int) (nodeTop : List Int) (hn : 0 ≤ n) :
    (∀ ps, tp.GetNPUAllocPriorityArray n = .ok ps → ∀ p ∈ ps, n ≤ p) ∧
    tp.SelectNPUByTaskNPUNumAndNodeTop n nodeTop ≠ none ∧
    ∀ devices, tp.SelectNPUByTaskNPUNumAndNodeTop n nodeTop = some (.ok devices) →
      (devices.length : Int) = n ∧ (∀ d ∈ devices, d ∈ nodeTop) ∧
      (nodeTop.Nodup → devices.Nodup) := by
  refine ⟨priorityArray_ge tp n, ?_⟩
  by_cases hfull : n = tp.MaxNodeNPUNum
  · by_cases hlen : (nodeTop.length : Int) = tp.MaxNodeNPUNum
    · have hs : tp.SelectNPUByTaskNPUNumAndNodeTop n nodeTop = some (.ok nodeTop) := by
        simp [Base910b.SelectNPUByTaskNPUNumAndNodeTop, hfull, hlen]
      rw [hs]
      refine ⟨by simp, ?_⟩
      intro devices hd
      cases hd
      exact ⟨by omega, fun d hd => hd, fun h => h⟩
    · have hs : ∃ e, tp.SelectNPUByTaskNPUNumAndNodeTop n nodeTop = some (.error e) := by
        simp [Base910b.SelectNPUByTaskNPUNumAndNodeTop, hfull, hlen]
      obtain ⟨e, he⟩ := hs
      rw [he]
      refine ⟨by simp, ?_⟩
      intro devices hd
      cases hd
  · cases hps : tp.GetNPUAllocPriorityArray n with
    | error e =>
      rw [select_invalid tp n nodeTop e hfull hps]
      refine ⟨by simp, ?_⟩
      intro devices hd
      cases hd
    | ok ps =>
      obtain ⟨c, hg, _⟩ := GetNodeHccsArray_some tp nodeTop (decide (tp.NPUTaskNum > 1))
      rcases select_of_find tp n nodeTop ps _ _ c hfull hps hg with ⟨_, herr⟩ | ⟨p, hf, hsel⟩
      · rw [herr]
        refine ⟨by simp, ?_⟩
        intro devices hd
        cases hd
      · obtain ⟨hmem, hmatch⟩ := find_matches _ _ _ _ _ hf
        have hge := priorityArray_ge tp n ps hps p hmem
        have hlen := chosen_length _ _ c p hmatch
        rw [hsel, sliceTo_eq _ n hn (by omega)]
        refine ⟨by simp, ?_⟩
        intro devices hd
        simp only [Option.map_some', Option.some.injEq, Except.ok.injEq] at hd
        subst hd
        obtain ⟨hsub, hnd⟩ := groups_sound tp nodeTop _ _ c _ hg _ (chosen_is_group _ _ c p)
        refine ⟨?_, ?_, ?_⟩
        · rw [List.length_take]
          omega
        · intro d hd
          exact hsub d (List.mem_of_mem_take hd)
        · intro h
          exact (List.take_sublist _ _).nodup (hnd h)

/-- Witness of C12: a request of 2 on the topology 0, 1, 2, 4, 5 returns the
two right devices. -/
theorem select_devices_sound_witness :
    (([4, 5] : List Int).length : Int) = 2 ∧
    (∀ d ∈ ([4, 5] : List Int), d ∈ ([0, 1, 2, 4, 5] : List Int)) ∧
    (([0, 1, 2, 4, 5] : List Int).Nodup → ([4, 5] : List Int).Nodup) :=
  (select_devices_sound (exampleHandler8 1) 2 [0, 1, 2, 4, 5] (by decide)).2.2 [4, 5]
    (by decide)

/-- C13: for a request `n` other than `MaxNodeNPUNum`, the selection returns an
error exactly when `n` is rejected by `IsVaildNpuNum` or no entry of the
priority array of `n` is the size of the left, right or cross-module group. -/
theorem select_error_iff (tp : Base910b) (n : Int) (nodeTop : List Int)
    (hne : n ≠ tp.MaxNodeNPUNum) :
    (∃ e, tp.SelectNPUByTaskNPUNumAndNodeTop n nodeTop = some (.error e)) ↔
      (tp.IsVaildNpuNum n = false ∨
        ∃ ps l r c, tp.GetNPUAllocPriorityArray n = .ok ps ∧
          tp.GetNodeHccsArray nodeTop (decide (tp.NPUTaskNum > 1)) = some (l, r, c) ∧
          ∀ p ∈ ps, p ≠ (l.length : Int) ∧ p ≠ (r.length : Int) ∧ p ≠ (c.length : Int)) := by
  constructor
  · rintro ⟨e, he⟩
    cases hv : tp.IsVaildNpuNum n with
    | false => exact Or.inl rfl
    | true =>
      right
      have hps := priorityArray_of_valid tp n hv hne
      obtain ⟨c, hg, _⟩ := GetNodeHccsArray_some tp nodeTop (decide (tp.NPUTaskNum > 1))
      refine ⟨_, _, _, c, hps, hg, ?_⟩
      rcases select_of_find tp n nodeTop _ _ _ c hne hps hg with ⟨hnone, _⟩ | ⟨p, _, hsel⟩
      · intro p hp
        have := List.find?_eq_none.mp hnone p hp
        simpa [not_or] using this
      · rw [hsel] at he
        cases hs : sliceTo (if p = _ then _ else if p = _ then _ else c) n with
        | none => rw [hs] at he; cases he
        | some d => rw [hs] at he; cases he
  · rintro (hinv | ⟨ps, l, r, c, hps, hg, hno⟩)
    · obtain ⟨e, he⟩ := priorityArray_of_invalid tp n hinv
      exact ⟨e, select_invalid tp n nodeTop e hne he⟩
    · rcases select_of_find tp n nodeTop ps l r c hne hps hg with ⟨_, herr⟩ | ⟨p, hf, _⟩
      · exact ⟨_, herr⟩
      · obtain ⟨hmem, hmatch⟩ := find_matches _ _ _ _ _ hf
        obtain ⟨h1, h2, h3⟩ := hno p hmem
        rcases hmatch with h | h | h
        · exact absurd h h1
        · exact absurd h h2
        · exact absurd h h3

/-- Witness of C13: on the topology 0, 1, 2, 5, 6, 7 no device has its partner,
the cross group is empty and a request of 6 gives an error. -/
theorem select_error_iff_witness :
    ∃ e, (exampleHandler8 1).SelectNPUByTaskNPUNumAndNodeTop 6 [0, 1, 2, 5, 6, 7] =
      some (.error e) :=
  (select_error_iff (exampleHandler8 1) 6 [0, 1, 2, 5, 6, 7] (by decide)).mpr
    (Or.inr ⟨[6, 8], [0, 1, 2], [5, 6, 7], [], by decide, by decide, by decide⟩)

/-! ### The claim on scoring -/

theorem tableAt_neg_col (table : List (List Int)) (i j : Int) (hj : j < 0) :
    tableAt table i j = none := by
  unfold tableAt
  split
  · cases table[i.toNat]? with
    | none => rfl
    | some row =>
      have : ¬ (0 ≤ j ∧ j < (row.length : Int)) := by omega
      simp only [this, if_false]
  · rfl

/-- C20, evaluated on the code: on a node of 8 devices, with any affinity
table, any validity predicate and any number of tasks, the request 6 on the
topology 0, 1, 2, 3 (four free devices, no cross-module pair) makes
`GetNodeBestScore` read `AffScoreList[2][-1]`: it panics instead of
returning a score or an error. -/
theorem getNodeBestScore_panics_without_cross (table : List (List Int)) (npuTaskNum : Int)
    (valid : Int → Bool) :
    Base910b.GetNodeBestScore
      { MaxNodeNPUNum := 8, NPUTaskNum := npuTaskNum, AffScoreList := table,
        IsVaildNpuNum := valid } 6 [0, 1, 2, 3] = none := by
  have hinf : ∀ ab : Base910b, ab.MaxNodeNPUNum = 8 →
      (ab.initSelectNodeInf [0, 1, 2, 3]).AllNPUNum = 4 ∧
      (ab.initSelectNodeInf [0, 1, 2, 3]).crossNPUNum = 0 := by
    intro ab hmax
    unfold Base910b.initSelectNodeInf
    rw [hmax]
    by_cases hm : ab.NPUTaskNum > 1
    · simp only [hm, if_true]
      decide
    · simp only [hm, if_false]
      decide
  obtain ⟨hall, hcross⟩ := hinf
    { MaxNodeNPUNum := 8, NPUTaskNum := npuTaskNum, AffScoreList := table,
      IsVaildNpuNum := valid } rfl
  unfold Base910b.GetNodeBestScore
  simp only [hall, hcross]
  have h1 : ¬ ((4 : Int) < 1 ∨ (4 : Int) > 8) := by decide
  have h2 : ¬ ((6 : Int) = 8) := by decide
  have h3 : (6 : Int) > (8 : Int).tdiv NPUIndex2 := by decide
  have h4 : (0 : Int).tdiv NPUIndex2 - 1 < 0 := by decide
  simp only [h1, h2, h3, if_true, if_false, tableAt_neg_col _ _ _ h4]

/-! ### Lemmas on best fit and on matched pairs -/

/-- A duplicate-free list of integers of `[a, b)` has at most `b - a` entries. -/
theorem nodup_length_le (g : List Int) (a b : Int) (hnd : g.Nodup)
    (hr : ∀ d ∈ g, a ≤ d ∧ d < b) : g.length ≤ (b - a).toNat := by
  have hsub : g.toFinset ⊆ Finset.Ico a b := by
    intro d hd
    rw [List.mem_toFinset] at hd
    rw [Finset.mem_Ico]
    exact hr d hd
  have hcard := Finset.card_le_card hsub
  rw [List.toFinset_card_of_nodup hnd, Int.card_Ico] at hcard
  exact hcard

/-- In a strictly ascending list the first entry with a property is at most
every entry with that property. -/
theorem find_le_of_pairwise (P : Int → Bool) (ps : List Int) (p : Int)
    (hasc : ps.Pairwise (fun x y => x < y)) (hf : ps.find? P = some p) :
    ∀ q ∈ ps, P q = true → p ≤ q := by
  obtain ⟨_, as, bs, hps, hno⟩ := List.find?_eq_some.mp hf
  intro q hq hPq
  rw [hps] at hq hasc
  rcases List.mem_append.mp hq with h | h
  · have := hno q h
    simp [hPq] at this
  · rcases List.mem_cons.mp h with h | h
    · omega
    · have hp := (List.pairwise_append.mp hasc).2.1
      have := (List.pairwise_cons.mp hp).1 q h
      omega

theorem pairwise_range_map (n step : Int) (hstep : 0 < step) (m : Nat) :
    ((List.range m).map (fun k : Nat => n + step * (k : Int))).Pairwise (fun x y => x < y) := by
  rw [List.pairwise_map]
  refine (List.pairwise_lt_range m).imp ?_
  intro a b hab
  have : (a : Int) < (b : Int) := by exact_mod_cast hab
  nlinarith

/-- With an even capacity and distinct devices of `[0, MaxNodeNPUNum)`, each
half holds at most `MaxNodeNPUNum / 2` free devices. -/
theorem halves_le_half (tp : Base910b) (nodeTop : List Int) (hmax : 0 ≤ tp.MaxNodeNPUNum)
    (heven : tp.MaxNodeNPUNum % 2 = 0) (hnd : nodeTop.Nodup)
    (hrange : ∀ d ∈ nodeTop, 0 ≤ d ∧ d < tp.MaxNodeNPUNum) :
    ((nodeTop.filter (fun v => decide (v < tp.MaxNodeNPUNum.tdiv 2))).length : Int) ≤
      tp.MaxNodeNPUNum.tdiv 2 ∧
    ((nodeTop.filter (fun v => !decide (v < tp.MaxNodeNPUNum.tdiv 2))).length : Int) ≤
      tp.MaxNodeNPUNum.tdiv 2 := by
  have hdiv : tp.MaxNodeNPUNum.tdiv 2 = tp.MaxNodeNPUNum / 2 :=
    Int.tdiv_eq_ediv hmax (by decide)
  have h1 := nodup_length_le (nodeTop.filter (fun v => decide (v < tp.MaxNodeNPUNum.tdiv 2)))
    0 (tp.MaxNodeNPUNum.tdiv 2) (hnd.filter _) (by
      intro d hd
      have := List.mem_filter.mp hd
      exact ⟨(hrange d this.1).1, by simpa using this.2⟩)
  have h2 := nodup_length_le (nodeTop.filter (fun v => !decide (v < tp.MaxNodeNPUNum.tdiv 2)))
    (tp.MaxNodeNPUNum.tdiv 2) tp.MaxNodeNPUNum (hnd.filter _) (by
      intro d hd
      have := List.mem_filter.mp hd
      exact ⟨by simpa using this.2, (hrange d this.1).2⟩)
  rw [hdiv] at h1 h2 ⊢
  constructor <;> omega

/-- The priority array of an accepted request other than `MaxNodeNPUNum` is
strictly ascending. -/
theorem priorityArray_ascending (tp : Base910b) (n : Int) (ps : List Int)
    (hvalid : tp.IsVaildNpuNum n = true) (hne : n ≠ tp.MaxNodeNPUNum)
    (hps : tp.GetNPUAllocPriorityArray n = .ok ps) : ps.Pairwise (fun x y => x < y) := by
  rw [priorityArray_of_valid tp n hvalid hne] at hps
  cases hps
  split
  · have := pairwise_range_map n 1 (by decide) (tp.MaxNodeNPUNum.tdiv 2 - n + 1).toNat
    simpa using this
  · exact pairwise_range_map n 2 (by decide) _

/-- The entries of the priority array of an accepted request other than
`MaxNodeNPUNum`. -/
theorem priorityArray_mem (tp : Base910b) (n : Int) (ps : List Int)
    (hvalid : tp.IsVaildNpuNum n = true) (hne : n ≠ tp.MaxNodeNPUNum)
    (hps : tp.GetNPUAllocPriorityArray n = .ok ps) :
    (n ≤ tp.MaxNodeNPUNum.tdiv 2 → ∀ p, p ∈ ps ↔ n ≤ p ∧ p ≤ tp.MaxNodeNPUNum.tdiv 2) ∧
    (tp.MaxNodeNPUNum.tdiv 2 < n →
      ∀ p, p ∈ ps ↔ ∃ k : Nat, p = n + 2 * (k : Int) ∧ p ≤ tp.MaxNodeNPUNum) := by
  rw [priorityArray_of_valid tp n hvalid hne] at hps
  cases hps
  constructor
  · intro hle p
    rw [if_pos hle]
    simp only [List.mem_map, List.mem_range]
    constructor
    · rintro ⟨k, hk, rfl⟩
      omega
    · rintro ⟨h1, h2⟩
      exact ⟨(p - n).toNat, by omega, by omega⟩
  · intro hgt p
    rw [if_neg (by omega)]
    simp only [List.mem_map, List.mem_range]
    constructor
    · rintro ⟨k, hk, rfl⟩
      exact ⟨k, rfl, by omega⟩
    · rintro ⟨k, rfl, hk⟩
      exact ⟨k, by omega, rfl⟩

/-! ### The claims on best fit and on matched pairs -/

/-- C11: for an accepted request `n` with `1 <= n < MaxNodeNPUNum`, an even
`MaxNodeNPUNum` and a topology of distinct devices of `[0, MaxNodeNPUNum)`, a
successful selection returns the first `n` devices of a candidate group (left
half, right half or cross-module group of `GetNodeHccsArray`) that holds at
least `n` devices and is no larger than any candidate group holding at least
`n` devices; if the left half has that size the devices come from the left
half, otherwise if the right half has that size they come from the right
half. -/
theorem select_best_fit (tp : Base910b) (n : Int) (nodeTop devices : List Int)
    (hvalid : tp.IsVaildNpuNum n = true) (h1 : 1 ≤ n) (hlt : n < tp.MaxNodeNPUNum)
    (heven : tp.MaxNodeNPUNum % 2 = 0) (hnd : nodeTop.Nodup)
    (hrange : ∀ d ∈ nodeTop, 0 ≤ d ∧ d < tp.MaxNodeNPUNum)
    (hsel : tp.SelectNPUByTaskNPUNumAndNodeTop n nodeTop = some (.ok devices)) :
    ∃ l r c g, tp.GetNodeHccsArray nodeTop (decide (tp.NPUTaskNum > 1)) = some (l, r, c) ∧
      (g = l ∨ g = r ∨ g = c) ∧ devices = g.take n.toNat ∧ n ≤ (g.length : Int) ∧
      (∀ g', (g' = l ∨ g' = r ∨ g' = c) → n ≤ (g'.length : Int) → g.length ≤ g'.length) ∧
      (l.length = g.length → devices = l.take n.toNat) ∧
      (l.length ≠ g.length → r.length = g.length → devices = r.take n.toNat) := by
  have hne : n ≠ tp.MaxNodeNPUNum := by omega
  obtain ⟨ps, hps⟩ : ∃ ps, tp.GetNPUAllocPriorityArray n = .ok ps :=
    ⟨_, priorityArray_of_valid tp n hvalid hne⟩
  obtain ⟨c, hg, _⟩ := GetNodeHccsArray_some tp nodeTop (decide (tp.NPUTaskNum > 1))
  obtain ⟨hlhalf, hrhalf⟩ := halves_le_half tp nodeTop (by omega) heven hnd hrange
  generalize hl : nodeTop.filter (fun v => decide (v < tp.MaxNodeNPUNum.tdiv 2)) = l at hg hlhalf
  generalize hr : nodeTop.filter (fun v => !decide (v < tp.MaxNodeNPUNum.tdiv 2)) = r
    at hg hrhalf
  rcases select_of_find tp n nodeTop ps l r c hne hps hg with ⟨_, herr⟩ | ⟨p, hf, hs⟩
  · rw [herr] at hsel
    cases hsel
  · obtain ⟨hmem, hmatch⟩ := find_matches l r c ps p hf
    have hge := priorityArray_ge tp n ps hps p hmem
    have hlen := chosen_length l r c p hmatch
    have hasc := priorityArray_ascending tp n ps hvalid hne hps
    obtain ⟨hmem1, hmem2⟩ := priorityArray_mem tp n ps hvalid hne hps
    generalize hgdef : (if p = (l.length : Int) then l
      else if p = (r.length : Int) then r else c) = g at hs hlen
    have hgl : p = (l.length : Int) → g = l := fun h => by rw [← hgdef, if_pos h]
    have hgr : p ≠ (l.length : Int) → p = (r.length : Int) → g = r :=
      fun h h' => by rw [← hgdef, if_neg h, if_pos h']
    rw [hs, sliceTo_eq g n (by omega) (by omega)] at hsel
    simp only [Option.map_some', Option.some.injEq, Except.ok.injEq] at hsel
    refine ⟨l, r, c, g, hg, ?_, hsel.symm, by omega, ?_, ?_, ?_⟩
    · rw [← hgdef]
      exact chosen_is_group l r c p
    · intro g' hg' hn'
      have hq : (g'.length : Int) = (l.length : Int) ∨ (g'.length : Int) = (r.length : Int) ∨
          (g'.length : Int) = (c.length : Int) := by
        rcases hg' with rfl | rfl | rfl
        · exact Or.inl rfl
        · exact Or.inr (Or.inl rfl)
        · exact Or.inr (Or.inr rfl)
      by_cases hhalf : n ≤ tp.MaxNodeNPUNum.tdiv 2
      · have hp := (hmem1 hhalf p).mp hmem
        by_cases hq' : (g'.length : Int) ≤ tp.MaxNodeNPUNum.tdiv 2
        · have hqmem : (g'.length : Int) ∈ ps := (hmem1 hhalf _).mpr ⟨hn', hq'⟩
          have := find_le_of_pairwise _ ps p hasc hf _ hqmem (by simpa using hq)
          omega
        · omega
      · have hpc : p = (c.length : Int) := by
          rcases hmatch with h | h | h
          · omega
          · omega
          · exact h
        rcases hg' with rfl | rfl | rfl
        · omega
        · omega
        · omega
    · intro h
      rw [← hsel, hgl (by omega)]
    · intro h h'
      rw [← hsel, hgr (by omega) (by omega)]

/-- Witness of C11: with three left and two right free devices a request of 2
takes the right half, the smallest group holding two devices. -/
theorem select_best_fit_witness :
    ∃ l r c g, (exampleHandler8 1).GetNodeHccsArray [0, 1, 2, 4, 5]
        (decide ((exampleHandler8 1).NPUTaskNum > 1)) = some (l, r, c) ∧
      (g = l ∨ g = r ∨ g = c) ∧ ([4, 5] : List Int) = g.take (2 : Int).toNat ∧
      (2 : Int) ≤ (g.length : Int) ∧
      (∀ g', (g' = l ∨ g' = r ∨ g' = c) → (2 : Int) ≤ (g'.length : Int) →
        g.length ≤ g'.length) ∧
      (l.length = g.length → ([4, 5] : List Int) = l.take (2 : Int).toNat) ∧
      (l.length ≠ g.length → r.length = g.length →
        ([4, 5] : List Int) = r.take (2 : Int).toNat) :=
  select_best_fit (exampleHandler8 1) 2 [0, 1, 2, 4, 5] [4, 5] (by decide) (by decide)
    (by decide) (by decide) (by decide) (by decide) (by decide)

theorem tdiv_two_of_neg (a : Int) (h : a < 0) : a.tdiv 2 = -((-a) / 2) := by
  rw [← Int.tdiv_eq_ediv (by omega) (by decide), Int.neg_tdiv, neg_neg]

theorem take_pairs :
    ∀ (pairs : List (Int × Int)) (m : Nat),
      (pairs.flatMap (fun p => [p.1, p.2])).take (2 * m) =
        (pairs.take m).flatMap (fun p => [p.1, p.2]) := by
  intro pairs
  induction pairs with
  | nil => intro m; simp
  | cons q rest ih =>
    intro m
    cases m with
    | zero => simp
    | succ j =>
      have h : 2 * (j + 1) = 2 * j + 1 + 1 := by omega
      rw [h]
      simp only [List.flatMap_cons, List.cons_append, List.nil_append, List.take_succ_cons, ih]

theorem filter_pairs (cut : Int) :
    ∀ (pairs : List (Int × Int)), (∀ p ∈ pairs, p.1 < cut ∧ cut ≤ p.2) →
      (pairs.flatMap (fun p => [p.1, p.2])).filter (fun v => decide (v < cut)) =
        pairs.map Prod.fst ∧
      (pairs.flatMap (fun p => [p.1, p.2])).filter (fun v => !decide (v < cut)) =
        pairs.map Prod.snd := by
  intro pairs
  induction pairs with
  | nil => intro _; simp
  | cons q rest ih =>
    intro h
    obtain ⟨h1, h2⟩ := h q (List.mem_cons_self _ _)
    obtain ⟨ih1, ih2⟩ := ih (fun p hp => h p (List.mem_cons_of_mem _ hp))
    have h2' : ¬ q.2 < cut := by omega
    constructor
    · simp only [List.flatMap_cons, List.cons_append, List.nil_append, List.filter_cons, h1,
        h2', decide_True, decide_False, if_true, Bool.false_eq_true, if_false, List.map_cons, ih1]
    · simp only [List.flatMap_cons, List.cons_append, List.nil_append, List.filter_cons, h1,
        h2', decide_True, decide_False, Bool.not_true, Bool.not_false, if_true,
        Bool.false_eq_true, if_false, List.map_cons, ih2]

theorem length_pairs (pairs : List (Int × Int)) :
    (pairs.flatMap (fun p => [p.1, p.2])).length = 2 * pairs.length := by
  induction pairs with
  | nil => rfl
  | cons q rest ih =>
    simp only [List.flatMap_cons, List.length_append, List.length_cons, List.length_nil, ih]
    omega

/-- The candidate list before the cut, as a list of pairs of a left and a
right device; in the single-task mode the right device of a pair is the
partner of the left one. -/
theorem cand_as_pairs (l r : List Int) (mult : Bool) (cut : Int)
    (hl : ∀ d ∈ l, d < cut) (hr : ∀ d ∈ r, cut ≤ d) :
    ∃ pairs : List (Int × Int),
      (if mult then (l.zip r).flatMap (fun p => [p.1, p.2])
        else l.flatMap (fun x => if x + cut ∈ r then [x, x + cut] else [])) =
        pairs.flatMap (fun p => [p.1, p.2]) ∧
      (∀ p ∈ pairs, p.1 < cut ∧ cut ≤ p.2) ∧
      (mult = false → ∀ p ∈ pairs, p.2 = p.1 + cut) := by
  cases mult with
  | true =>
    refine ⟨l.zip r, by simp, ?_, ?_⟩
    · rintro ⟨a, b⟩ hp
      have := List.of_mem_zip hp
      exact ⟨hl a this.1, hr b this.2⟩
    · intro h
      cases h
  | false =>
    refine ⟨(l.filter (fun x => decide (x + cut ∈ r))).map (fun x => (x, x + cut)), ?_, ?_, ?_⟩
    · simp only [Bool.false_eq_true, if_false]
      rw [flatMap_if_eq_filter, List.flatMap_map]
    · intro p hp
      simp only [List.mem_map, List.mem_filter, decide_eq_true_eq] at hp
      obtain ⟨x, ⟨hx, hxr⟩, rfl⟩ := hp
      exact ⟨hl x hx, hr _ hxr⟩
    · intro _ p hp
      simp only [List.mem_map] at hp
      obtain ⟨x, _, rfl⟩ := hp
      rfl

/-- C19: for an accepted request `n` with
`MaxNodeNPUNum / 2 < n < MaxNodeNPUNum`, an even `MaxNodeNPUNum` and a
topology of distinct devices of `[0, MaxNodeNPUNum)`, a successful selection
returns `n` devices, `n` is even, exactly `n / 2` of the devices lie in the
left half and `n / 2` in the right half, and for a single task per node every
selected left device `d` comes with the selected right device
`d + MaxNodeNPUNum / 2`. -/
theorem select_matched_pairs (tp : Base910b) (n : Int) (nodeTop devices : List Int)
    (hvalid : tp.IsVaildNpuNum n = true) (hgt : tp.MaxNodeNPUNum.tdiv 2 < n)
    (hlt : n < tp.MaxNodeNPUNum) (heven : tp.MaxNodeNPUNum % 2 = 0) (hnd : nodeTop.Nodup)
    (hrange : ∀ d ∈ nodeTop, 0 ≤ d ∧ d < tp.MaxNodeNPUNum)
    (hsel : tp.SelectNPUByTaskNPUNumAndNodeTop n nodeTop = some (.ok devices)) :
    (devices.length : Int) = n ∧ n % 2 = 0 ∧
    ((devices.filter (fun d => decide (d < tp.MaxNodeNPUNum.tdiv 2))).length : Int) = n / 2 ∧
    ((devices.filter (fun d => !decide (d < tp.MaxNodeNPUNum.tdiv 2))).length : Int) = n / 2 ∧
    (¬ tp.NPUTaskNum > 1 → ∀ d ∈ devices, d < tp.MaxNodeNPUNum.tdiv 2 →
      d + tp.MaxNodeNPUNum.tdiv 2 ∈ devices) := by
  have hmax : 0 ≤ tp.MaxNodeNPUNum := by
    by_contra hneg
    have := tdiv_two_of_neg tp.MaxNodeNPUNum (by omega)
    omega
  have hdiv : tp.MaxNodeNPUNum.tdiv 2 = tp.MaxNodeNPUNum / 2 :=
    Int.tdiv_eq_ediv hmax (by decide)
  have hne : n ≠ tp.MaxNodeNPUNum := by omega
  obtain ⟨ps, hps⟩ : ∃ ps, tp.GetNPUAllocPriorityArray n = .ok ps :=
    ⟨_, priorityArray_of_valid tp n hvalid hne⟩
  obtain ⟨c, hg, hc⟩ := GetNodeHccsArray_some tp nodeTop (decide (tp.NPUTaskNum > 1))
  obtain ⟨hlhalf, hrhalf⟩ := halves_le_half tp nodeTop hmax heven hnd hrange
  obtain ⟨pairs, hpairs, hbound, hoff⟩ := cand_as_pairs
    (nodeTop.filter (fun v => decide (v < tp.MaxNodeNPUNum.tdiv 2)))
    (nodeTop.filter (fun v => !decide (v < tp.MaxNodeNPUNum.tdiv 2)))
    (decide (tp.NPUTaskNum > 1)) (tp.MaxNodeNPUNum.tdiv 2)
    (fun d hd => by simpa using (List.mem_filter.mp hd).2)
    (fun d hd => by simpa using (List.mem_filter.mp hd).2)
  rw [hpairs] at hc
  generalize nodeTop.filter (fun v => decide (v < tp.MaxNodeNPUNum.tdiv 2)) = l at hg hlhalf
  generalize nodeTop.filter (fun v => !decide (v < tp.MaxNodeNPUNum.tdiv 2)) = r at hg hrhalf
  rcases select_of_find tp n nodeTop ps l r c hne hps hg with ⟨_, herr⟩ | ⟨p, hf, hs⟩
  · rw [herr] at hsel
    cases hsel
  · obtain ⟨hmem, hmatch⟩ := find_matches l r c ps p hf
    have hge := priorityArray_ge tp n ps hps p hmem
    obtain ⟨k, hk, _⟩ := ((priorityArray_mem tp n ps hvalid hne hps).2 hgt p).mp hmem
    have hp1 : p ≠ (l.length : Int) := by omega
    have hp2 : p ≠ (r.length : Int) := by omega
    have hpc : p = (c.length : Int) := by
      rcases hmatch with h | h | h
      · exact absurd h hp1
      · exact absurd h hp2
      · exact h
    rw [if_neg hp1, if_neg hp2, sliceTo_eq c n (by omega) (by omega)] at hs
    rw [hs] at hsel
    simp only [Option.map_some', Option.some.injEq, Except.ok.injEq] at hsel
    have hcp : c = pairs.flatMap (fun q => [q.1, q.2]) := by
      rw [hc]
      unfold getCrossHccsArrayByCutNum
      split
      · rename_i hle
        rw [hc] at hpc
        unfold getCrossHccsArrayByCutNum at hpc
        rw [if_pos hle] at hpc
        simp only [List.length_nil, Nat.cast_zero] at hpc
        omega
      · rfl
    have hclen : c.length = 2 * pairs.length := by rw [hcp, length_pairs]
    obtain ⟨m, hm⟩ : ∃ m : Nat, n.toNat = 2 * m := ⟨n.toNat / 2, by omega⟩
    have hdev : devices = (pairs.take m).flatMap (fun q => [q.1, q.2]) := by
      rw [← hsel, hcp, hm, take_pairs]
    have hmle : m ≤ pairs.length := by omega
    obtain ⟨hf1, hf2⟩ := filter_pairs (tp.MaxNodeNPUNum.tdiv 2) (pairs.take m)
      (fun q hq => hbound q (List.mem_of_mem_take hq))
    refine ⟨?_, by omega, ?_, ?_, ?_⟩
    · rw [hdev, length_pairs, List.length_take]
      omega
    · rw [hdev, hf1, List.length_map, List.length_take]
      omega
    · rw [hdev, hf2, List.length_map, List.length_take]
      omega
    · intro hsingle d hd hdlt
      rw [hdev] at hd ⊢
      obtain ⟨q, hq, hdq⟩ := List.mem_flatMap.mp hd
      have hqb := hbound q (List.mem_of_mem_take hq)
      have hqo := hoff (by simp [hsingle]) q (List.mem_of_mem_take hq)
      simp only [List.mem_cons, List.mem_singleton, List.not_mem_nil, or_false] at hdq
      have hd1 : d = q.1 := by
        rcases hdq with h | h
        · exact h
        · omega
      refine List.mem_flatMap.mpr ⟨q, hq, ?_⟩
      rw [hd1, ← hqo]
      simp

/-- Witness of C19: a request of 6 on the topology 0, 1, 2, 4, 5, 6, 7 takes
the pairs of 0, 1 and 2. -/
theorem select_matched_pairs_witness :
    (([0, 4, 1, 5, 2, 6] : List Int).length : Int) = 6 ∧ (6 : Int) % 2 = 0 ∧
    ((([0, 4, 1, 5, 2, 6] : List Int).filter
      (fun d => decide (d < (exampleHandler8 1).MaxNodeNPUNum.tdiv 2))).length : Int) = 6 / 2 ∧
    ((([0, 4, 1, 5, 2, 6] : List Int).filter
      (fun d => !decide (d < (exampleHandler8 1).MaxNodeNPUNum.tdiv 2))).length : Int) = 6 / 2 ∧
    (¬ (exampleHandler8 1).NPUTaskNum > 1 → ∀ d ∈ ([0, 4, 1, 5, 2, 6] : List Int),
      d < (exampleHandler8 1).MaxNodeNPUNum.tdiv 2 →
      d + (exampleHandler8 1).MaxNodeNPUNum.tdiv 2 ∈ ([0, 4, 1, 5, 2, 6] : List Int)) :=
  select_matched_pairs (exampleHandler8 1) 6 [0, 1, 2, 4, 5, 6, 7] [0, 4, 1, 5, 2, 6]
    (by decide) (by decide) (by decide) (by decide) (by decide) (by decide) (by decide)

/-! ### The claim on determinism -/

theorem priorityArray_congr (tp1 tp2 : Base910b) (n : Int)
    (hmax : tp1.MaxNodeNPUNum = tp2.MaxNodeNPUNum)
    (hvalid : tp1.IsVaildNpuNum n = tp2.IsVaildNpuNum n) :
    tp1.GetNPUAllocPriorityArray n = tp2.GetNPUAllocPriorityArray n := by
  simp only [Base910b.GetNPUAllocPriorityArray, hmax, hvalid]

theorem GetNodeHccsArray_congr (tp1 tp2 : Base910b) (nodeTop : List Int) (mult : Bool)
    (hmax : tp1.MaxNodeNPUNum = tp2.MaxNodeNPUNum) :
    tp1.GetNodeHccsArray nodeTop mult = tp2.GetNodeHccsArray nodeTop mult := by
  simp only [Base910b.GetNodeHccsArray, hmax]

/-- C26: two calls of `SelectNPUByTaskNPUNumAndNodeTop` with the same request
and the same topology list, on handlers that agree on `MaxNodeNPUNum`, on the
validity of the request and on whether `NPUTaskNum > 1`, have the same
outcome: the same device list in the same order, or the same error. -/
theorem select_deterministic (tp1 tp2 : Base910b) (n : Int) (nodeTop : List Int)
    (hmax : tp1.MaxNodeNPUNum = tp2.MaxNodeNPUNum)
    (hvalid : tp1.IsVaildNpuNum n = tp2.IsVaildNpuNum n)
    (hmult : decide (tp1.NPUTaskNum > 1) = decide (tp2.NPUTaskNum > 1)) :
    tp1.SelectNPUByTaskNPUNumAndNodeTop n nodeTop =
      tp2.SelectNPUByTaskNPUNumAndNodeTop n nodeTop := by
  unfold Base910b.SelectNPUByTaskNPUNumAndNodeTop
  rw [priorityArray_congr tp1 tp2 n hmax hvalid, hmult,
    GetNodeHccsArray_congr tp1 tp2 nodeTop _ hmax, hmax]

/-- Witness of C26: two handlers of a node of 8 devices with different
affinity tables and task numbers 2 and 3 select the same devices. -/
theorem select_deterministic_witness :
    (exampleHandler8 2).SelectNPUByTaskNPUNumAndNodeTop 6 [0, 1, 2, 5, 6, 7] =
      ({ exampleHandler8 3 with AffScoreList := [] } : Base910b).SelectNPUByTaskNPUNumAndNodeTop
        6 [0, 1, 2, 5, 6, 7] :=
  select_deterministic (exampleHandler8 2) { exampleHandler8 3 with AffScoreList := [] } 6
    [0, 1, 2, 5, 6, 7] rfl rfl (by decide)

end Ascend910b

namespace Card310px2

/-! ### The claims on validation, argument errors and release -/

/-- C21, the claim refuted on a non-nil handler without job, as `New` returns
it: the handler does not carry the distributed-inference label, its base
validator returns a passing result, and `ValidNPUJob` does not return that
result: it panics on `len(tp.Tasks)`. -/
theorem validNPUJob_nil_job_counterexample :
    ({ exampleCard with NPUJob := none } : card310px2).NPUJob = none ∧
    (Api.mapIndex ({ exampleCard with NPUJob := none } : card310px2).Label
      exampleConsts.DistributedInferKey).1 ≠ exampleConsts.DistributedInferLabel ∧
    ({ exampleCard with NPUJob := none } : card310px2).baseValidNPUJob = some ⟨true, "", ""⟩ ∧
    ValidNPUJob exampleConsts (some { exampleCard with NPUJob := none }) = none ∧
    ValidNPUJob exampleConsts (some { exampleCard with NPUJob := none }) ≠
      some ({ exampleCard with NPUJob := none } : card310px2).baseValidNPUJob := by
  decide

/-- C21 as amended: a nil handler gives `Pass = false` with the argument-error
reason; a handler that carries a job (its embedded `NPUJob` pointer is set)
with the distributed-inference label and `NPUTaskNum > 1` gives
`Pass = false`, `Reason = "job task num is invalid"` and a message naming the
job and its number of tasks, whatever the base validator returns; every other
handler that carries a job gives the result of the base
`NPUHandler.ValidNPUJob`. -/
theorem validNPUJob_spec (c : Consts) :
    ValidNPUJob c none =
      some (some { Pass := false, Reason := c.ArgumentError, Message := c.ArgumentError }) ∧
    (∀ (tp : card310px2) (job : NPUJob), tp.NPUJob = some job →
      (Api.mapIndex tp.Label c.DistributedInferKey).1 = c.DistributedInferLabel →
      job.NPUTaskNum > 1 →
      ValidNPUJob c (some tp) =
        some (some { Pass := false, Reason := "job task num is invalid",
                     Message := "job <" ++ tp.Name ++ "> task num <" ++
                       toString job.Tasks.length ++ "> is invalid" }) ∧
      ∀ base, ValidNPUJob c (some { tp with baseValidNPUJob := base }) =
        ValidNPUJob c (some tp)) ∧
    (∀ (tp : card310px2) (job : NPUJob), tp.NPUJob = some job →
      ¬ ((Api.mapIndex tp.Label c.DistributedInferKey).1 = c.DistributedInferLabel ∧
        job.NPUTaskNum > 1) →
      ValidNPUJob c (some tp) = some tp.baseValidNPUJob) := by
  refine ⟨rfl, ?_, ?_⟩
  · intro tp job hjob hlabel hnum
    constructor
    · simp [ValidNPUJob, hjob, hlabel, hnum]
    · intro base
      simp [ValidNPUJob, hjob, hlabel, hnum]
  · intro tp job hjob hnot
    simp only [ValidNPUJob, hjob, hnot, if_false]

/-- Witness of C21 as amended: a distributed-inference job of two tasks is
rejected, and the job of one task gets the result of the base validator. -/
theorem validNPUJob_spec_witness :
    ValidNPUJob exampleConsts
      (some { exampleCard with Label := some [("distributed", "true")],
                               NPUJob := some ⟨["task1", "task2"], 2⟩ }) =
      some (some { Pass := false, Reason := "job task num is invalid",
                   Message := "job <job1> task num <2> is invalid" }) ∧
    ValidNPUJob exampleConsts (some exampleCard) = some (some ⟨true, "", ""⟩) :=
  ⟨((validNPUJob_spec exampleConsts).2.1
      { exampleCard with Label := some [("distributed", "true")],
                         NPUJob := some ⟨["task1", "task2"], 2⟩ } ⟨["task1", "task2"], 2⟩ rfl
      (by decide) (by decide)).1,
   (validNPUJob_spec exampleConsts).2.2 exampleCard ⟨["task1"], 1⟩ rfl (by decide)⟩

/-- C22: with a nil handler, a nil task or a node without annotation,
`CheckNodeNPUByTask` and `SelectNPUFromNode` return the argument error and
`UseAnnotation` returns nil and leaves the task as it is; with a nil handler,
a nil task, no node or an empty score map, `ScoreBestNPUNodes` returns the
argument error and leaves the score map as it is.  This holds whatever the
helper methods of the handler would return for the task's request and the
node's topology. -/
theorem argument_errors (c : Consts) (tp : Option card310px2) (task : Option TaskInfo)
    (node : NPUNode) (nodes : List (Option NodeInfo)) (scoreMap : ScoreMap) :
    ((tp = none ∨ task = none ∨ Api.mapIsEmpty ( NPUNode.Annotation node) = true) →
      CheckNodeNPUByTask c tp task node = some (.error c.ArgumentError) ∧
      SelectNPUFromNode c tp task node = some (.error c.ArgumentError) ∧
      UseAnnotation c tp task node = some (task, none)) ∧
    ((tp = none ∨ task = none ∨ nodes = [] ∨ scoreMap = []) →
      ScoreBestNPUNodes c tp task nodes scoreMap = some (scoreMap, .error c.ArgumentError)) := by
  constructor
  · intro h
    cases tp with
    | none => cases task <;> exact ⟨rfl, rfl, rfl⟩
    | some tp =>
      cases task with
      | none => exact ⟨rfl, rfl, rfl⟩
      | some task =>
        have hempty : Api.mapIsEmpty ( NPUNode.Annotation node) = true := by
          rcases h with h | h | h
          · cases h
          · cases h
          · exact h
        simp [CheckNodeNPUByTask, SelectNPUFromNode, UseAnnotation, hempty]
  · intro h
    cases tp with
    | none => cases task <;> rfl
    | some tp =>
      cases task with
      | none => rfl
      | some task =>
        have hempty : nodes.isEmpty = true ∨ scoreMap.isEmpty = true := by
          rcases h with h | h | h | h
          · cases h
          · cases h
          · exact Or.inl (by rw [h]; rfl)
          · exact Or.inr (by rw [h]; rfl)
        simp only [ScoreBestNPUNodes, hempty, if_true]

/-- Witness of C22: a node without annotation and an empty node list. -/
theorem argument_errors_witness :
    (CheckNodeNPUByTask exampleConsts (some exampleCard) (some exampleTask)
        { Name := "n3", Annotation := none } = some (.error "invalid argument") ∧
      SelectNPUFromNode exampleConsts (some exampleCard) (some exampleTask)
        { Name := "n3", Annotation := none } = some (.error "invalid argument") ∧
      UseAnnotation exampleConsts (some exampleCard) (some exampleTask)
        { Name := "n3", Annotation := none } = some (some exampleTask, none)) ∧
    ScoreBestNPUNodes exampleConsts (some exampleCard) (some exampleTask) [] [("n2", 7)] =
      some ([("n2", 7)], .error "invalid argument") :=
  ⟨(argument_errors exampleConsts (some exampleCard) (some exampleTask)
      { Name := "n3", Annotation := none } [] [("n2", 7)]).1 (Or.inr (Or.inr rfl)),
   (argument_errors exampleConsts (some exampleCard) (some exampleTask)
      { Name := "n3", Annotation := none } [] [("n2", 7)]).2 (Or.inr (Or.inr (Or.inl rfl)))⟩

/-- C24, the claim refuted on the example handler: the task's devices 0 and 1
are selected on the node with free devices 0, 1, 2, 3 and `UseAnnotation`
leaves the node with free devices 2, 3; `ReleaseAnnotation` returns that node
unchanged, so its free topology does not contain device 0 and a following
selection returns the devices 2 and 3. -/
theorem release_roundtrip_counterexample :
    SelectNPUFromNode exampleConsts (some exampleCard) (some exampleTask)
      (exampleNode "n1" "0123") = some (.ok [0, 1]) ∧
    UseAnnotation exampleConsts (some exampleCard) (some exampleTask)
      (exampleNode "n1" "0123") =
      some (some { Name := "task1", PodAnnotations := some [(exampleAnnoName, "01")] },
        some (exampleNode "n1" "23")) ∧
    ReleaseAnnotation (some exampleCard) (some exampleTask) (exampleNode "n1" "23") =
      some (exampleNode "n1" "23") ∧
    exampleCard.GetUsableTopFromNode (exampleNode "n1" "23") false = .ok [2, 3] ∧
    (0 : Int) ∉ ([2, 3] : List Int) ∧
    SelectNPUFromNode exampleConsts (some exampleCard) (some exampleTask)
      (exampleNode "n1" "23") = some (.ok [2, 3]) := by
  decide

/-- C24 as amended: `ReleaseAnnotation` returns the node it is given,
unchanged, whatever the task is: for every handler the free topology of the
result is that of the node, a following `SelectNPUFromNode` on the result
returns what it returns on the node, and the devices of a list `D` are all
free on the result exactly when they are all free on the node. -/
theorem release_returns_node (tp : Option card310px2) (task : Option TaskInfo)
    (node : NPUNode) :
    ∃ released, ReleaseAnnotation tp task node = some released ∧ released = node ∧
      (∀ (h : card310px2) (mult : Bool),
        h.GetUsableTopFromNode released mult = h.GetUsableTopFromNode node mult) ∧
      (∀ (c : Consts) (h : Option card310px2) (t : Option TaskInfo),
        SelectNPUFromNode c h t released = SelectNPUFromNode c h t node) ∧
      (∀ (h : card310px2) (mult : Bool) (top top' D : List Int),
        h.GetUsableTopFromNode node mult = .ok top →
        h.GetUsableTopFromNode released mult = .ok top' →
        ((∀ d ∈ D, d ∈ top') ↔ (∀ d ∈ D, d ∈ top))) := by
  refine ⟨node, rfl, rfl, fun _ _ => rfl, fun _ _ _ => rfl, ?_⟩
  intro h mult top top' D h1 h2
  rw [h1] at h2
  cases h2
  exact Iff.rfl

/-- Witness of C24 as amended, on the node left by `UseAnnotation`: the free
devices of the released node are 2 and 3. -/
theorem release_returns_node_witness :
    ∃ released,
      ReleaseAnnotation (some exampleCard) (some exampleTask) (exampleNode "n1" "23") =
        some released ∧
      exampleCard.GetUsableTopFromNode released false = .ok [2, 3] := by
  obtain ⟨released, hr, _, htop, _, _⟩ :=
    release_returns_node (some exampleCard) (some exampleTask) (exampleNode "n1" "23")
  refine ⟨released, hr, ?_⟩
  rw [htop exampleCard false]
  decide

/-- C25: `ReleaseAnnotation` returns a non-nil node for every handler, task
and node, the result depends on the node only, and releasing the result once
more gives the same node, also for a task that holds no device of the
node. -/
theorem release_idempotent (tp : Option card310px2) (task : Option TaskInfo) (node : NPUNode) :
    Option.isSome ( ReleaseAnnotation tp task node) = true ∧
    (∀ (tp' : Option card310px2) (task' : Option TaskInfo),
      ReleaseAnnotation tp' task' node = ReleaseAnnotation tp task node) ∧
    (∀ released, ReleaseAnnotation tp task node = some released →
      ReleaseAnnotation tp task released = some released) := by
  refine ⟨rfl, fun _ _ => rfl, ?_⟩
  intro released h
  cases h
  rfl

/-- Witness of C25: releasing twice on a node of which the task holds no
device. -/
theorem release_idempotent_witness :
    ReleaseAnnotation (some exampleCard) (some exampleTask) (exampleNode "n1" "0123") =
      some (exampleNode "n1" "0123") :=
  (release_idempotent (some exampleCard) (some exampleTask) (exampleNode "n1" "0123")).2.2
    (exampleNode "n1" "0123") rfl

/-! ### The claim on scoring with bad nodes -/

theorem lookup_scoreSet_self (key : String) (value : Int) :
    ∀ m : ScoreMap, (scoreSet m key value).lookup key = some value := by
  intro m
  induction m with
  | nil => simp [scoreSet, List.lookup]
  | cons kv rest ih =>
    obtain ⟨k, v⟩ := kv
    by_cases hk : k = key
    · subst hk
      simp [scoreSet, List.lookup]
    · have hk' : (key == k) = false := by
        simp only [beq_eq_false_iff_ne, ne_eq]
        exact fun h => hk h.symm
      simp [scoreSet, hk, List.lookup, hk', ih]

theorem lookup_scoreSet_ne (key name : String) (value : Int) (hne : name ≠ key) :
    ∀ m : ScoreMap, (scoreSet m key value).lookup name = m.lookup name := by
  intro m
  induction m with
  | nil =>
    have h : (name == key) = false := by simpa using hne
    simp [scoreSet, List.lookup, h]
  | cons kv rest ih =>
    obtain ⟨k, v⟩ := kv
    by_cases hk : k = key
    · subst hk
      have h : (name == k) = false := by simpa using hne
      simp [scoreSet, List.lookup, h]
    · by_cases hn : name = k
      · subst hn
        simp [scoreSet, hk, List.lookup]
      · have h : (name == k) = false := by simpa using hn
        simp [scoreSet, hk, List.lookup, h, ih]

theorem bestScoreLoop_isSome (table : List (List Int)) (n : Int) :
    ∀ (groups : List (List Int)) (best : Int),
      (∀ g ∈ groups, g ≠ [] →
        (Ascend910b.tableAt table (n - 1) ((g.length : Int) - 1)).isSome = true) →
      ∃ b, bestScoreLoop table n groups best = some b := by
  intro groups
  induction groups with
  | nil => intro best _; exact ⟨best, rfl⟩
  | cons g rest ih =>
    intro best hcover
    have hrest : ∀ g' ∈ rest, g' ≠ [] →
        (Ascend910b.tableAt table (n - 1) ((g'.length : Int) - 1)).isSome = true :=
      fun g' hg' => hcover g' (List.mem_cons_of_mem _ hg')
    by_cases hg : (g.length : Int) = 0
    · simp only [bestScoreLoop, hg, if_true]
      exact ih best hrest
    · have hne : g ≠ [] := by
        intro h
        apply hg
        rw [h]
        rfl
      have hsome := hcover g (List.mem_cons_self _ _) hne
      obtain ⟨v, hv⟩ := Option.isSome_iff_exists.mp hsome
      simp only [bestScoreLoop, hg, if_false, hv]
      by_cases hz : Ascend910b.utilMin best v = 0
      · exact ⟨_, by rw [if_pos hz]⟩
      · rw [if_neg hz]
        exact ih _ hrest

theorem getScore_cons_some (c : Consts) (tp : card310px2) (job : NPUJob)
    (hjob : tp.NPUJob = some job) (n : Int) (node : NodeInfo)
    (rest : List (Option NodeInfo)) (m : ScoreMap) :
    getScore c tp n (some node :: rest) m =
      match usableTopOf tp job node with
      | none => getScore c tp n rest m
      | some nodeTop =>
        match bestScoreLoop tp.affScoreList n (tp.GetCardNumGroupsFromTop nodeTop)
            c.affScore2 with
        | none => none
        | some bestScore =>
          getScore c tp n rest
            (scoreSet m node.Name (c.constNPUWeight * (tp.MaxCardNPUNum - bestScore))) := by
  unfold usableTopOf
  rw [getScore]
  cases tp.Nodes.lookup node.Name with
  | none => rfl
  | some nNode =>
    simp only [hjob]
    cases tp.GetUsableTopFromNode nNode (decide (job.NPUTaskNum > 1)) <;> rfl

theorem usableTopOf_name (tp : card310px2) (job : NPUJob) (a b : NodeInfo)
    (h : a.Name = b.Name) : usableTopOf tp job a = usableTopOf tp job b := by
  simp only [usableTopOf, h]

/-- The effect of `getScore` when no table access is out of range: entries are
written for the listed nodes with a usable topology and for no other name. -/
theorem getScore_frame (c : Consts) (tp : card310px2) (job : NPUJob)
    (hjob : tp.NPUJob = some job) (n : Int) :
    ∀ (nodes : List (Option NodeInfo)) (m : ScoreMap),
      (∀ node, some node ∈ nodes → ∀ top, usableTopOf tp job node = some top →
        ∀ g ∈ tp.GetCardNumGroupsFromTop top, g ≠ [] →
          (Ascend910b.tableAt tp.affScoreList (n - 1) ((g.length : Int) - 1)).isSome = true) →
      ∃ m', getScore c tp n nodes m = some m' ∧
        (∀ name, (∀ node, some node ∈ nodes → node.Name = name → usableTopOf tp job node = none) →
          m'.lookup name = m.lookup name) ∧
        (∀ node, some node ∈ nodes → (usableTopOf tp job node).isSome = true →
          (m'.lookup node.Name).isSome = true) ∧
        (∀ name, (m.lookup name).isSome = true → (m'.lookup name).isSome = true) := by
  intro nodes
  induction nodes with
  | nil =>
    intro m _
    exact ⟨m, rfl, fun _ _ => rfl, fun _ h => absurd h (List.not_mem_nil _), fun _ h => h⟩
  | cons x rest ih =>
    intro m hcover
    have hcover' : ∀ node, some node ∈ rest → ∀ top, usableTopOf tp job node = some top →
        ∀ g ∈ tp.GetCardNumGroupsFromTop top, g ≠ [] →
          (Ascend910b.tableAt tp.affScoreList (n - 1) ((g.length : Int) - 1)).isSome = true :=
      fun node hn => hcover node (List.mem_cons_of_mem _ hn)
    cases x with
    | none =>
      obtain ⟨m', hm', hframe, hwrite, hkeep⟩ := ih m hcover'
      refine ⟨m', by rw [getScore]; exact hm', ?_, ?_, hkeep⟩
      · intro name hbad
        exact hframe name (fun node hn => hbad node (List.mem_cons_of_mem _ hn))
      · intro node hn hgood
        rcases List.mem_cons.mp hn with h | h
        · cases h
        · exact hwrite node h hgood
    | some nd =>
      rw [getScore_cons_some c tp job hjob]
      cases htop : usableTopOf tp job nd with
      | none =>
        obtain ⟨m', hm', hframe, hwrite, hkeep⟩ := ih m hcover'
        refine ⟨m', hm', ?_, ?_, hkeep⟩
        · intro name hbad
          exact hframe name (fun node hn => hbad node (List.mem_cons_of_mem _ hn))
        · intro node hn hgood
          rcases List.mem_cons.mp hn with h | h
          · cases h
            rw [htop] at hgood
            cases hgood
          · exact hwrite node h hgood
      | some top =>
        obtain ⟨b, hb⟩ := bestScoreLoop_isSome tp.affScoreList n
          (tp.GetCardNumGroupsFromTop top) c.affScore2
          (hcover nd (List.mem_cons_self _ _) top htop)
        simp only [hb]
        obtain ⟨m', hm', hframe, hwrite, hkeep⟩ :=
          ih (scoreSet m nd.Name (c.constNPUWeight * (tp.MaxCardNPUNum - b))) hcover'
        refine ⟨m', hm', ?_, ?_, ?_⟩
        · intro name hbad
          have hne : name ≠ nd.Name := by
            intro h
            have := hbad nd (List.mem_cons_self _ _) h.symm
            rw [htop] at this
            cases this
          rw [hframe name (fun node hn => hbad node (List.mem_cons_of_mem _ hn)),
            lookup_scoreSet_ne nd.Name name _ hne]
        · intro node hn hgood
          rcases List.mem_cons.mp hn with h | h
          · cases h
            apply hkeep
            rw [lookup_scoreSet_self]
            rfl
          · exact hwrite node h hgood
        · intro name hsome
          apply hkeep
          by_cases hne : name = nd.Name
          · rw [hne, lookup_scoreSet_self]
            rfl
          · rw [lookup_scoreSet_ne nd.Name name _ hne]
            exact hsome

/-- C23, the claim refuted on the example handler, whose table has 2 rows and
2 columns as the one `New` sets: the request 2 is between 1 and
`MaxCardNPUNum`; for the empty node list and for the empty score map
`ScoreBestNPUNodes` returns the argument error; when the handler also knows a
node `n4` whose card group has 3 devices, listing `n4` after the good node
`n1` makes the call panic on `affScoreList[1][2]`, so no score is written for
`n1` either; and on the handler without job the call panics on
`tp.NPUTaskNum` at the known node `n1`, whose topology its
`GetUsableTopFromNode` would extract. -/
theorem score_empty_nodes_counterexample :
    exampleCard.GetTaskReqNPUNum exampleTask = .ok 2 ∧
    ((1 : Int) ≤ 2 ∧ (2 : Int) ≤ exampleCard.MaxCardNPUNum) ∧
    ScoreBestNPUNodes exampleConsts (some exampleCard) (some exampleTask) [] [("n2", 7)] =
      some ([("n2", 7)], .error "invalid argument") ∧
    ScoreBestNPUNodes exampleConsts (some exampleCard) (some exampleTask) [some ⟨"n1"⟩] [] =
      some ([], .error "invalid argument") ∧
    (usableTopOf { exampleCard with Nodes := [("n1", exampleNode "n1" "0123"),
                                              ("n4", exampleNode "n4" "001")] }
        ⟨["task1"], 1⟩ ⟨"n4"⟩ = some [0, 0, 1] ∧
      exampleCard.GetCardNumGroupsFromTop [0, 0, 1] = [[0, 0, 1]] ∧
      Ascend910b.tableAt exampleCard.affScoreList (2 - 1) (3 - 1) = none ∧
      ScoreBestNPUNodes exampleConsts
        (some { exampleCard with Nodes := [("n1", exampleNode "n1" "0123"),
                                           ("n4", exampleNode "n4" "001")] })
        (some exampleTask) [some ⟨"n1"⟩, some ⟨"n4"⟩] [("n2", 7)] = none) ∧
    ((∀ mult, exampleCard.GetUsableTopFromNode (exampleNode "n1" "0123") mult =
        .ok [0, 1, 2, 3]) ∧
      ScoreBestNPUNodes exampleConsts (some { exampleCard with NPUJob := none })
        (some exampleTask) [some ⟨"n1"⟩] [("n2", 7)] = none) := by
  decide

/-- C23 as amended: for a handler that carries a job, a request `n` with
`1 <= n <= MaxCardNPUNum`, a non-empty node list and a non-empty score map,
and an affinity table that has the entry `affScoreList[n-1][len(g)-1]` for
every non-empty card group `g` of the listed nodes, `ScoreBestNPUNodes`
returns no error, leaves the entry of every listed node that is unknown to
the handler or whose usable topology cannot be extracted (and of every name
that is not a listed node with a usable topology) as it was, and writes an
entry for every other listed node; nil entries of the list are skipped. -/
theorem score_skips_bad_nodes (c : Consts) (tp : card310px2) (job : NPUJob)
    (task : TaskInfo) (nodes : List (Option NodeInfo)) (scoreMap : ScoreMap) (n : Int)
    (hjob : tp.NPUJob = some job)
    (hnodes : nodes ≠ []) (hmap : scoreMap ≠ [])
    (hreq : tp.GetTaskReqNPUNum task = .ok n) (h1 : 1 ≤ n) (hle : n ≤ tp.MaxCardNPUNum)
    (hcover : ∀ node, some node ∈ nodes → ∀ top, usableTopOf tp job node = some top →
      ∀ g ∈ tp.GetCardNumGroupsFromTop top, g ≠ [] →
        (Ascend910b.tableAt tp.affScoreList (n - 1) ((g.length : Int) - 1)).isSome = true) :
    ∃ m', ScoreBestNPUNodes c (some tp) (some task) nodes scoreMap = some (m', .ok ()) ∧
      (∀ node, some node ∈ nodes → usableTopOf tp job node = none →
        m'.lookup node.Name = scoreMap.lookup node.Name) ∧
      (∀ name,
        (∀ node, some node ∈ nodes → node.Name = name → usableTopOf tp job node = none) →
        m'.lookup name = scoreMap.lookup name) ∧
      (∀ node, some node ∈ nodes → (usableTopOf tp job node).isSome = true →
        (m'.lookup node.Name).isSome = true) := by
  obtain ⟨m', hm', hframe, hwrite, _⟩ := getScore_frame c tp job hjob n nodes scoreMap hcover
  have hn : nodes.isEmpty = false := by
    cases nodes with
    | nil => exact absurd rfl hnodes
    | cons _ _ => rfl
  have hs : scoreMap.isEmpty = false := by
    cases scoreMap with
    | nil => exact absurd rfl hmap
    | cons _ _ => rfl
  have hrange : ¬ (n < 1 ∨ n > tp.MaxCardNPUNum) := by omega
  refine ⟨m', ?_, ?_, hframe, hwrite⟩
  · simp only [ScoreBestNPUNodes, hn, hs, hreq, hrange, hm']
    simp
  · intro node hnode hbad
    apply hframe
    intro node' _ hname
    rw [usableTopOf_name tp job node' node hname]
    exact hbad

/-- Witness of C23 as amended: of the listed nodes, `n1` has the free devices
0, 1, 2, 3, one entry is nil, `n2` is unknown to the handler and `n3` has no
annotation; the entry of `n2` stays 7 and `n1` gets a score. -/
theorem score_skips_bad_nodes_witness :
    ∃ m', ScoreBestNPUNodes exampleConsts (some exampleCard) (some exampleTask)
        [some ⟨"n1"⟩, none, some ⟨"n2"⟩, some ⟨"n3"⟩] [("n2", 7)] = some (m', .ok ()) ∧
      m'.lookup "n2" = some 7 ∧ m'.lookup "n3" = none ∧ (m'.lookup "n1").isSome = true := by
  obtain ⟨m', hm', hbad, _, hgood⟩ := score_skips_bad_nodes exampleConsts exampleCard
    ⟨["task1"], 1⟩ exampleTask [some ⟨"n1"⟩, none, some ⟨"n2"⟩, some ⟨"n3"⟩] [("n2", 7)] 2
    rfl (by decide) (by decide) (by decide) (by decide) (by decide)
    (by
      intro node hnode top htop g hg hne
      have hn : node = ⟨"n1"⟩ ∨ node = ⟨"n2"⟩ ∨ node = ⟨"n3"⟩ := by
        simpa using hnode
      rcases hn with rfl | rfl | rfl
      · have h1 : usableTopOf exampleCard ⟨["task1"], 1⟩ ⟨"n1"⟩ = some [0, 1, 2, 3] := by
          decide
        rw [h1] at htop
        cases htop
        have h2 : exampleCard.GetCardNumGroupsFromTop [0, 1, 2, 3] = [[0, 1], [2, 3]] := by
          decide
        rw [h2] at hg
        have hg' : g = [0, 1] ∨ g = [2, 3] := by simpa using hg
        rcases hg' with rfl | rfl <;> decide
      · have h1 : usableTopOf exampleCard ⟨["task1"], 1⟩ ⟨"n2"⟩ = none := by decide
        rw [h1] at htop
        cases htop
      · have h1 : usableTopOf exampleCard ⟨["task1"], 1⟩ ⟨"n3"⟩ = none := by decide
        rw [h1] at htop
        cases htop)
  refine ⟨m', hm', ?_, ?_, ?_⟩
  · exact hbad ⟨"n2"⟩ (by decide) (by decide)
  · exact hbad ⟨"n3"⟩ (by decide) (by decide)
  · exact hgood ⟨"n1"⟩ (by decide) (by decide)

end Card310px2

namespace Ascend910a3

/-! ### The claim on the full-node check of the A3 handler -/

/-- C29: `CheckReqNPUEqualNodeNPU` returns nil exactly when every task requests
`MaxNodeNPUNum` devices, or requests none and carries the scheduler-spec or
the skip-plugin annotation with exactly that value; otherwise it returns, for
a task that fails this test, the result with `Pass = false`,
`Reason = JobCheckFailedReason` and the message "distributed job require npu
<MaxNodeNPUNum>, instead of <ReqNPUNum>"; a job without task passes. -/
theorem checkReqNPU_spec (k : Consts) (tp : Base910A3) :
    (CheckReqNPUEqualNodeNPU k tp = none ↔
      ∀ e ∈ tp.Tasks, e.2.ReqNPUNum = tp.MaxNodeNPUNum ∨
        (e.2.ReqNPUNum = 0 ∧
          ((Api.mapIndex ( NPUTask.Annotation e.2) k.taskSpec).1 = k.schedulerSpec ∨
            (Api.mapIndex ( NPUTask.Annotation e.2) k.skipAscendPlugin).1 = k.skipEnabled))) ∧
    (CheckReqNPUEqualNodeNPU k tp ≠ none →
      ∃ e ∈ tp.Tasks,
        ¬ (e.2.ReqNPUNum = tp.MaxNodeNPUNum ∨
          (e.2.ReqNPUNum = 0 ∧
            ((Api.mapIndex ( NPUTask.Annotation e.2) k.taskSpec).1 = k.schedulerSpec ∨
              (Api.mapIndex ( NPUTask.Annotation e.2) k.skipAscendPlugin).1 = k.skipEnabled))) ∧
        CheckReqNPUEqualNodeNPU k tp =
          some { Pass := false, Reason := k.JobCheckFailedReason,
                 Message := "distributed job require npu " ++ toString tp.MaxNodeNPUNum ++
                   ", instead of " ++ toString e.2.ReqNPUNum }) ∧
    (tp.Tasks = [] → CheckReqNPUEqualNodeNPU k tp = none) := by
  unfold CheckReqNPUEqualNodeNPU
  generalize tp.MaxNodeNPUNum = maxNum
  generalize tp.Tasks = tasks
  refine ⟨?_, ?_, fun h => by rw [h]; rfl⟩
  · induction tasks with
    | nil => simp [checkTasks]
    | cons e rest ih =>
      obtain ⟨name, task⟩ := e
      by_cases h1 : task.ReqNPUNum = maxNum
      · simp [checkTasks, h1, ih]
      · by_cases h2 : task.ReqNPUNum = 0 ∧
            ((Api.mapIndex ( NPUTask.Annotation task) k.taskSpec).1 = k.schedulerSpec ∨
              (Api.mapIndex ( NPUTask.Annotation task) k.skipAscendPlugin).1 = k.skipEnabled)
        · rw [checkTasks, if_neg h1, if_pos h2, ih]
          simp only [List.mem_cons, forall_eq_or_imp]
          exact ⟨fun h => ⟨Or.inr h2, h⟩, fun h => h.2⟩
        · rw [checkTasks, if_neg h1, if_neg h2]
          simp only [List.mem_cons, forall_eq_or_imp]
          constructor
          · intro h
            cases h
          · intro h
            rcases h.1 with h' | h'
            · exact absurd h' h1
            · exact absurd h' h2
  · induction tasks with
    | nil => intro h; exact absurd rfl h
    | cons e rest ih =>
      obtain ⟨name, task⟩ := e
      intro hne
      by_cases h1 : task.ReqNPUNum = maxNum
      · simp only [checkTasks, h1, if_true] at hne ⊢
        obtain ⟨e, he, hbad, hres⟩ := ih hne
        exact ⟨e, List.mem_cons_of_mem _ he, hbad, hres⟩
      · by_cases h2 : task.ReqNPUNum = 0 ∧
            ((Api.mapIndex ( NPUTask.Annotation task) k.taskSpec).1 = k.schedulerSpec ∨
              (Api.mapIndex ( NPUTask.Annotation task) k.skipAscendPlugin).1 = k.skipEnabled)
        · rw [checkTasks, if_neg h1, if_pos h2] at hne ⊢
          obtain ⟨e, he, hbad, hres⟩ := ih hne
          exact ⟨e, List.mem_cons_of_mem _ he, hbad, hres⟩
        · refine ⟨(name, task), List.mem_cons_self _ _, ?_, ?_⟩
          · intro h
            rcases h with h | h
            · exact h1 h
            · exact h2 h
          · rw [checkTasks, if_neg h1, if_neg h2]

/-- Witness of C29, with example values of the constants: a task of 8 devices
on a node of 16 is rejected, and a task without device that carries the
skip-plugin annotation passes. -/
theorem checkReqNPU_spec_witness :
    CheckReqNPUEqualNodeNPU ⟨"volcano.sh/task-spec", "scheduler", "skip-ascend-plugin", "enabled",
        "job check failed"⟩
      ⟨16, [("task1", ⟨16, none⟩), ("task2", ⟨8, none⟩)]⟩ =
      some { Pass := false, Reason := "job check failed",
             Message := "distributed job require npu 16, instead of 8" } ∧
    CheckReqNPUEqualNodeNPU ⟨"volcano.sh/task-spec", "scheduler", "skip-ascend-plugin", "enabled",
        "job check failed"⟩
      ⟨16, [("task1", ⟨0, some [("skip-ascend-plugin", "enabled")]⟩)]⟩ = none := by
  constructor
  · obtain ⟨e, he, _, hres⟩ := (checkReqNPU_spec
      ⟨"volcano.sh/task-spec", "scheduler", "skip-ascend-plugin", "enabled", "job check failed"⟩
      ⟨16, [("task1", ⟨16, none⟩), ("task2", ⟨8, none⟩)]⟩).2.1 (by decide)
    decide
  · exact (checkReqNPU_spec
      ⟨"volcano.sh/task-spec", "scheduler", "skip-ascend-plugin", "enabled", "job check failed"⟩
      ⟨16, [("task1", ⟨0, some [("skip-ascend-plugin", "enabled")]⟩)]⟩).1.mpr (by decide)

end Ascend910a3

namespace Base

/-! ### The claim on the card groups -/

theorem foldl_max_bounds (f : Int → Int) :
    ∀ (top : List Int) (init : Int),
      init ≤ top.foldl (fun m v => max m (f v)) init ∧
      ∀ v ∈ top, f v ≤ top.foldl (fun m v => max m (f v)) init := by
  intro top
  induction top with
  | nil => intro init; exact ⟨le_refl _, fun v hv => absurd hv (List.not_mem_nil v)⟩
  | cons a rest ih =>
    intro init
    obtain ⟨h1, h2⟩ := ih (max init (f a))
    simp only [List.foldl_cons]
    refine ⟨le_trans (le_max_left _ _) h1, ?_⟩
    intro v hv
    rcases List.mem_cons.mp hv with rfl | h
    · exact le_trans (le_max_right _ _) h1
    · exact h2 v h

theorem foldl_min_bounds (f : Int → Int) :
    ∀ (top : List Int) (init : Int),
      top.foldl (fun m v => min m (f v)) init ≤ init ∧
      ∀ v ∈ top, top.foldl (fun m v => min m (f v)) init ≤ f v := by
  intro top
  induction top with
  | nil => intro init; exact ⟨le_refl _, fun v hv => absurd hv (List.not_mem_nil v)⟩
  | cons a rest ih =>
    intro init
    obtain ⟨h1, h2⟩ := ih (min init (f a))
    simp only [List.foldl_cons]
    refine ⟨le_trans h1 (min_le_left _ _), ?_⟩
    intro v hv
    rcases List.mem_cons.mp hv with rfl | h
    · exact le_trans h1 (min_le_right _ _)
    · exact h2 v h

/-- The groups of a handler of non-zero capacity: the group at position `j` holds
the devices of card `lo + j`, and every card of the topology has a position. -/
theorem cardGroups_getElem (tp : NPUHandler) (top : List Int) (hM : tp.MaxCardNPUNum ≠ 0) :
    ∃ (lo : Int) (len : Nat),
      (∀ j g, (GetCardNumGroupsFromTop (some tp) top)[j]? = some g ↔
        j < len ∧ g = top.filter (fun v => decide (v.tdiv tp.MaxCardNPUNum = lo + (j : Int)))) ∧
      (∀ v ∈ top, lo ≤ v.tdiv tp.MaxCardNPUNum ∧ v.tdiv tp.MaxCardNPUNum - lo < (len : Int)) := by
  refine ⟨top.foldl (fun m v => min m (v.tdiv tp.MaxCardNPUNum)) 0,
    (top.foldl (fun m v => max m (v.tdiv tp.MaxCardNPUNum)) 0 -
      top.foldl (fun m v => min m (v.tdiv tp.MaxCardNPUNum)) 0 + 1).toNat, ?_, ?_⟩
  · intro j g
    simp only [GetCardNumGroupsFromTop, hM, if_false, List.getElem?_map]
    by_cases hj : j < (top.foldl (fun m v => max m (v.tdiv tp.MaxCardNPUNum)) 0 -
        top.foldl (fun m v => min m (v.tdiv tp.MaxCardNPUNum)) 0 + 1).toNat
    · rw [List.getElem?_range hj]
      simp only [Option.map_some', Option.some.injEq, hj, true_and]
      exact eq_comm
    · rw [List.getElem?_eq_none (by simpa using hj)]
      simp only [Option.map_none', hj, false_and]
      exact ⟨fun h => Option.noConfusion h, fun h => h.elim⟩
  · intro v hv
    have h1 := (foldl_max_bounds (fun v => v.tdiv tp.MaxCardNPUNum) top 0).2 v hv
    have h2 := (foldl_min_bounds (fun v => v.tdiv tp.MaxCardNPUNum) top 0).2 v hv
    constructor
    · exact h2
    · simp only at h1 h2
      omega

/-- C30: a nil handler and a handler with `MaxCardNPUNum = 0` give no groups
for every topology; for every other handler each device of the topology is
in exactly one returned group, two devices of the topology are in the same
group exactly when their indices have the same quotient by `MaxCardNPUNum`,
and every group consists of devices of the topology; the topology 1, 2, 3
with `MaxCardNPUNum = 4` gives the single group 1, 2, 3. -/
theorem cardGroups_spec :
    (∀ top, GetCardNumGroupsFromTop none top = []) ∧
    (∀ top, GetCardNumGroupsFromTop (some { MaxCardNPUNum := 0 }) top = []) ∧
    (∀ (tp : NPUHandler) (top : List Int), tp.MaxCardNPUNum ≠ 0 →
      (∀ v ∈ top, ∃ i g, (GetCardNumGroupsFromTop (some tp) top)[i]? = some g ∧ v ∈ g ∧
        ∀ (j : Nat) (g' : List Int),
          (GetCardNumGroupsFromTop (some tp) top)[j]? = some g' → v ∈ g' → j = i) ∧
      (∀ u ∈ top, ∀ v ∈ top,
        (∃ g ∈ GetCardNumGroupsFromTop (some tp) top, u ∈ g ∧ v ∈ g) ↔
          u.tdiv tp.MaxCardNPUNum = v.tdiv tp.MaxCardNPUNum) ∧
      (∀ g ∈ GetCardNumGroupsFromTop (some tp) top, ∀ v ∈ g, v ∈ top)) ∧
    GetCardNumGroupsFromTop (some { MaxCardNPUNum := 4 }) [1, 2, 3] = [[1, 2, 3]] := by
  refine ⟨fun _ => rfl, fun _ => rfl, ?_, by decide⟩
  intro tp top hM
  obtain ⟨lo, len, hget, hbound⟩ := cardGroups_getElem tp top hM
  have hmem : ∀ (j : Nat) (g : List Int) (v : Int),
      (GetCardNumGroupsFromTop (some tp) top)[j]? = some g →
      (v ∈ g ↔ v ∈ top ∧ v.tdiv tp.MaxCardNPUNum = lo + (j : Int)) := by
    intro j g v hg
    obtain ⟨_, rfl⟩ := (hget j g).mp hg
    simp [List.mem_filter]
  have hpos : ∀ v ∈ top, (GetCardNumGroupsFromTop (some tp) top)[(v.tdiv tp.MaxCardNPUNum - lo).toNat]? =
      some (top.filter (fun w => decide (w.tdiv tp.MaxCardNPUNum =
        lo + (((v.tdiv tp.MaxCardNPUNum - lo).toNat : Nat) : Int)))) := by
    intro v hv
    obtain ⟨h1, h2⟩ := hbound v hv
    exact (hget _ _).mpr ⟨by omega, rfl⟩
  refine ⟨?_, ?_, ?_⟩
  · intro v hv
    obtain ⟨h1, h2⟩ := hbound v hv
    refine ⟨_, _, hpos v hv, ?_, ?_⟩
    · simp only [List.mem_filter, decide_eq_true_eq]
      exact ⟨hv, by omega⟩
    · intro j g' hg' hvg'
      have := ((hmem j g' v hg').mp hvg').2
      omega
  · intro u hu v hv
    constructor
    · rintro ⟨g, hg, hug, hvg⟩
      obtain ⟨j, hj⟩ := List.getElem?_of_mem hg
      have h1 := ((hmem j g u hj).mp hug).2
      have h2 := ((hmem j g v hj).mp hvg).2
      omega
    · intro heq
      obtain ⟨h1, h2⟩ := hbound u hu
      refine ⟨_, List.getElem?_mem (hpos u hu), ?_, ?_⟩
      · simp only [List.mem_filter, decide_eq_true_eq]
        exact ⟨hu, by omega⟩
      · simp only [List.mem_filter, decide_eq_true_eq]
        exact ⟨hv, by omega⟩
  · intro g hg v hvg
    obtain ⟨j, hj⟩ := List.getElem?_of_mem hg
    exact ((hmem j g v hj).mp hvg).1

/-- Witness of C30: with cards of 2 devices the topology 0, 1, 5 has the groups
0, 1 (card 0), none (card 1) and 5 (card 2); device 5 is in the group at
position 2 only. -/
theorem cardGroups_spec_witness :
    GetCardNumGroupsFromTop (some { MaxCardNPUNum := 2 }) [0, 1, 5] = [[0, 1], [], [5]] ∧
    ∃ i g, (GetCardNumGroupsFromTop (some { MaxCardNPUNum := 2 }) [0, 1, 5])[i]? = some g ∧
      (5 : Int) ∈ g ∧
      ∀ (j : Nat) (g' : List Int),
        (GetCardNumGroupsFromTop (some { MaxCardNPUNum := 2 }) [0, 1, 5])[j]? = some g' →
        (5 : Int) ∈ g' → j = i :=
  ⟨by decide, (cardGroups_spec.2.2.1 { MaxCardNPUNum := 2 } [0, 1, 5] (by decide)).1 5
    (by decide)⟩

end Base

namespace Allocate

/-! ### Lemmas on the scheduling pass -/

theorem placeTasks_inv {σ : Type} (place : σ → Task → Option (σ × String)) (Inv : σ → Prop)
    (hpres : ∀ s t s' node, Inv s → place s t = some (s', node) → Inv s') :
    ∀ (tasks : List Task) (s : σ) (binds : List Bind) (s' : σ) (binds' : List Bind),
      Inv s → placeTasks place tasks s binds = some (s', binds') → Inv s' := by
  intro tasks
  induction tasks with
  | nil =>
    intro s binds s' binds' hs h
    simp only [placeTasks, Option.some.injEq, Prod.mk.injEq] at h
    exact h.1 ▸ hs
  | cons t rest ih =>
    intro s binds s' binds' hs h
    rw [placeTasks] at h
    cases hp : place s t with
    | none => rw [hp] at h; cases h
    | some r =>
      obtain ⟨s1, node⟩ := r
      rw [hp] at h
      exact ih s1 _ s' binds' (hpres s t s1 node hs hp) h

theorem attemptJob_inv {σ : Type} (place : σ → Task → Option (σ × String)) (Inv : σ → Prop)
    (hpres : ∀ s t s' node, Inv s → place s t = some (s', node) → Inv s')
    (s : σ) (job : Job) (s' : σ) (binds : List Bind) (hs : Inv s)
    (h : attemptJob place s job = .placed s' binds) : Inv s' := by
  unfold attemptJob at h
  simp only [] at h
  split at h
  · cases h
  · split at h
    · cases h
    · cases hp : placeTasks place (job.Tasks.filter (fun t => t.Pending)) s [] with
      | none => rw [hp] at h; cases h
      | some r =>
        obtain ⟨s1, b1⟩ := r
        rw [hp] at h
        cases h
        exact placeTasks_inv place Inv hpres _ s [] s' binds hs hp

theorem stepQueue_inv {σ : Type} (place : σ → Task → Option (σ × String)) (Inv : σ → Prop)
    (hpres : ∀ s t s' node, Inv s → place s t = some (s', node) → Inv s')
    (s : σ) (q : QueueRun) (hs : Inv s) : Inv (stepQueue place s q).1 := by
  unfold stepQueue
  split
  · exact hs
  · split
    · exact hs
    · rename_i job rest _
      cases ha : attemptJob place s job with
      | passThrough => exact hs
      | failed =>
        simp only []
        split <;> exact hs
      | placed s' binds => exact attemptJob_inv place Inv hpres s job s' binds hs ha

theorem run_cons {σ : Type} (place : σ → Task → Option (σ × String)) (i : Nat)
    (choices : List Nat) (p : Pass σ) :
    run place (i :: choices) p = run place choices (step place i p) := rfl

theorem run_append {σ : Type} (place : σ → Task → Option (σ × String))
    (c1 c2 : List Nat) (p : Pass σ) :
    run place (c1 ++ c2) p = run place c2 (run place c1 p) := by
  simp [run, List.foldl_append]

theorem step_at {σ : Type} (place : σ → Task → Option (σ × String)) (i : Nat) (p : Pass σ)
    (q : QueueRun) (hq : p.Queues[i]? = some q) :
    (step place i p).Cluster = (stepQueue place p.Cluster q).1 ∧
    (step place i p).Queues[i]? = some (stepQueue place p.Cluster q).2 := by
  have hi : i < p.Queues.length := Api.lt_length_of_getElem?_eq_some hq
  simp only [step, hq]
  exact ⟨trivial, by simp [hi]⟩

theorem step_other {σ : Type} (place : σ → Task → Option (σ × String)) (i k : Nat)
    (p : Pass σ) (hne : k ≠ i) : (step place k p).Queues[i]? = p.Queues[i]? := by
  unfold step
  cases hk : p.Queues[k]? with
  | none => rfl
  | some qk => simp [List.getElem?_set_ne hne]

theorem step_inv {σ : Type} (place : σ → Task → Option (σ × String)) (Inv : σ → Prop)
    (hpres : ∀ s t s' node, Inv s → place s t = some (s', node) → Inv s')
    (k : Nat) (p : Pass σ) (hs : Inv p.Cluster) : Inv (step place k p).Cluster := by
  unfold step
  cases hk : p.Queues[k]? with
  | none => exact hs
  | some qk => exact stepQueue_inv place Inv hpres p.Cluster qk hs

theorem strategy_ne_fifo (ann : Api.StringMap)
    (hann : ann = none ∨ (Api.mapIndex ann Api.DequeueStrategyAnnotationKey).2 = false ∨
      (Api.mapIndex ann Api.DequeueStrategyAnnotationKey).1 = "traverse") :
    Api.dequeueStrategyOf ann ≠ Api.DequeueStrategyFIFO := by
  rw [Api.dequeueStrategyOf_eq]
  have hne : Api.mapIndex ann Api.DequeueStrategyAnnotationKey ≠ ("fifo", true) := by
    intro h
    rcases hann with h1 | h1 | h1
    · subst h1
      simp [Api.mapIndex] at h
    · rw [h] at h1
      cases h1
    · rw [h] at h1
      revert h1
      decide
  rw [if_neg hne]
  decide

theorem stepQueue_traverse {σ : Type} (place : σ → Task → Option (σ × String)) (s : σ)
    (q : QueueRun) (job : Job) (rest : List Job)
    (hnb : q.Blocked = false) (hs : q.Strategy ≠ Api.DequeueStrategyFIFO)
    (hp : q.Pending = job :: rest) :
    ∃ (d : Job) (bs : List Bind), (stepQueue place s q).2 =
      { q with Done := q.Done ++ [d], Pending := rest, Binds := q.Binds ++ bs } := by
  unfold stepQueue
  rw [hnb, hp]
  simp only [Bool.false_eq_true, if_false]
  cases ha : attemptJob place s job with
  | passThrough => exact ⟨job, [], by simp⟩
  | failed =>
    simp only []
    rw [if_neg hs]
    exact ⟨job, [], by simp⟩
  | placed s' binds => exact ⟨_, binds, rfl⟩

theorem run_traverse {σ : Type} (place : σ → Task → Option (σ × String)) (i : Nat)
    (post : List Job) :
    ∀ (pre : List Job) (p : Pass σ) (q : QueueRun), p.Queues[i]? = some q →
      q.Blocked = false → q.Strategy ≠ Api.DequeueStrategyFIFO → q.Pending = pre ++ post →
      ∃ (ext : List Job) (bs : List Bind), ext.length = pre.length ∧
        (run place (List.replicate pre.length i) p).Queues[i]? =
          some { q with Done := q.Done ++ ext, Pending := post, Binds := q.Binds ++ bs } := by
  intro pre
  induction pre with
  | nil =>
    intro p q hq hnb hs hp
    refine ⟨[], [], rfl, ?_⟩
    simp only [List.nil_append] at hp
    simp only [List.length_nil, List.replicate_zero, run, List.foldl_nil, List.append_nil]
    rw [hq, ← hp]
  | cons job pre ih =>
    intro p q hq hnb hs hp
    obtain ⟨d, bs, hstep⟩ := stepQueue_traverse place p.Cluster q job (pre ++ post) hnb hs hp
    have hq1 := (step_at place i p q hq).2
    rw [hstep] at hq1
    obtain ⟨ext, bs', hlen, hrun⟩ := ih (step place i p) _ hq1 hnb hs rfl
    refine ⟨d :: ext, bs ++ bs', by simp [hlen], ?_⟩
    rw [List.length_cons, List.replicate_succ, run_cons, hrun]
    simp [List.append_assoc]

theorem run_other {σ : Type} (place : σ → Task → Option (σ × String)) (i : Nat) :
    ∀ (choices : List Nat) (p : Pass σ), i ∉ choices →
      (run place choices p).Queues[i]? = p.Queues[i]? := by
  intro choices
  induction choices with
  | nil => intro p _; rfl
  | cons k more ih =>
    intro p hni
    rw [run_cons, ih _ (fun h => hni (List.mem_cons_of_mem _ h)),
      step_other place i k p (fun h => hni (h ▸ List.mem_cons_self _ _))]

theorem run_interleaved {σ : Type} (place : σ → Task → Option (σ × String)) (i : Nat)
    (post : List Job) :
    ∀ (choices : List Nat) (pre : List Job) (p : Pass σ) (q : QueueRun),
      p.Queues[i]? = some q → q.Blocked = false → q.Strategy ≠ Api.DequeueStrategyFIFO →
      q.Pending = pre ++ post → choices.count i = pre.length →
      ∃ (ext : List Job) (bs : List Bind), ext.length = pre.length ∧
        (run place choices p).Queues[i]? =
          some { q with Done := q.Done ++ ext, Pending := post, Binds := q.Binds ++ bs } := by
  intro choices
  induction choices with
  | nil =>
    intro pre p q hq hnb hs hp hcount
    have hpre : pre = [] := List.length_eq_zero.mp (by simpa using hcount.symm)
    subst hpre
    refine ⟨[], [], rfl, ?_⟩
    simp only [List.nil_append] at hp
    simp only [run, List.foldl_nil, List.append_nil]
    rw [hq, ← hp]
  | cons k more ih =>
    intro pre p q hq hnb hs hp hcount
    rw [run_cons]
    by_cases hk : k = i
    · subst hk
      rw [List.count_cons_self] at hcount
      cases pre with
      | nil => simp at hcount
      | cons job pre' =>
        obtain ⟨d, bs, hstep⟩ :=
          stepQueue_traverse place p.Cluster q job (pre' ++ post) hnb hs hp
        have hq1 := (step_at place k p q hq).2
        rw [hstep] at hq1
        obtain ⟨ext, bs', hlen, hrun⟩ :=
          ih pre' (step place k p) _ hq1 hnb hs rfl (by simpa using hcount)
        refine ⟨d :: ext, bs ++ bs', by simp [hlen], ?_⟩
        rw [hrun]
        simp [List.append_assoc]
    · rw [List.count_cons_of_ne (fun h => hk h.symm)] at hcount
      have hq1 : (step place k p).Queues[i]? = some q := by
        rw [step_other place i k p hk]
        exact hq
      exact ih pre (step place k p) q hq1 hnb hs hp hcount

theorem stepQueue_grows {σ : Type} (place : σ → Task → Option (σ × String)) (s : σ)
    (q : QueueRun) :
    ∃ (d : List Job) (b : List Bind),
      (stepQueue place s q).2.Done = q.Done ++ d ∧
      (stepQueue place s q).2.Binds = q.Binds ++ b := by
  unfold stepQueue
  split
  · exact ⟨[], [], by simp, by simp⟩
  · split
    · exact ⟨[], [], by simp, by simp⟩
    · rename_i job rest _
      cases ha : attemptJob place s job with
      | passThrough => exact ⟨[job], [], rfl, by simp⟩
      | failed =>
        simp only []
        split
        · exact ⟨[], [], by simp, by simp⟩
        · exact ⟨[job], [], rfl, by simp⟩
      | placed s' binds => exact ⟨_, binds, rfl, rfl⟩

theorem run_grows {σ : Type} (place : σ → Task → Option (σ × String)) (i : Nat) :
    ∀ (choices : List Nat) (p : Pass σ) (q : QueueRun), p.Queues[i]? = some q →
      ∃ (q' : QueueRun) (d : List Job) (b : List Bind),
        (run place choices p).Queues[i]? = some q' ∧
        q'.Done = q.Done ++ d ∧ q'.Binds = q.Binds ++ b := by
  intro choices
  induction choices with
  | nil => intro p q hq; exact ⟨q, [], [], hq, by simp, by simp⟩
  | cons k more ih =>
    intro p q hq
    rw [run_cons]
    by_cases hk : k = i
    · subst hk
      obtain ⟨d, b, hd, hb⟩ := stepQueue_grows place p.Cluster q
      obtain ⟨q', d', b', hq', hd', hb'⟩ := ih (step place k p) _ (step_at place k p q hq).2
      exact ⟨q', d ++ d', b ++ b', hq', by rw [hd', hd, List.append_assoc],
        by rw [hb', hb, List.append_assoc]⟩
    · have hq1 : (step place k p).Queues[i]? = some q := by
        rw [step_other place i k p hk]
        exact hq
      exact ih (step place k p) q hq1

/-! ### The claims on the dequeue strategies -/

/-- C27: for a queue with strategy "fifo" holding at least two pending jobs
whose head job cannot be placed during the pass, in every pass, whatever
queues are chosen and whatever the other queues and their strategies are, the
queue keeps its pending sequence with all jobs and their phases, the list of
evaluated jobs and its binds as they were: no later job is attempted and the
queue contributes no bind. -/
theorem fifo_head_blocks {σ : Type} (place : σ → Task → Option (σ × String))
    (Inv : σ → Prop) (choices : List Nat) (p : Pass σ) (i : Nat) (q : QueueRun)
    (j1 j2 : Job) (rest : List Job)
    (hinv : Inv p.Cluster)
    (hpres : ∀ s t s' node, Inv s → place s t = some (s', node) → Inv s')
    (hq : p.Queues[i]? = some q) (hs : q.Strategy = "fifo") (hnb : q.Blocked = false)
    (hp : q.Pending = j1 :: j2 :: rest)
    (hfail : ∀ s, Inv s → attemptJob place s j1 = .failed) :
    ∃ b, (run place choices p).Queues[i]? = some { q with Blocked := b } := by
  have key : ∀ (choices : List Nat) (p : Pass σ), Inv p.Cluster →
      (∃ b, p.Queues[i]? = some { q with Blocked := b }) →
      Inv (run place choices p).Cluster ∧
        ∃ b, (run place choices p).Queues[i]? = some { q with Blocked := b } := by
    intro choices
    induction choices with
    | nil => intro p hi hb; exact ⟨hi, hb⟩
    | cons k more ih =>
      intro p hi hb
      rw [run_cons]
      apply ih
      · exact step_inv place Inv hpres k p hi
      · obtain ⟨b, hqb⟩ := hb
        by_cases hk : k = i
        · subst hk
          rw [(step_at place k p _ hqb).2]
          cases b with
          | true => exact ⟨true, by simp [stepQueue]⟩
          | false =>
            refine ⟨true, ?_⟩
            simp [stepQueue, hp, hfail p.Cluster hi, hs, Api.DequeueStrategyFIFO]
        · rw [step_other place i k p hk]
          exact ⟨b, hqb⟩
  refine (key choices p hinv ⟨false, ?_⟩).2
  rw [hq, ← hnb]

theorem fifo_head_blocks_witness :
    ∃ b, (run examplePlace [0, 0, 0] ⟨2, [exampleQueueRun "fifo"]⟩).Queues[0]? =
      some { exampleQueueRun "fifo" with Blocked := b } :=
  fifo_head_blocks examplePlace (fun s => s ≤ 2) [0, 0, 0] ⟨2, [exampleQueueRun "fifo"]⟩ 0
    (exampleQueueRun "fifo") (exampleJob "c1/pg1" "c1/p1" 10) (exampleJob "c1/pg2" "c1/p2" 1) []
    (by decide)
    (by
      intro s t s' node hs h
      simp only [examplePlace] at h
      split at h
      · simp only [Option.some.injEq, Prod.mk.injEq] at h
        have h1 := h.1
        omega
      · cases h)
    rfl rfl rfl rfl
    (by
      intro s hs
      have h10 : ¬ (10 ≤ s) := by omega
      simp [attemptJob, exampleJob, placeTasks, examplePlace, h10])

/-- C28: for a queue with strategy "traverse" (set explicitly, or by default
when the annotation is absent), in every pass, whatever the other queues are
and however their turns are interleaved with the turns of the queue (`c1` are
the choices before its first turn, `c2` the choices up to the turn on which
the later job is reached, `c3` the rest of the pass): if the head job cannot
be placed when it is attempted and the later job can be placed when it is
reached, then at the end of the pass the head job is among the evaluated jobs
with its record and phase as they were, the later job is there with phase
Running, and its binds are among the binds of the queue. -/
theorem traverse_skips_head {σ : Type} (place : σ → Task → Option (σ × String))
    (p : Pass σ) (i : Nat) (q : QueueRun) (ann : Api.StringMap)
    (j1 j2 : Job) (mid rest : List Job) (choices c1 c2 c3 : List Nat) (s' : σ)
    (binds : List Bind)
    (hq : p.Queues[i]? = some q)
    (hs : q.Strategy = Api.dequeueStrategyOf ann)
    (hann : ann = none ∨ (Api.mapIndex ann Api.DequeueStrategyAnnotationKey).2 = false ∨
      (Api.mapIndex ann Api.DequeueStrategyAnnotationKey).1 = "traverse")
    (hnb : q.Blocked = false)
    (hp : q.Pending = j1 :: (mid ++ j2 :: rest))
    (hsplit : choices = c1 ++ i :: (c2 ++ i :: c3))
    (hc1 : i ∉ c1) (hc2 : c2.count i = mid.length)
    (hfail : attemptJob place (run place c1 p).Cluster j1 = .failed)
    (hok : attemptJob place (run place (c1 ++ i :: c2) p).Cluster j2 = .placed s' binds) :
    ∃ (q' : QueueRun) (ext after : List Job) (before later : List Bind),
      (run place choices p).Queues[i]? = some q' ∧
      ext.length = mid.length ∧
      q'.Done = q.Done ++ j1 :: (ext ++ { j2 with Phase := PodGroupPhase.Running } :: after) ∧
      q'.Binds = before ++ binds ++ later ∧
      (run place (c1 ++ i :: (c2 ++ [i])) p).Cluster = s' := by
  have hne : q.Strategy ≠ Api.DequeueStrategyFIFO := hs ▸ strategy_ne_fifo ann hann
  have hq0 : (run place c1 p).Queues[i]? = some q := by
    rw [run_other place i c1 p hc1]
    exact hq
  have hstep1 : stepQueue place (run place c1 p).Cluster q =
      ((run place c1 p).Cluster,
        { q with Done := q.Done ++ [j1], Pending := mid ++ j2 :: rest }) := by
    unfold stepQueue
    rw [hnb, hp]
    simp only [Bool.false_eq_true, if_false, hfail]
    rw [if_neg hne]
  have hq1 := (step_at place i _ q hq0).2
  rw [hstep1] at hq1
  obtain ⟨ext, bs, hlen, hrun⟩ :=
    run_interleaved place i (j2 :: rest) c2 mid (step place i (run place c1 p)) _ hq1 hnb hne
      rfl hc2
  have hrun1 : run place (c1 ++ i :: c2) p =
      run place c2 (step place i (run place c1 p)) := by
    rw [run_append, run_cons]
  rw [← hrun1] at hrun
  have hlast := step_at place i _ _ hrun
  have hstep2 : stepQueue place (run place (c1 ++ i :: c2) p).Cluster
      { q with Done := (q.Done ++ [j1]) ++ ext, Pending := j2 :: rest, Binds := q.Binds ++ bs } =
      (s', { q with Done := ((q.Done ++ [j1]) ++ ext) ++ [{ j2 with Phase := PodGroupPhase.Running }],
                    Pending := rest, Binds := (q.Binds ++ bs) ++ binds }) := by
    unfold stepQueue
    simp only [hnb, Bool.false_eq_true, if_false, hok]
  rw [hstep2] at hlast
  have hrun2 : run place (c1 ++ i :: (c2 ++ [i])) p =
      step place i (run place (c1 ++ i :: c2) p) := by
    rw [show c1 ++ i :: (c2 ++ [i]) = (c1 ++ i :: c2) ++ [i] by simp, run_append]
    rfl
  have hrun3 : run place choices p = run place c3 (run place (c1 ++ i :: (c2 ++ [i])) p) := by
    rw [hsplit, show c1 ++ i :: (c2 ++ i :: c3) = (c1 ++ i :: (c2 ++ [i])) ++ c3 by simp,
      run_append]
  rw [← hrun2] at hlast
  obtain ⟨q', d, b, hq', hd, hb⟩ := run_grows place i c3 _ _ hlast.2
  refine ⟨q', ext, d, q.Binds ++ bs, b, by rw [hrun3]; exact hq', hlen, ?_, ?_, hlast.1⟩
  · rw [hd]
    simp [List.append_assoc]
  · rw [hb]

/-- Witness of C28: a pass over two queues on a node with 2 free CPU in which
the turns alternate; the other queue binds a task of 1 CPU first, the head
job of 10 CPU fails and the later job of 1 CPU is bound. -/
theorem traverse_skips_head_witness :
    ∃ (q' : QueueRun) (ext after : List Job) (before later : List Bind),
      (run examplePlace [1, 0, 1, 0, 1]
        ⟨2, [exampleQueueRun "traverse",
          { Strategy := "fifo", Done := [], Pending := [exampleJob "c2/pg3" "c2/p3" 1],
            Blocked := false, Binds := [] }]⟩).Queues[0]? = some q' ∧
      ext.length = 0 ∧
      q'.Done = [] ++ exampleJob "c1/pg1" "c1/p1" 10 ::
        (ext ++ { exampleJob "c1/pg2" "c1/p2" 1 with Phase := PodGroupPhase.Running } :: after) ∧
      q'.Binds = before ++ [⟨"c1/p2", "n1"⟩] ++ later ∧
      (run examplePlace ([1] ++ 0 :: ([1] ++ [0]))
        ⟨2, [exampleQueueRun "traverse",
          { Strategy := "fifo", Done := [], Pending := [exampleJob "c2/pg3" "c2/p3" 1],
            Blocked := false, Binds := [] }]⟩).Cluster = 0 :=
  traverse_skips_head examplePlace
    ⟨2, [exampleQueueRun "traverse",
      { Strategy := "fifo", Done := [], Pending := [exampleJob "c2/pg3" "c2/p3" 1],
        Blocked := false, Binds := [] }]⟩ 0
    (exampleQueueRun "traverse") (some [("volcano.sh/dequeue-strategy", "traverse")])
    (exampleJob "c1/pg1" "c1/p1" 10) (exampleJob "c1/pg2" "c1/p2" 1) [] []
    [1, 0, 1, 0, 1] [1] [1] [1] 0 [⟨"c1/p2", "n1"⟩]
    rfl (by decide) (by decide) rfl rfl rfl (by decide) (by decide) rfl rfl

end Allocate

namespace Ascend910b

/-! ### The cross-module count of `initSelectNodeInf` -/

theorem crossCountInner_eq (l cut : Int) :
    ∀ (right : List Int) (cross : Int),
      crossCountInner l cut right cross = if l + cut ∈ right then cross + 2 else cross := by
  intro right
  induction right with
  | nil => intro cross; simp [crossCountInner]
  | cons r rest ih =>
    intro cross
    by_cases h : l + cut = r
    · simp [crossCountInner, h, NPUIndex2]
    · simp only [crossCountInner, ih, List.mem_cons, h, false_or, if_false]

theorem crossCountLoop_eq (cut : Int) (right : List Int) :
    ∀ (left : List Int) (cross : Int),
      crossCountLoop cut right left cross = cross +
        ((left.flatMap (fun l => if l + cut ∈ right then [l, l + cut] else [])).length : Int) := by
  intro left
  induction left with
  | nil => intro cross; simp [crossCountLoop]
  | cons l rest ih =>
    intro cross
    rw [crossCountLoop, ih, crossCountInner_eq]
    by_cases h : l + cut ∈ right
    · simp only [if_pos h, List.flatMap_cons, List.length_append, List.length_cons,
        List.length_nil, Nat.cast_add]
      push_cast
      omega
    · simp only [if_neg h, List.flatMap_cons, List.nil_append]

theorem initSelectNodeInf_cross (ab : Base910b) (npuTop : List Int) :
    (ab.initSelectNodeInf npuTop).crossNPUNum =
      (((if decide (ab.NPUTaskNum > 1) then
          ((npuTop.filter (fun v => decide (v < ab.MaxNodeNPUNum.tdiv 2))).zip
            (npuTop.filter (fun v => !decide (v < ab.MaxNodeNPUNum.tdiv 2)))).flatMap
              (fun p => [p.1, p.2])
         else
          (npuTop.filter (fun v => decide (v < ab.MaxNodeNPUNum.tdiv 2))).flatMap
            (fun l => if l + ab.MaxNodeNPUNum.tdiv 2 ∈
                npuTop.filter (fun v => !decide (v < ab.MaxNodeNPUNum.tdiv 2))
              then [l, l + ab.MaxNodeNPUNum.tdiv 2] else [])).length : Nat) : Int) := by
  unfold Base910b.initSelectNodeInf
  simp only [NPUIndex2, splitLoop_eq, List.nil_append]
  by_cases hm : ab.NPUTaskNum > 1
  · simp only [hm, if_true, decide_True, length_pairs_zip]
    split <;> omega
  · simp only [hm, if_false, decide_False, Bool.false_eq_true, crossCountLoop_eq, zero_add]

theorem length_flatMap_two (cut : Int) :
    ∀ (F : List Int), (F.flatMap (fun l => [l, l + cut])).length = 2 * F.length := by
  intro F
  induction F with
  | nil => rfl
  | cons a rest ih =>
    simp only [List.flatMap_cons, List.length_append, List.length_cons, List.length_nil, ih]
    omega

theorem judge_accept_iff (ab : Base910b) (n : Int) (nodeTop : List Int)
    (hne : n ≠ ab.MaxNodeNPUNum) :
    ab.Judge910BNodeAndTaskNPU n nodeTop = .ok () ↔
      ab.IsVaildNpuNum n = true ∧
        (n ≤ ((nodeTop.filter (fun v => decide (v < ab.MaxNodeNPUNum.tdiv 2))).length : Int) ∨
         n ≤ ((nodeTop.filter (fun v => !decide (v < ab.MaxNodeNPUNum.tdiv 2))).length : Int) ∨
         (ab.MaxNodeNPUNum.tdiv 2 < n ∧ n ≤ (ab.initSelectNodeInf nodeTop).crossNPUNum)) := by
  obtain ⟨hl, hr, _⟩ := initSelectNodeInf_counts ab nodeTop
  simp only [Base910b.Judge910BNodeAndTaskNPU, if_neg hne, hl, hr, NPUIndex2]
  cases hv : ab.IsVaildNpuNum n with
  | false => simp
  | true =>
    simp only [if_true, true_and]
    split
    · rename_i hb
      simp only [Bool.or_eq_true, Bool.and_eq_true, decide_eq_true_eq] at hb
      simp only [true_iff]
      tauto
    · rename_i hb
      simp only [Bool.or_eq_true, Bool.and_eq_true, decide_eq_true_eq] at hb
      constructor
      · intro h; cases h
      · intro h; exact absurd (by tauto) hb

theorem cross_mono (ab : Base910b) (T T' : List Int) (hsub : T.Sublist T') :
    (ab.initSelectNodeInf T).crossNPUNum ≤ (ab.initSelectNodeInf T').crossNPUNum := by
  rw [initSelectNodeInf_cross, initSelectNodeInf_cross]
  have hL := (hsub.filter (fun v => decide (v < ab.MaxNodeNPUNum.tdiv 2)))
  have hR := (hsub.filter (fun v => !decide (v < ab.MaxNodeNPUNum.tdiv 2)))
  by_cases hm : ab.NPUTaskNum > 1
  · simp only [hm, decide_True, if_true, length_pairs_zip]
    have h1 := hL.length_le
    have h2 := hR.length_le
    omega
  · simp only [hm, decide_False, Bool.false_eq_true, if_false, flatMap_if_eq_filter,
      length_flatMap_two]
    have h1 := (hL.filter (fun l => decide (l + ab.MaxNodeNPUNum.tdiv 2 ∈
      T.filter (fun v => !decide (v < ab.MaxNodeNPUNum.tdiv 2))))).length_le
    have h2 := (List.monotone_filter_right
      (T'.filter (fun v => decide (v < ab.MaxNodeNPUNum.tdiv 2)))
      (show ∀ a, (fun l => decide (l + ab.MaxNodeNPUNum.tdiv 2 ∈
          T.filter (fun v => !decide (v < ab.MaxNodeNPUNum.tdiv 2)))) a = true →
        (fun l => decide (l + ab.MaxNodeNPUNum.tdiv 2 ∈
          T'.filter (fun v => !decide (v < ab.MaxNodeNPUNum.tdiv 2)))) a = true from by
        intro a ha
        simp only [decide_eq_true_eq] at ha ⊢
        exact hR.subset ha)).length_le
    omega

theorem cross_group_cases (tp : Base910b) (nodeTop l r c : List Int)
    (hg : tp.GetNodeHccsArray nodeTop (decide (tp.NPUTaskNum > 1)) = some (l, r, c)) :
    l = nodeTop.filter (fun v => decide (v < tp.MaxNodeNPUNum.tdiv 2)) ∧
    r = nodeTop.filter (fun v => !decide (v < tp.MaxNodeNPUNum.tdiv 2)) ∧
    (c = [] ∨ (tp.MaxNodeNPUNum.tdiv 2 < (c.length : Int) ∧
      (c.length : Int) = (tp.initSelectNodeInf nodeTop).crossNPUNum)) ∧
    (tp.MaxNodeNPUNum.tdiv 2 < (tp.initSelectNodeInf nodeTop).crossNPUNum →
      (c.length : Int) = (tp.initSelectNodeInf nodeTop).crossNPUNum) := by
  obtain ⟨c', hc', hcut⟩ := GetNodeHccsArray_some tp nodeTop (decide (tp.NPUTaskNum > 1))
  rw [hg] at hc'
  simp only [Option.some.injEq, Prod.mk.injEq] at hc'
  obtain ⟨hl, hr, hc⟩ := hc'
  have hcross := initSelectNodeInf_cross tp nodeTop
  rw [← hc] at hcut
  have key : ∀ cand : List Int, c = getCrossHccsArrayByCutNum cand (tp.MaxNodeNPUNum.tdiv 2) →
      (tp.initSelectNodeInf nodeTop).crossNPUNum = (cand.length : Int) →
      (c = [] ∨ (tp.MaxNodeNPUNum.tdiv 2 < (c.length : Int) ∧
        (c.length : Int) = (tp.initSelectNodeInf nodeTop).crossNPUNum)) ∧
      (tp.MaxNodeNPUNum.tdiv 2 < (tp.initSelectNodeInf nodeTop).crossNPUNum →
        (c.length : Int) = (tp.initSelectNodeInf nodeTop).crossNPUNum) := by
    intro cand h1 h2
    rw [getCrossHccsArrayByCutNum] at h1
    by_cases hle : (cand.length : Int) ≤ tp.MaxNodeNPUNum.tdiv 2
    · rw [if_pos hle] at h1
      exact ⟨Or.inl h1, fun hgt => by omega⟩
    · rw [if_neg hle] at h1
      rw [h1, h2]
      exact ⟨Or.inr ⟨by omega, rfl⟩, fun _ => rfl⟩
  exact ⟨hl, hr, key _ hcut hcross⟩

theorem select_ok_inv (tp : Base910b) (n : Int) (nodeTop devices : List Int)
    (hne : n ≠ tp.MaxNodeNPUNum)
    (hsel : tp.SelectNPUByTaskNPUNumAndNodeTop n nodeTop = some (.ok devices)) :
    tp.IsVaildNpuNum n = true ∧
    ∃ ps l r c p, tp.GetNPUAllocPriorityArray n = .ok ps ∧
      tp.GetNodeHccsArray nodeTop (decide (tp.NPUTaskNum > 1)) = some (l, r, c) ∧
      p ∈ ps ∧ (p = (l.length : Int) ∨ p = (r.length : Int) ∨ p = (c.length : Int)) ∧
      0 ≤ n ∧ n ≤ p ∧
      devices = (if p = (l.length : Int) then l else if p = (r.length : Int) then r
        else c).take n.toNat := by
  cases hv : tp.IsVaildNpuNum n with
  | false =>
    obtain ⟨e, he⟩ := priorityArray_of_invalid tp n hv
    rw [select_invalid tp n nodeTop e hne he] at hsel
    cases hsel
  | true =>
    refine ⟨rfl, ?_⟩
    have hps := priorityArray_of_valid tp n hv hne
    obtain ⟨c, hc, _⟩ := GetNodeHccsArray_some tp nodeTop (decide (tp.NPUTaskNum > 1))
    rcases select_of_find tp n nodeTop _ _ _ c hne hps hc with ⟨_, herr⟩ | ⟨p, hf, hres⟩
    · rw [herr] at hsel
      cases hsel
    · obtain ⟨hmem, hmatch⟩ := find_matches _ _ _ _ p hf
      have hlen := chosen_length _ _ c p hmatch
      refine ⟨_, _, _, c, p, hps, hc, hmem, hmatch, ?_⟩
      have key : ∀ g : List Int, (g.length : Int) = p →
          (sliceTo g n).map (Except.ok : List Int → Except String (List Int)) =
            some (.ok devices) →
          0 ≤ n ∧ n ≤ p ∧ devices = g.take n.toNat := by
        intro g hg h
        by_cases hb : 0 ≤ n ∧ n ≤ (g.length : Int)
        · rw [sliceTo, if_pos hb] at h
          simp only [Option.map_some', Option.some.injEq, Except.ok.injEq] at h
          exact ⟨hb.1, by omega, h.symm⟩
        · rw [sliceTo, if_neg hb] at h
          cases h
      rw [hres] at hsel
      exact key _ hlen hsel

theorem cross_even (ab : Base910b) (npuTop : List Int) :
    (ab.initSelectNodeInf npuTop).crossNPUNum % 2 = 0 := by
  rw [initSelectNodeInf_cross]
  by_cases hm : ab.NPUTaskNum > 1
  · simp only [hm, decide_True, if_true, length_pairs_zip]
    omega
  · simp only [hm, decide_False, Bool.false_eq_true, if_false]
    have := length_pairs_offset_even
      (npuTop.filter (fun v => decide (v < ab.MaxNodeNPUNum.tdiv 2)))
      (npuTop.filter (fun v => !decide (v < ab.MaxNodeNPUNum.tdiv 2)))
      (ab.MaxNodeNPUNum.tdiv 2)
    omega

/-! ### The claims on feasibility, the two halves and the cross-module count -/

/-- C31: for a request `n` different from `MaxNodeNPUNum`,
`Judge910BNodeAndTaskNPU` returns nil exactly when `IsVaildNpuNum n` holds and
the left half has at least `n` free devices, or the right half has, or `n`
exceeds `MaxNodeNPUNum / 2` and is at most the count `crossNPUNum` of
`initSelectNodeInf`; in every other case it returns the error
"<topology> not meet req npu(<n>)"; the result is nil or an error and nothing
else. -/
theorem judge_below_full (ab : Base910b) (n : Int) (nodeTop : List Int)
    (hne : n ≠ ab.MaxNodeNPUNum) :
    (ab.Judge910BNodeAndTaskNPU n nodeTop = .ok () ↔
      ab.IsVaildNpuNum n = true ∧
        (((nodeTop.filter (fun v => decide (v < ab.MaxNodeNPUNum.tdiv NPUIndex2))).length : Int) ≥ n ∨
         ((nodeTop.filter (fun v => !decide (v < ab.MaxNodeNPUNum.tdiv NPUIndex2))).length : Int) ≥ n ∨
         (n > ab.MaxNodeNPUNum.tdiv NPUIndex2 ∧ n ≤ (ab.initSelectNodeInf nodeTop).crossNPUNum))) ∧
    (ab.Judge910BNodeAndTaskNPU n nodeTop ≠ .ok () →
      ab.Judge910BNodeAndTaskNPU n nodeTop =
        .error (fmtInts nodeTop ++ " not meet req npu(" ++ toString n ++ ")")) ∧
    (ab.initSelectNodeInf nodeTop).LeftNPUNum =
      ((nodeTop.filter (fun v => decide (v < ab.MaxNodeNPUNum.tdiv NPUIndex2))).length : Int) ∧
    (ab.initSelectNodeInf nodeTop).RightNPUNum =
      ((nodeTop.filter (fun v => !decide (v < ab.MaxNodeNPUNum.tdiv NPUIndex2))).length : Int) := by
  obtain ⟨hl, hr, _⟩ := initSelectNodeInf_counts ab nodeTop
  refine ⟨?_, ?_, hl, hr⟩
  · simp only [Base910b.Judge910BNodeAndTaskNPU, if_neg hne, hl, hr, NPUIndex2]
    cases hv : ab.IsVaildNpuNum n with
    | false => simp
    | true =>
      simp only [if_true, true_and]
      split
      · rename_i hb
        simp only [Bool.or_eq_true, Bool.and_eq_true, decide_eq_true_eq] at hb
        simp only [true_iff]
        tauto
      · rename_i hb
        simp only [Bool.or_eq_true, Bool.and_eq_true, decide_eq_true_eq] at hb
        constructor
        · intro h; cases h
        · intro h; exact absurd (by tauto) hb
  · intro hno
    simp only [Base910b.Judge910BNodeAndTaskNPU, if_neg hne] at hno ⊢
    cases hv : ab.IsVaildNpuNum n with
    | false => simp
    | true =>
      simp only [hv, if_true] at hno ⊢
      split
      · rename_i hb
        rw [if_pos hb] at hno
        exact absurd rfl hno
      · rfl

/-- Witness of C31: on a node of 8 devices the request 5 is accepted through
the count of cross-module pairs, and the request 3 is rejected when each half
has 2 free devices. -/
theorem judge_below_full_witness :
    (exampleHandler8 1).Judge910BNodeAndTaskNPU 5 [0, 1, 2, 4, 5, 6] = .ok () ∧
    (exampleHandler8 1).Judge910BNodeAndTaskNPU 3 [0, 1, 4, 5] =
      .error "[0 1 4 5] not meet req npu(3)" :=
  ⟨(judge_below_full (exampleHandler8 1) 5 [0, 1, 2, 4, 5, 6] (by decide)).1.mpr (by decide),
   (judge_below_full (exampleHandler8 1) 3 [0, 1, 4, 5] (by decide)).2.1 (by decide)⟩

/-- C32: `GetNodeHccsArray` returns as left result the entries of the topology
smaller than `MaxNodeNPUNum / 2` and as right result the other entries, each
in the order of the topology; every entry of the topology is in exactly one
of the two, the two lengths add up to the length of the topology, and
`initSelectNodeInf` reports these lengths as `LeftNPUNum` and `RightNPUNum`
and their sum as `AllNPUNum`. -/
theorem hccs_partition (tp : Base910b) (nodeTop : List Int) (mult : Bool) :
    ∃ l r c, tp.GetNodeHccsArray nodeTop mult = some (l, r, c) ∧
      l = nodeTop.filter (fun v => decide (v < tp.MaxNodeNPUNum.tdiv NPUIndex2)) ∧
      r = nodeTop.filter (fun v => !decide (v < tp.MaxNodeNPUNum.tdiv NPUIndex2)) ∧
      l.Sublist nodeTop ∧ r.Sublist nodeTop ∧
      (∀ v ∈ nodeTop, (v ∈ l ∧ v ∉ r) ∨ (v ∉ l ∧ v ∈ r)) ∧
      l.length + r.length = nodeTop.length ∧
      (tp.initSelectNodeInf nodeTop).LeftNPUNum = (l.length : Int) ∧
      (tp.initSelectNodeInf nodeTop).RightNPUNum = (r.length : Int) ∧
      (tp.initSelectNodeInf nodeTop).AllNPUNum =
        (tp.initSelectNodeInf nodeTop).LeftNPUNum + (tp.initSelectNodeInf nodeTop).RightNPUNum := by
  obtain ⟨c, hc, _⟩ := GetNodeHccsArray_some tp nodeTop mult
  obtain ⟨hl, hr, hall⟩ := initSelectNodeInf_counts tp nodeTop
  have hlen := length_filter_add (tp.MaxNodeNPUNum.tdiv 2) nodeTop
  refine ⟨_, _, c, hc, rfl, rfl, List.filter_sublist _, List.filter_sublist _, ?_, hlen, hl, hr, ?_⟩
  · intro v hv
    by_cases h : v < tp.MaxNodeNPUNum.tdiv 2
    · left
      simp [List.mem_filter, hv, h]
    · right
      simp [List.mem_filter, hv, h]
  · rw [hall, hl, hr]
    omega

/-- Witness of C32: the topology 5, 0, 6, 1 of a node of 8 devices is split
into 0, 1 and 5, 6 in the order of the topology. -/
theorem hccs_partition_witness :
    ∃ l r c, (exampleHandler8 1).GetNodeHccsArray [5, 0, 6, 1] false = some (l, r, c) ∧
      l = [0, 1] ∧ r = [5, 6] := by
  obtain ⟨l, r, c, hg, hl, hr, _⟩ := hccs_partition (exampleHandler8 1) [5, 0, 6, 1] false
  exact ⟨l, r, c, hg, by rw [hl]; decide, by rw [hr]; decide⟩

/-- C37: for every topology and both modes, the count `crossNPUNum` of
`initSelectNodeInf` is the length of the pair list that `getCrossHccsArray`
builds before the capacity cut when it is called as in `GetNodeHccsArray` with
`isMultNpuReplica = NPUTaskNum > 1`; the cross group returned by
`GetNodeHccsArray` is that list, of length `crossNPUNum`, when
`crossNPUNum > MaxNodeNPUNum / 2`, and is empty otherwise. -/
theorem cross_count_agrees (tp : Base910b) (nodeTop : List Int) :
    ∃ l r cand c,
      splitLoop (tp.MaxNodeNPUNum.tdiv NPUIndex2) nodeTop ([], []) = (l, r) ∧
      crossCandidate l r (decide (tp.NPUTaskNum > 1)) (tp.MaxNodeNPUNum.tdiv NPUIndex2) =
        some cand ∧
      (tp.initSelectNodeInf nodeTop).crossNPUNum = (cand.length : Int) ∧
      tp.GetNodeHccsArray nodeTop (decide (tp.NPUTaskNum > 1)) = some (l, r, c) ∧
      ((tp.initSelectNodeInf nodeTop).crossNPUNum > tp.MaxNodeNPUNum.tdiv NPUIndex2 →
        c = cand ∧ (c.length : Int) = (tp.initSelectNodeInf nodeTop).crossNPUNum) ∧
      ((tp.initSelectNodeInf nodeTop).crossNPUNum ≤ tp.MaxNodeNPUNum.tdiv NPUIndex2 →
        c = [] ∧ c.length = 0) := by
  obtain ⟨c, hc, hcut⟩ := GetNodeHccsArray_some tp nodeTop (decide (tp.NPUTaskNum > 1))
  have hcross := initSelectNodeInf_cross tp nodeTop
  refine ⟨_, _, _, c, ?_, crossCandidate_eq _ _ _ _, ?_, hc, ?_, ?_⟩
  · rw [splitLoop_eq]
    simp [NPUIndex2]
  · simp only [NPUIndex2]
    exact hcross
  · intro hgt
    simp only [NPUIndex2] at hgt ⊢
    rw [hcross] at hgt
    have : c = _ := hcut
    rw [getCrossHccsArrayByCutNum, if_neg (by omega)] at this
    exact ⟨this, by rw [hcross, this]⟩
  · intro hle
    simp only [NPUIndex2] at hle
    rw [hcross] at hle
    have : c = _ := hcut
    rw [getCrossHccsArrayByCutNum, if_pos hle] at this
    exact ⟨this, by rw [this]; rfl⟩

/-- Witness of C37: on a node of 8 devices with free devices 0, 1, 2, 4, 5, 6
the count is 6 and the cross group has 6 devices; with free devices 0, 1, 4,
5 the count is 4 and the cross group is empty. -/
theorem cross_count_agrees_witness :
    (∃ l r c, (exampleHandler8 1).GetNodeHccsArray [0, 1, 2, 4, 5, 6] false = some (l, r, c) ∧
      (c.length : Int) = ((exampleHandler8 1).initSelectNodeInf [0, 1, 2, 4, 5, 6]).crossNPUNum) ∧
    (∃ l r c, (exampleHandler8 1).GetNodeHccsArray [0, 1, 4, 5] false = some (l, r, c) ∧
      c = []) := by
  constructor
  · obtain ⟨l, r, _, c, _, _, _, hg, hgt, _⟩ :=
      cross_count_agrees (exampleHandler8 1) [0, 1, 2, 4, 5, 6]
    exact ⟨l, r, c, hg, (hgt (by decide)).2⟩
  · obtain ⟨l, r, _, c, _, _, _, hg, _, hle⟩ :=
      cross_count_agrees (exampleHandler8 1) [0, 1, 4, 5]
    exact ⟨l, r, c, hg, (hle (by decide)).1⟩

/-- C38: for every request `n` and every two topologies `T` and `T'` such
that `T` is a sub-list of `T'` and `T'` holds distinct indices from 0 up to
`MaxNodeNPUNum - 1`, if `Judge910BNodeAndTaskNPU` accepts `n` on `T` then it
accepts `n` on `T'`, on the same handler, whatever its `NPUTaskNum` is. -/
theorem judge_monotone (ab : Base910b) (n : Int) (T T' : List Int)
    (hsub : T.Sublist T') (hnd : T'.Nodup)
    (hrange : ∀ d ∈ T', 0 ≤ d ∧ d < ab.MaxNodeNPUNum)
    (hacc : ab.Judge910BNodeAndTaskNPU n T = .ok ()) :
    ab.Judge910BNodeAndTaskNPU n T' = .ok () := by
  by_cases hne : n = ab.MaxNodeNPUNum
  · subst hne
    rw [judge_full_eq] at hacc ⊢
    have hT : (T.length : Int) = ab.MaxNodeNPUNum := by
      by_contra h
      rw [if_neg h] at hacc
      cases hacc
    have h1 := hsub.length_le
    have h2 := nodup_length_le T' 0 ab.MaxNodeNPUNum hnd hrange
    rw [if_pos (by omega)]
  · rw [judge_accept_iff ab n T hne] at hacc
    rw [judge_accept_iff ab n T' hne]
    obtain ⟨hv, hd⟩ := hacc
    refine ⟨hv, ?_⟩
    have hL := (hsub.filter (fun v => decide (v < ab.MaxNodeNPUNum.tdiv 2))).length_le
    have hR := (hsub.filter (fun v => !decide (v < ab.MaxNodeNPUNum.tdiv 2))).length_le
    have hC := cross_mono ab T T' hsub
    rcases hd with h | h | ⟨h, h'⟩
    · left; omega
    · right; left; omega
    · right; right; exact ⟨h, by omega⟩

/-- Witness of C38: the request 6 accepted with free devices 0, 1, 2, 4, 5, 6
is accepted with the device 7 free as well, in the single-task and in the
multi-replica mode. -/
theorem judge_monotone_witness :
    (exampleHandler8 1).Judge910BNodeAndTaskNPU 6 [0, 1, 2, 4, 5, 6, 7] = .ok () ∧
    (exampleHandler8 2).Judge910BNodeAndTaskNPU 6 [0, 1, 2, 4, 5, 6, 7] = .ok () :=
  ⟨judge_monotone (exampleHandler8 1) 6 [0, 1, 2, 4, 5, 6] [0, 1, 2, 4, 5, 6, 7] (by decide)
      (by decide) (by decide) (by decide),
   judge_monotone (exampleHandler8 2) 6 [0, 1, 2, 4, 5, 6] [0, 1, 2, 4, 5, 6, 7] (by decide)
      (by decide) (by decide) (by decide)⟩

/-! ### The claims relating feasibility and selection -/

/-- C36: for every request `n` of at least 1 and every topology, in
particular for `n <= MaxNodeNPUNum`, `MaxNodeNPUNum` even and a topology of
distinct indices below `MaxNodeNPUNum`, if `SelectNPUByTaskNPUNumAndNodeTop`
returns a device list without error then `Judge910BNodeAndTaskNPU` accepts
the same request on the same topology and handler. -/
theorem select_implies_judge (tp : Base910b) (n : Int) (nodeTop devices : List Int)
    (h1 : 1 ≤ n)
    (hsel : tp.SelectNPUByTaskNPUNumAndNodeTop n nodeTop = some (.ok devices)) :
    tp.Judge910BNodeAndTaskNPU n nodeTop = .ok () := by
  by_cases hne : n = tp.MaxNodeNPUNum
  · subst hne
    rw [judge_full_eq]
    by_cases h : (nodeTop.length : Int) = tp.MaxNodeNPUNum
    · rw [if_pos h]
    · simp [Base910b.SelectNPUByTaskNPUNumAndNodeTop, h] at hsel
  · obtain ⟨hv, ps, l, r, c, p, hps, hg, hmem, hmatch, _, hnp, _⟩ :=
      select_ok_inv tp n nodeTop devices hne hsel
    obtain ⟨hl, hr, hc, _⟩ := cross_group_cases tp nodeTop l r c hg
    rw [judge_accept_iff tp n nodeTop hne]
    refine ⟨hv, ?_⟩
    rcases hmatch with h | h | h
    · left
      rw [← hl]
      omega
    · right; left
      rw [← hr]
      omega
    · rcases hc with hc | ⟨hgt, heq⟩
      · rw [hc] at h
        simp only [List.length_nil, Nat.cast_zero] at h
        omega
      · right; right
        constructor
        · by_contra hle
          have := ((priorityArray_mem tp n ps hv hne hps).1 (by omega) p).mp hmem
          omega
        · omega

/-- Witness of C36: the request 6 served from the cross-module group of the
free devices 0, 1, 2, 4, 5, 6 is accepted by the feasibility check. -/
theorem select_implies_judge_witness :
    (exampleHandler8 1).Judge910BNodeAndTaskNPU 6 [0, 1, 2, 4, 5, 6] = .ok () :=
  select_implies_judge (exampleHandler8 1) 6 [0, 1, 2, 4, 5, 6] [0, 4, 1, 5, 2, 6] (by decide)
    (by decide)

/-- C39: for a request `n` with `1 <= n <= MaxNodeNPUNum / 2` and
`n < MaxNodeNPUNum` and every topology, whenever
`SelectNPUByTaskNPUNumAndNodeTop` succeeds the returned devices are the first
`n` devices of the left group or of the right group of `GetNodeHccsArray`, so
they are all below `MaxNodeNPUNum / 2` or all at or above it: the cross-module
group is not used. -/
theorem select_local (tp : Base910b) (n : Int) (nodeTop devices : List Int)
    (h1 : 1 ≤ n) (hhalf : n ≤ tp.MaxNodeNPUNum.tdiv NPUIndex2) (hlt : n < tp.MaxNodeNPUNum)
    (hsel : tp.SelectNPUByTaskNPUNumAndNodeTop n nodeTop = some (.ok devices)) :
    ((∀ d ∈ devices, d < tp.MaxNodeNPUNum.tdiv NPUIndex2) ∨
      (∀ d ∈ devices, tp.MaxNodeNPUNum.tdiv NPUIndex2 ≤ d)) ∧
    ∃ l r c, tp.GetNodeHccsArray nodeTop (decide (tp.NPUTaskNum > 1)) = some (l, r, c) ∧
      (devices = l.take n.toNat ∨ devices = r.take n.toNat) := by
  simp only [NPUIndex2] at hhalf ⊢
  have hne : n ≠ tp.MaxNodeNPUNum := by omega
  obtain ⟨hv, ps, l, r, c, p, hps, hg, hmem, hmatch, _, hnp, hdev⟩ :=
    select_ok_inv tp n nodeTop devices hne hsel
  obtain ⟨hl, hr, hc, _⟩ := cross_group_cases tp nodeTop l r c hg
  have hple := ((priorityArray_mem tp n ps hv hne hps).1 hhalf p).mp hmem
  have hnotc : p = (l.length : Int) ∨ p = (r.length : Int) := by
    rcases hmatch with h | h | h
    · exact Or.inl h
    · exact Or.inr h
    · rcases hc with hc | ⟨hgt, _⟩
      · rw [hc] at h
        simp only [List.length_nil, Nat.cast_zero] at h
        omega
      · omega
  by_cases hpl : p = (l.length : Int)
  · rw [if_pos hpl] at hdev
    refine ⟨Or.inl ?_, l, r, c, hg, Or.inl hdev⟩
    intro d hd
    rw [hdev] at hd
    have hd' := List.mem_of_mem_take hd
    rw [hl] at hd'
    simpa using (List.mem_filter.mp hd').2
  · have hpr : p = (r.length : Int) := hnotc.resolve_left hpl
    rw [if_neg hpl, if_pos hpr] at hdev
    refine ⟨Or.inr ?_, l, r, c, hg, Or.inr hdev⟩
    intro d hd
    rw [hdev] at hd
    have hd' := List.mem_of_mem_take hd
    rw [hr] at hd'
    simpa using (List.mem_filter.mp hd').2

/-- Witness of C39: the request 2 on the free devices 0, 4, 5, 6 is served
from the right half. -/
theorem select_local_witness :
    ((∀ d ∈ [4, 5], d < (exampleHandler8 1).MaxNodeNPUNum.tdiv NPUIndex2) ∨
      (∀ d ∈ [4, 5], (exampleHandler8 1).MaxNodeNPUNum.tdiv NPUIndex2 ≤ d)) ∧
    ∃ l r c, (exampleHandler8 1).GetNodeHccsArray [0, 4, 5, 6]
        (decide ((exampleHandler8 1).NPUTaskNum > 1)) = some (l, r, c) ∧
      ([4, 5] = l.take (2 : Int).toNat ∨ [4, 5] = r.take (2 : Int).toNat) :=
  select_local (exampleHandler8 1) 2 [0, 4, 5, 6] [4, 5] (by decide) (by decide) (by decide)
    (by decide)

/-- C35, the claim refuted on a handler of a node of 8 devices that accepts
the requests 1 to 8: the request 5 is accepted by `Judge910BNodeAndTaskNPU` on
the distinct free devices 0, 1, 2, 4, 5, 6 through the three cross-module
pairs, and `SelectNPUByTaskNPUNumAndNodeTop` returns an error on the same
pair, the priority array being 5, 7 and the groups having 3, 3 and 6
devices. -/
theorem judge_not_select_counterexample :
    ((1 : Int) ≤ 5 ∧ (5 : Int) ≤ (exampleHandler8 1).MaxNodeNPUNum) ∧
    (exampleHandler8 1).IsVaildNpuNum 5 = true ∧
    (exampleHandler8 1).MaxNodeNPUNum % 2 = 0 ∧
    ([0, 1, 2, 4, 5, 6] : List Int).Nodup ∧
    (∀ d ∈ ([0, 1, 2, 4, 5, 6] : List Int), 0 ≤ d ∧ d < (exampleHandler8 1).MaxNodeNPUNum) ∧
    (exampleHandler8 1).Judge910BNodeAndTaskNPU 5 [0, 1, 2, 4, 5, 6] = .ok () ∧
    (exampleHandler8 1).GetNPUAllocPriorityArray 5 = .ok [5, 7] ∧
    (exampleHandler8 1).GetNodeHccsArray [0, 1, 2, 4, 5, 6] false =
      some ([0, 1, 2], [4, 5, 6], [0, 4, 1, 5, 2, 6]) ∧
    (exampleHandler8 1).SelectNPUByTaskNPUNumAndNodeTop 5 [0, 1, 2, 4, 5, 6] =
      some (.error "node top<6> can not meet task req<5>") := by
  decide

/-- C35 as amended: for every request `n` with `1 <= n <= MaxNodeNPUNum`
accepted by `IsVaildNpuNum` that is at most `MaxNodeNPUNum / 2` or even,
`MaxNodeNPUNum` even, and every topology of distinct indices from 0 up to
`MaxNodeNPUNum - 1`, if `Judge910BNodeAndTaskNPU` accepts the request on the
topology then `SelectNPUByTaskNPUNumAndNodeTop` returns a device list without
error on the same pair and handler. -/
theorem judge_implies_select (tp : Base910b) (n : Int) (nodeTop : List Int)
    (h1 : 1 ≤ n) (hle : n ≤ tp.MaxNodeNPUNum) (hvalid : tp.IsVaildNpuNum n = true)
    (heven : tp.MaxNodeNPUNum % 2 = 0) (hnd : nodeTop.Nodup)
    (hrange : ∀ d ∈ nodeTop, 0 ≤ d ∧ d < tp.MaxNodeNPUNum)
    (hpar : n ≤ tp.MaxNodeNPUNum.tdiv NPUIndex2 ∨ n % 2 = 0)
    (hacc : tp.Judge910BNodeAndTaskNPU n nodeTop = .ok ()) :
    ∃ devices, tp.SelectNPUByTaskNPUNumAndNodeTop n nodeTop = some (.ok devices) := by
  simp only [NPUIndex2] at hpar
  by_cases hne : n = tp.MaxNodeNPUNum
  · subst hne
    rw [judge_full_eq] at hacc
    by_cases h : (nodeTop.length : Int) = tp.MaxNodeNPUNum
    · exact ⟨nodeTop, by simp [Base910b.SelectNPUByTaskNPUNumAndNodeTop, h]⟩
    · rw [if_neg h] at hacc
      cases hacc
  · rw [judge_accept_iff tp n nodeTop hne] at hacc
    obtain ⟨_, hd⟩ := hacc
    have hps := priorityArray_of_valid tp n hvalid hne
    obtain ⟨c, hg, _⟩ := GetNodeHccsArray_some tp nodeTop (decide (tp.NPUTaskNum > 1))
    obtain ⟨_, _, _, hclen⟩ := cross_group_cases tp nodeTop _ _ c hg
    have hmemps := priorityArray_mem tp n _ hvalid hne hps
    obtain ⟨hLle, hRle⟩ := halves_le_half tp nodeTop (by omega) heven hnd hrange
    have hex : ∃ q, q ∈ (if n ≤ tp.MaxNodeNPUNum.tdiv 2 then
          (List.range (tp.MaxNodeNPUNum.tdiv 2 - n + 1).toNat).map (fun k : Nat => n + (k : Int))
        else (List.range ((tp.MaxNodeNPUNum - n) / 2 + 1).toNat).map
          (fun k : Nat => n + 2 * (k : Int))) ∧
        (q = ((nodeTop.filter (fun v => decide (v < tp.MaxNodeNPUNum.tdiv 2))).length : Int) ∨
          q = ((nodeTop.filter (fun v => !decide (v < tp.MaxNodeNPUNum.tdiv 2))).length : Int) ∨
          q = (c.length : Int)) := by
      rcases hd with h | h | ⟨hgt, hcr⟩
      · exact ⟨_, ((hmemps.1 (by omega)) _).mpr ⟨h, hLle⟩, Or.inl rfl⟩
      · exact ⟨_, ((hmemps.1 (by omega)) _).mpr ⟨h, hRle⟩, Or.inr (Or.inl rfl)⟩
      · have hcl := hclen (by omega)
        have hce := cross_even tp nodeTop
        obtain ⟨hcmem, hcnd⟩ := groups_sound tp nodeTop _ _ c (decide (tp.NPUTaskNum > 1)) hg c
          (Or.inr (Or.inr rfl))
        have hcmax := nodup_length_le c 0 tp.MaxNodeNPUNum (hcnd hnd)
          (fun d hdc => hrange d (hcmem d hdc))
        have hn2 : n % 2 = 0 := by omega
        refine ⟨(c.length : Int), ((hmemps.2 hgt) _).mpr
          ⟨(((c.length : Int) - n) / 2).toNat, by omega, by omega⟩, Or.inr (Or.inr rfl)⟩
    rcases select_of_find tp n nodeTop _ _ _ c hne hps hg with ⟨hnone, _⟩ | ⟨p, hf, hres⟩
    · rw [List.find?_eq_none] at hnone
      obtain ⟨q, hq, hm⟩ := hex
      exact absurd (by simpa using hm) (hnone q hq)
    · obtain ⟨hmem, hmatch⟩ := find_matches _ _ _ _ p hf
      have hlen := chosen_length _ _ c p hmatch
      have hge := priorityArray_ge tp n _ hps p hmem
      rw [sliceTo_eq _ n (by omega) (by omega)] at hres
      exact ⟨_, hres⟩

/-- Witness of C35 as amended: the even request 6 accepted on the free devices
0, 1, 2, 4, 5, 6 is served. -/
theorem judge_implies_select_witness :
    ∃ devices, (exampleHandler8 1).SelectNPUByTaskNPUNumAndNodeTop 6 [0, 1, 2, 4, 5, 6] =
      some (.ok devices) :=
  judge_implies_select (exampleHandler8 1) 6 [0, 1, 2, 4, 5, 6] (by decide) (by decide)
    (by decide) (by decide) (by decide) (by decide) (by decide) (by decide)

end Ascend910b

namespace Card310px2

/-! ### The score written by `getScore` -/

theorem utilMin_spec (a b : Int) :
    Ascend910b.utilMin a b ≤ a ∧ Ascend910b.utilMin a b ≤ b ∧
      (Ascend910b.utilMin a b = a ∨ Ascend910b.utilMin a b = b) := by
  unfold Ascend910b.utilMin
  split
  · exact ⟨le_refl _, by omega, Or.inl rfl⟩
  · exact ⟨by omega, le_refl _, Or.inr rfl⟩

theorem bestScoreLoop_min (table : List (List Int)) (n : Int) :
    ∀ (groups : List (List Int)) (best b : Int),
      (∀ g ∈ groups, g ≠ [] → ∀ v,
        Ascend910b.tableAt table (n - 1) ((g.length : Int) - 1) = some v → 0 ≤ v) →
      bestScoreLoop table n groups best = some b →
      b ≤ best ∧
      (∀ g ∈ groups, g ≠ [] → ∀ v,
        Ascend910b.tableAt table (n - 1) ((g.length : Int) - 1) = some v → b ≤ v) ∧
      (b = best ∨ ∃ g ∈ groups, g ≠ [] ∧
        Ascend910b.tableAt table (n - 1) ((g.length : Int) - 1) = some b) := by
  intro groups
  induction groups with
  | nil =>
    intro best b _ h
    simp only [bestScoreLoop, Option.some.injEq] at h
    exact ⟨by omega, fun g hg => absurd hg (List.not_mem_nil _), Or.inl h.symm⟩
  | cons g rest ih =>
    intro best b hnn h
    have hnn' : ∀ g' ∈ rest, g' ≠ [] → ∀ v,
        Ascend910b.tableAt table (n - 1) ((g'.length : Int) - 1) = some v → 0 ≤ v :=
      fun g' hg' => hnn g' (List.mem_cons_of_mem _ hg')
    by_cases hg : (g.length : Int) = 0
    · simp only [bestScoreLoop, hg, if_true] at h
      obtain ⟨h1, h2, h3⟩ := ih best b hnn' h
      refine ⟨h1, ?_, ?_⟩
      · intro g' hg' hne v hv
        rcases List.mem_cons.mp hg' with e | e
        · subst e
          exact absurd (List.length_eq_zero.mp (by exact_mod_cast hg)) hne
        · exact h2 g' e hne v hv
      · rcases h3 with h3 | ⟨g', hg', hne, hv⟩
        · exact Or.inl h3
        · exact Or.inr ⟨g', List.mem_cons_of_mem _ hg', hne, hv⟩
    · have hgne : g ≠ [] := by
        intro e
        apply hg
        rw [e]
        rfl
      cases hv : Ascend910b.tableAt table (n - 1) ((g.length : Int) - 1) with
      | none =>
        simp only [bestScoreLoop, hg, if_false, hv] at h
        cases h
      | some v =>
        obtain ⟨m1, m2, m3⟩ := utilMin_spec best v
        have hthird : ∀ x, x = Ascend910b.utilMin best v →
            (x = best ∨ ∃ g' ∈ g :: rest, g' ≠ [] ∧
              Ascend910b.tableAt table (n - 1) ((g'.length : Int) - 1) = some x) := by
          intro x hx
          rcases m3 with e | e
          · exact Or.inl (hx.trans e)
          · exact Or.inr ⟨g, List.mem_cons_self _ _, hgne, by rw [hv, hx, e]⟩
        simp only [bestScoreLoop, hg, if_false, hv] at h
        by_cases hz : Ascend910b.utilMin best v = 0
        · rw [if_pos hz] at h
          simp only [Option.some.injEq] at h
          refine ⟨by omega, ?_, hthird b h.symm⟩
          intro g' hg' hne v' hv'
          rcases List.mem_cons.mp hg' with e | e
          · subst e
            rw [hv] at hv'
            simp only [Option.some.injEq] at hv'
            omega
          · have := hnn' g' e hne v' hv'
            omega
        · rw [if_neg hz] at h
          obtain ⟨h1, h2, h3⟩ := ih _ b hnn' h
          refine ⟨by omega, ?_, ?_⟩
          · intro g' hg' hne v' hv'
            rcases List.mem_cons.mp hg' with e | e
            · subst e
              rw [hv] at hv'
              simp only [Option.some.injEq] at hv'
              omega
            · exact h2 g' e hne v' hv'
          · rcases h3 with h3 | ⟨g', hg', hne, hv'⟩
            · exact hthird b h3
            · exact Or.inr ⟨g', List.mem_cons_of_mem _ hg', hne, hv'⟩

theorem tableAt_nonneg (table : List (List Int))
    (hrows : ∀ row ∈ table, ∀ v ∈ row, (0 : Int) ≤ v) :
    ∀ i j v, Ascend910b.tableAt table i j = some v → 0 ≤ v := by
  intro i j v h
  unfold Ascend910b.tableAt at h
  by_cases hi : 0 ≤ i ∧ i < (table.length : Int)
  · rw [if_pos hi] at h
    cases hrow : table[i.toNat]? with
    | none =>
      rw [hrow] at h
      cases h
    | some row =>
      rw [hrow] at h
      simp only [] at h
      by_cases hj : 0 ≤ j ∧ j < (row.length : Int)
      · rw [if_pos hj] at h
        exact hrows row (List.getElem?_mem hrow) v (List.getElem?_mem h)
      · rw [if_neg hj] at h
        cases h
  · rw [if_neg hi] at h
    cases h

theorem getScore_value (c : Consts) (tp : card310px2) (job : NPUJob)
    (hjob : tp.NPUJob = some job) (n : Int) (node : NodeInfo)
    (top : List Int) (b : Int) (htop : usableTopOf tp job node = some top)
    (hb : bestScoreLoop tp.affScoreList n (tp.GetCardNumGroupsFromTop top) c.affScore2 = some b) :
    ∀ (nodes : List (Option NodeInfo)) (m m' : ScoreMap),
      getScore c tp n nodes m = some m' →
      (some node ∈ nodes ∨
        m.lookup node.Name = some (c.constNPUWeight * (tp.MaxCardNPUNum - b))) →
      m'.lookup node.Name = some (c.constNPUWeight * (tp.MaxCardNPUNum - b)) := by
  intro nodes
  induction nodes with
  | nil =>
    intro m m' h hor
    simp only [getScore, Option.some.injEq] at h
    rcases hor with hor | hor
    · exact absurd hor (List.not_mem_nil _)
    · rw [← h]
      exact hor
  | cons x rest ih =>
    intro m m' h hor
    cases x with
    | none =>
      rw [getScore] at h
      apply ih m m' h
      rcases hor with hor | hor
      · rcases List.mem_cons.mp hor with e | e
        · cases e
        · exact Or.inl e
      · exact Or.inr hor
    | some nd =>
      rw [getScore_cons_some c tp job hjob] at h
      by_cases hname : nd.Name = node.Name
      · rw [usableTopOf_name tp job nd node hname, htop] at h
        simp only [hb] at h
        apply ih _ m' h
        right
        rw [hname, lookup_scoreSet_self]
      · have hother : some node ∈ rest ∨
            m.lookup node.Name = some (c.constNPUWeight * (tp.MaxCardNPUNum - b)) := by
          rcases hor with hor | hor
          · rcases List.mem_cons.mp hor with e | e
            · cases e
              exact absurd rfl hname
            · exact Or.inl e
          · exact Or.inr hor
        cases hnd : usableTopOf tp job nd with
        | none =>
          rw [hnd] at h
          exact ih m m' h hother
        | some top' =>
          rw [hnd] at h
          simp only [] at h
          cases hb' : bestScoreLoop tp.affScoreList n (tp.GetCardNumGroupsFromTop top')
              c.affScore2 with
          | none =>
            rw [hb'] at h
            cases h
          | some b' =>
            rw [hb'] at h
            apply ih _ m' h
            rcases hother with e | e
            · exact Or.inl e
            · right
              rw [lookup_scoreSet_ne nd.Name node.Name _ (fun e' => hname e'.symm)]
              exact e

/-- C33, the claim refuted on the example handler, whose table has 2 rows and
2 columns as the one `New` sets and has no negative entry.  With
`MaxCardNPUNum = 4` the request 3 is between 1 and `MaxCardNPUNum`, the node
`n1` is known and its usable topology 0, 1, 2, 3 is extracted, and `getScore`
writes no score: it panics on `affScoreList[2]`.  With `MaxCardNPUNum = 2` and
the request 2 the same happens for a node whose card group has 3 devices, on
`affScoreList[1][2]`.  On the handler without job `getScore` panics on
`tp.NPUTaskNum` at the known node `n1`, whose topology its
`GetUsableTopFromNode` would extract. -/
theorem score_formula_counterexample :
    (∀ row ∈ exampleCard.affScoreList, ∀ v ∈ row, (0 : Int) ≤ v) ∧
    (((1 : Int) ≤ 3 ∧ (3 : Int) ≤ ({ exampleCard with MaxCardNPUNum := 4 } : card310px2).MaxCardNPUNum) ∧
      usableTopOf { exampleCard with MaxCardNPUNum := 4 } ⟨["task1"], 1⟩ ⟨"n1"⟩ =
        some [0, 1, 2, 3] ∧
      getScore exampleConsts { exampleCard with MaxCardNPUNum := 4 } 3 [some ⟨"n1"⟩]
        [("n1", 0)] = none) ∧
    (((1 : Int) ≤ 2 ∧ (2 : Int) ≤ exampleCard.MaxCardNPUNum) ∧
      usableTopOf { exampleCard with Nodes := [("n4", exampleNode "n4" "001")] }
        ⟨["task1"], 1⟩ ⟨"n4"⟩ = some [0, 0, 1] ∧
      exampleCard.GetCardNumGroupsFromTop [0, 0, 1] = [[0, 0, 1]] ∧
      getScore exampleConsts { exampleCard with Nodes := [("n4", exampleNode "n4" "001")] } 2
        [some ⟨"n4"⟩] [("n4", 0)] = none) ∧
    ((∀ mult, exampleCard.GetUsableTopFromNode (exampleNode "n1" "0123") mult =
        .ok [0, 1, 2, 3]) ∧
      getScore exampleConsts { exampleCard with NPUJob := none } 2 [some ⟨"n1"⟩]
        [("n1", 0)] = none) := by
  decide

/-- C33 as amended: for a handler that carries a job, when `affScoreList` has
the entry `affScoreList[n-1][len(g)-1]` for every non-empty card group `g` of
the listed nodes and no entry of the table is negative, `getScore` returns
and, for every listed node that the handler knows and whose usable topology
is extracted, the score map holds `constNPUWeight * (MaxCardNPUNum - b)` for
the node, where `b` is the minimum of `affScore2` and of the entries
`affScoreList[n-1][len(g)-1]` of all non-empty card groups `g` of the node:
`b` is at most `affScore2` and at most every such entry, and it is `affScore2`
or one of these entries.  This holds for every request `n`, in particular for
`1 <= n <= MaxCardNPUNum`. -/
theorem score_formula (c : Consts) (tp : card310px2) (job : NPUJob) (n : Int)
    (nodes : List (Option NodeInfo)) (scoreMap : ScoreMap) (node : NodeInfo) (top : List Int)
    (hjob : tp.NPUJob = some job)
    (hcover : ∀ nd, some nd ∈ nodes → ∀ t, usableTopOf tp job nd = some t →
      ∀ g ∈ tp.GetCardNumGroupsFromTop t, g ≠ [] →
        (Ascend910b.tableAt tp.affScoreList (n - 1) ((g.length : Int) - 1)).isSome = true)
    (hnonneg : ∀ i j v, Ascend910b.tableAt tp.affScoreList i j = some v → 0 ≤ v)
    (hnode : some node ∈ nodes) (htop : usableTopOf tp job node = some top) :
    ∃ m' b, getScore c tp n nodes scoreMap = some m' ∧
      m'.lookup node.Name = some (c.constNPUWeight * (tp.MaxCardNPUNum - b)) ∧
      b ≤ c.affScore2 ∧
      (∀ g ∈ tp.GetCardNumGroupsFromTop top, g ≠ [] → ∀ v,
        Ascend910b.tableAt tp.affScoreList (n - 1) ((g.length : Int) - 1) = some v → b ≤ v) ∧
      (b = c.affScore2 ∨ ∃ g ∈ tp.GetCardNumGroupsFromTop top, g ≠ [] ∧
        Ascend910b.tableAt tp.affScoreList (n - 1) ((g.length : Int) - 1) = some b) := by
  obtain ⟨m', hm', _⟩ := getScore_frame c tp job hjob n nodes scoreMap hcover
  obtain ⟨b, hb⟩ := bestScoreLoop_isSome tp.affScoreList n (tp.GetCardNumGroupsFromTop top)
    c.affScore2 (hcover node hnode top htop)
  obtain ⟨h1, h2, h3⟩ := bestScoreLoop_min tp.affScoreList n (tp.GetCardNumGroupsFromTop top)
    c.affScore2 b (fun g _ _ v hv => hnonneg _ _ v hv) hb
  exact ⟨m', b, hm', getScore_value c tp job hjob n node top b htop hb nodes scoreMap m' hm'
    (Or.inl hnode), h1, h2, h3⟩

/-- Witness of C33 as amended: for the request 2 and the node `n1` with the
free devices 0, 1, 2, 3, whose card groups both have 2 devices, the table
entry is 0 and the early exit is taken. -/
theorem score_formula_witness :
    ∃ m' b, getScore exampleConsts exampleCard 2 [some ⟨"n1"⟩, none] [("n2", 7)] = some m' ∧
      m'.lookup "n1" = some (exampleConsts.constNPUWeight * (exampleCard.MaxCardNPUNum - b)) ∧
      b ≤ exampleConsts.affScore2 ∧
      (∀ g ∈ exampleCard.GetCardNumGroupsFromTop [0, 1, 2, 3], g ≠ [] → ∀ v,
        Ascend910b.tableAt exampleCard.affScoreList (2 - 1) ((g.length : Int) - 1) = some v →
          b ≤ v) ∧
      (b = exampleConsts.affScore2 ∨ ∃ g ∈ exampleCard.GetCardNumGroupsFromTop [0, 1, 2, 3],
        g ≠ [] ∧
        Ascend910b.tableAt exampleCard.affScoreList (2 - 1) ((g.length : Int) - 1) = some b) :=
  score_formula exampleConsts exampleCard ⟨["task1"], 1⟩ 2 [some ⟨"n1"⟩, none] [("n2", 7)]
    ⟨"n1"⟩ [0, 1, 2, 3] rfl
    (by
      intro nd hnd t ht g hg hne
      have hn : nd = ⟨"n1"⟩ := by simpa using hnd
      subst hn
      have h1 : usableTopOf exampleCard ⟨["task1"], 1⟩ ⟨"n1"⟩ = some [0, 1, 2, 3] := by decide
      rw [h1] at ht
      cases ht
      have h2 : exampleCard.GetCardNumGroupsFromTop [0, 1, 2, 3] = [[0, 1], [2, 3]] := by
        decide
      rw [h2] at hg
      have hg' : g = [0, 1] ∨ g = [2, 3] := by simpa using hg
      rcases hg' with rfl | rfl <;> decide)
    (tableAt_nonneg _ (by decide)) (by decide) (by decide)

end Card310px2

namespace Api

/-! ### The claim on the inputs of the strategy -/

/-- C34: for two queue objects, in any two heaps, whose annotation maps agree
on the key "volcano.sh/dequeue-strategy" (both lack it, or both map it to the
same string), `NewQueueInfo` returns objects with the same `DequeueStrategy`,
whatever the names, weights and other annotations of the two queues are. -/
theorem strategy_depends_on_key (keys : V1beta1) (h1 h2 : Heap) (a1 a2 : Nat)
    (obj1 obj2 : Queue) (ho1 : h1.queues[a1]? = some obj1) (ho2 : h2.queues[a2]? = some obj2)
    (hagree : mapIndex obj1.Annotations DequeueStrategyAnnotationKey =
      mapIndex obj2.Annotations DequeueStrategyAnnotationKey) :
    DequeueStrategyAnnotationKey = "volcano.sh/dequeue-strategy" ∧
    ∃ q1 q2, NewQueueInfo.value keys h1 (some a1) = some q1 ∧
      NewQueueInfo.value keys h2 (some a2) = some q2 ∧
      q1.DequeueStrategy = q2.DequeueStrategy := by
  refine ⟨rfl, _, _, NewQueueInfo_value_eq keys h1 a1 obj1 ho1,
    NewQueueInfo_value_eq keys h2 a2 obj2 ho2, ?_⟩
  simp only [dequeueStrategyOf_eq, hagree]

/-- Witness of C34: the queue of the test with the mixed annotations and a
queue of another name and weight carrying only the strategy annotation both
get the strategy "fifo". -/
theorem strategy_depends_on_key_witness :
    ∃ q1 q2, NewQueueInfo.value exampleKeys (exampleHeap mixedAnnotations none) (some 0) =
        some q1 ∧
      NewQueueInfo.value exampleKeys
        { queues := [{ Name := "other", Annotations := none, Spec := ⟨1, none⟩ },
            { Name := "q2", Annotations := some [("volcano.sh/dequeue-strategy", "fifo")],
              Spec := ⟨3, some false⟩ }],
          infos := [] } (some 1) = some q2 ∧
      q1.DequeueStrategy = q2.DequeueStrategy :=
  (strategy_depends_on_key exampleKeys (exampleHeap mixedAnnotations none)
    { queues := [{ Name := "other", Annotations := none, Spec := ⟨1, none⟩ },
        { Name := "q2", Annotations := some [("volcano.sh/dequeue-strategy", "fifo")],
          Spec := ⟨3, some false⟩ }],
      infos := [] } 0 1 _ _ rfl rfl (by decide)).2

end Api

end Volcano
